import Mathlib

/-!
# MkWifiDev: console engine

A shallow embedding of `src/src/MkWifiDev.cpp` / `src/src/MkWifiDev.h`:
the severity filter, the line formatter (`Report`), the hex dump formatter
(`HexDump`), the sink multiplexer (`print` / `println`), the input arbiter
(`available` / `read`), the registry toggle and the poll (`loop`).

Conventions of the embedding

* A C string is the list of its characters before the terminator
  (`List Char`); `nullptr` for an optional tag is `none`.
* `uint8_t` members are natural numbers; the states the program can be in
  keep them below 256 (`MkWifiDev.WF`).
* An external `Stream` object is recorded by the calls it receives.
* Code that writes behind the end of a fixed-size array, reads an
  uninitialised array or hands `vsnprintf` a conversion without an argument has
  no defined continuation: the embedding returns a `Fault` there.
* The one access in front of an array, `buff[len-1]` with `len = 0` in `Report`,
  touches a single byte; its content is an input of the embedding
  (`Env.before`) and the access is recorded in `Report.Built`.
* What the collaborators of `loop` show during one call (clock, network server,
  client, platform texts) is an input of the embedding, the record `Poll`; a
  call of `loop` ends in an `Outcome`: it returns, or the device restarts.
-/

namespace MkWifiDev

/-! ## Constants of the header -/

/-- Enumerators of `enum MessageType`. -/
def NORMAL : Nat := 0
def VERBOSE : Nat := 1
def DEBUG : Nat := 2
def INFO : Nat := 3
def WARNING : Nat := 4
def ALERT : Nat := 5
def ERROR : Nat := 6
def CRITICAL : Nat := 7
def RAW_NO_TS : Nat := 8
def OVERRIDE : Nat := 128

/-- Enumerators of `enum DisplayFlags`. -/
def SHOW_TIMESTAMPS : Nat := 1
def SHOW_MILLISECONDS : Nat := 2
def SHOW_DATE : Nat := 4
def SHOW_COLOUR : Nat := 8
def SHOW_TYPE : Nat := 16
def WIDE_HEXDUMP : Nat := 0x80

/-- Enumerators of `enum Colours`. -/
def White : Nat := 37
def Cyan : Nat := 36
def Green : Nat := 32
def BrightBlue : Nat := 94
def Yellow : Nat := 33
def Magenta : Nat := 35
def Red : Nat := 31
def BrightRed : Nat := 91

/-- The table `colors[]` of `MkWifiDev.cpp`, indexed by `type & 7`. -/
def colors : List Nat :=
  [White, Cyan, Green, BrightBlue, Yellow, Magenta, Red, BrightRed]

def EVENT_MSG_MAX_LEN : Nat := 256

/-! ## Streams and the singleton state -/

/-- One call received by an external `Stream` object. -/
inductive SinkEvent where
  | print (text : List Char)
  | println (text : List Char)
  | flush
  deriving DecidableEq, Repr

/-- An external `Stream`: the bytes it still has to deliver to `read()` and
the output calls it has received, oldest first. -/
structure Stream where
  rx : List Nat
  tx : List SinkEvent
  deriving DecidableEq, Repr

/-- Append one received call to a stream. -/
def Stream.put (st : Stream) (e : SinkEvent) : Stream :=
  { st with tx := st.tx ++ [e] }

/-- Modelled from the spec: the declaration of the member `pCommand` is missing
from `MkWifiDev.h`; the implementation assigns it `pSerial` or `&serverClient`
only. It is the authoritative input source: the primary sink or the remote
terminal. -/
inductive CommandSource where
  | serial
  | client
  deriving DecidableEq, Repr

end MkWifiDev

/-- The data members of `class MkWifiDev` that the console engine uses, with the
function-local statics: `bReportBusy` of `Report`, and `waitForConfirm`,
`bSendWelcome`, `tconnect` of `loop`. `serial` is the stream `pSerial` points to,
`serverClient` the remote terminal, `logFile = none` is the null pointer. -/
structure MkWifiDev where
  dispMode : Nat
  bCommandMode : Bool
  enableFlags : Nat
  logFile : Option MkWifiDev.Stream
  serial : MkWifiDev.Stream
  serverClient : MkWifiDev.Stream
  pCommand : MkWifiDev.CommandSource
  termConnected : Nat
  bOtaBusy : Bool
  bReportBusy : Bool
  waitForConfirm : Nat
  bSendWelcome : Bool
  tconnect : Nat
  deriving DecidableEq, Repr

namespace MkWifiDev

/-- The state after construction: the member initialisers of the header. -/
def init : MkWifiDev where
  dispMode := SHOW_TIMESTAMPS ||| SHOW_COLOUR
  bCommandMode := false
  enableFlags := 0xFF
  logFile := none
  serial := ⟨[], []⟩
  serverClient := ⟨[], []⟩
  pCommand := .serial
  termConnected := 0
  bOtaBusy := false
  bReportBusy := false
  waitForConfirm := 0
  bSendWelcome := false
  tconnect := 0

/-- States the program can be in: the `uint8_t` members hold 8-bit values, the
formatter lock is free between calls, and the remote terminal is the command
source whenever it is marked attached (`loop` sets `termConnected = 1` together
with `pCommand = &serverClient`, and clears both together). -/
structure WF (s : MkWifiDev) : Prop where
  dispMode_lt : s.dispMode < 256
  enableFlags_lt : s.enableFlags < 256
  termConnected_lt : s.termConnected < 256
  lock_free : s.bReportBusy = false
  remote_cmd : s.termConnected ≠ 0 → s.pCommand = .client

/-- The enable bits that no code path toggles (`loop` toggles bits 1..4 only)
are still set, as the initialiser `0xFF` left them. -/
abbrev FixedBitsSet (s : MkWifiDev) : Prop :=
  s.enableFlags &&& 0xE1 = 0xE1

/-! ## Severity filter -/

/-- The function `bool MkWifiDev::IsMessageMuted(MessageType type)`. -/
def IsMessageMuted (s : MkWifiDev) (type : Nat) : Bool :=
  if type < 16 then
    if s.bCommandMode then true
    else if s.enableFlags &&& (1 <<< type) = 0 then true
    else false
  else false

/-! ## Sink multiplexer -/

/-- The call `pCommand->f(buff)`: the command source receives the event. -/
def toCommand (s : MkWifiDev) (e : SinkEvent) : MkWifiDev :=
  match s.pCommand with
  | .serial => { s with serial := s.serial.put e }
  | .client => { s with serverClient := s.serverClient.put e }

/-- The tail of `print` and `println`: `if(logFile) { logFile->f(buff); logFile->flush(); }`. -/
def toLogFile (s : MkWifiDev) (e : SinkEvent) : MkWifiDev :=
  match s.logFile with
  | some f => { s with logFile := some ((f.put e).put .flush) }
  | none => s

/-- The function `void MkWifiDev::println(const char *buff)`: the output goes to
all connected streams. -/
def println (s : MkWifiDev) (buff : List Char) : MkWifiDev :=
  let s1 := if s.termConnected ≠ 0 then toCommand s (.println buff) else s
  let s2 := { s1 with serial := s1.serial.put (.println buff) }
  toLogFile s2 (.println buff)

/-- The function `void MkWifiDev::print(const char *buff)`: the output goes to
all connected streams. -/
def print (s : MkWifiDev) (buff : List Char) : MkWifiDev :=
  let s1 := if s.termConnected ≠ 0 then toCommand s (.print buff) else s
  let s2 := { s1 with serial := s1.serial.put (.print buff) }
  toLogFile s2 (.print buff)

/-! ## C strings in fixed-size arrays -/

/-- Why a call has no defined continuation. -/
inductive Fault where
  /-- A string of `need` bytes (terminator included) was written into an array
  of `cap` bytes, `cap < need`. -/
  | overflow (cap need : Nat)
  /-- The array `timestamp` was read before anything was written to it. -/
  | uninitialised
  /-- A format handed to `vsnprintf` holds a conversion, but no argument. -/
  | badFormat
  /-- The loop `while(bReportBusy) delay(10);` was entered with the flag set. -/
  | blocked
  /-- The bound on loop iterations of the embedding was reached. -/
  | fuel
  deriving DecidableEq, Repr

deriving instance DecidableEq for Except

/-- An unbounded write (`strcpy`, `strcat`, `sprintf`) that leaves `text` in an
array of `cap` bytes: defined when `text` and its terminator fit. -/
def store (cap : Nat) (text : List Char) : Except Fault (List Char) :=
  if text.length + 1 ≤ cap then .ok text else .error (.overflow cap (text.length + 1))

/-- One decimal or hexadecimal digit, upper case. -/
def digitChar (d : Nat) : Char :=
  ['0', '1', '2', '3', '4', '5', '6', '7', '8', '9', 'A', 'B', 'C', 'D', 'E', 'F'].getD d '0'

/-- The conversion `%03d` of a value below 1000. -/
def dec3 (n : Nat) : List Char :=
  [digitChar (n / 100 % 10), digitChar (n / 10 % 10), digitChar (n % 10)]

/-- The conversion `%02X` of a `uint8_t`. -/
def hex2 (b : Nat) : List Char :=
  [digitChar (b % 256 / 16), digitChar (b % 16)]

/-- The conversion `%08X` of a `uint32_t`. -/
def hex8 (v : Nat) : List Char :=
  (List.range 8).reverse.map (fun i => digitChar (v % 2 ^ 32 / 16 ^ i % 16))

/-- The text `vsnprintf` makes of a format when the call has no variadic
argument: `%%` gives `%`, every other conversion needs an argument. -/
def printf0 : List Char → Option (List Char)
  | [] => some []
  | [c] => if c = '%' then none else some [c]
  | c :: d :: rest =>
    if c = '%' then
      if d = '%' then (printf0 rest).map (c :: ·) else none
    else (printf0 (d :: rest)).map (c :: ·)

/-! ## Message formatter -/

/-- What `gettimeofday`, `localtime`/`gmtime` and `strftime` deliver to one call
of `Report`: the text of each of the two `strftime` formats, and `tv.tv_usec`. -/
structure Clock where
  hms : List Char
  ymdhms : List Char
  usec : Nat
  deriving DecidableEq, Repr

/-- Both `strftime` formats have fixed width: `%H:%M:%S` and
`%Y/%m/%d %H:%M:%S` with a four-digit year. -/
structure Clock.WF (c : Clock) : Prop where
  hms_len : c.hms.length = 8
  ymdhms_len : c.ymdhms.length = 19

/-- The surroundings of one call of `Report`: the clock, and the byte the
memory holds right in front of the array `buff` (its address `buff - 1`). -/
structure Env where
  clock : Clock
  before : Char
  deriving DecidableEq, Repr

/-- The escape `"\033[%dm"` selecting colour `code`. -/
def colourEscape (code : Nat) : List Char :=
  ['\x1b', '['] ++ Nat.toDigits 10 code ++ ['m']

/-- The escape `"\033[0m"`. -/
def colourReset : List Char := ['\x1b', '[', '0', 'm']

/-- The literal `" : "` that follows the timestamp and the tag. -/
def sep : List Char := [' ', ':', ' ']

/-- The table `msg_types[] = " VDIWAEC"` of `Report`. -/
def msg_types : List Char := [' ', 'V', 'D', 'I', 'W', 'A', 'E', 'C']

/-- The block of `Report` that fills `char timestamp[40]`: `strftime` (bounded by
`sizeof(timestamp)`), the optional `sprintf` of the milliseconds, `strcat` of
`" : "`. -/
def Report.timestamp (c : Clock) (dispMode : Nat) : Except Fault (List Char) := do
  let t0 ← store 40 (if dispMode &&& SHOW_DATE ≠ 0 then c.ymdhms else c.hms)
  let t1 ← if dispMode &&& SHOW_MILLISECONDS ≠ 0
    then store 40 (t0 ++ '.' :: dec3 (c.usec / 1000 % 1000))
    else pure t0
  store 40 (t1 ++ sep)

/-- The line `Report` has built when it calls `println`, with what the strip
step did: the index `len - 1` it evaluated, and whether it stored the
terminator in front of the array. -/
structure Report.Built where
  text : List Char
  stripIndex : Int
  wroteBefore : Bool
  deriving DecidableEq, Repr

/-- The colour `Report` selects: the explicit code when the override flag is
set, else the table entry. -/
def Report.colour (type : Nat) : Nat :=
  if type &&& OVERRIDE ≠ 0 then type &&& 0x7F else colors.getD (type &&& 7) 0

/-- The first half of the body of `Report`: what `char buff[EVENT_MSG_MAX_LEN]`
holds when `len = strlen(buff)` is taken before `vsnprintf`. -/
def Report.head (env : Env) (dispMode : Nat) (tag : Option (List Char)) (type : Nat) :
    Except Fault (List Char) := do
  let timestamp : Option (List Char) ←
    if dispMode &&& SHOW_TIMESTAMPS ≠ 0 ∧ type ≠ RAW_NO_TS
    then (Report.timestamp env.clock dispMode).map some
    else pure none
  let buff0 : List Char := []
  let bColor : Bool := decide (dispMode &&& SHOW_COLOUR ≠ 0 ∧ type ≠ RAW_NO_TS)
  let buff1 ← if bColor then store EVENT_MSG_MAX_LEN (colourEscape (Report.colour type))
    else pure buff0
  let buff2 ← if dispMode &&& SHOW_TIMESTAMPS ≠ 0
    then (match timestamp with
      | some ts => store EVENT_MSG_MAX_LEN (buff1 ++ ts)
      | none => throw Fault.uninitialised)
    else pure buff1
  let buff3 ← match tag with
    | some t => do
        let b ← store EVENT_MSG_MAX_LEN (buff2 ++ t)
        store EVENT_MSG_MAX_LEN (b ++ sep)
    | none => pure buff2
  if dispMode &&& SHOW_TYPE ≠ 0 ∧ type &&& OVERRIDE = 0 ∧ type ≠ 0
    then store EVENT_MSG_MAX_LEN (buff3 ++ ['[', msg_types.getD (type &&& 7) ' ', ']'])
    else pure buff3

/-- The body of `Report` between the lock and `pSerial->flush()`: the contents of
`char buff[EVENT_MSG_MAX_LEN]`. `msg` is the text `format` and the variadic
arguments expand to; `vsnprintf` stores at most `sizeof(buff) - len - 1`
characters of it. The strip step reads `buff[len-1]`, which for `len = 0` is the
byte in front of the array. -/
def Report.build (env : Env) (dispMode : Nat) (tag : Option (List Char)) (type : Nat)
    (msg : List Char) : Except Fault Report.Built := do
  let buff4 ← Report.head env dispMode tag type
  let bColor : Bool := decide (dispMode &&& SHOW_COLOUR ≠ 0 ∧ type ≠ RAW_NO_TS)
  let len := buff4.length
  let buff5 := buff4 ++ msg.take (EVENT_MSG_MAX_LEN - len - 1)
  let len := buff5.length
  let stripIndex : Int := (len : Int) - 1
  let atIndex : Option Char := if len = 0 then some env.before else buff5.getLast?
  let buff6 := if atIndex = some '\n' then buff5.dropLast else buff5
  let buff7 ← if bColor then store EVENT_MSG_MAX_LEN (buff6 ++ colourReset) else pure buff6
  let buff8 := buff7.take (EVENT_MSG_MAX_LEN - 1)
  pure ⟨buff8, stripIndex, decide (len = 0 ∧ atIndex = some '\n')⟩

/-- The function
`void MkWifiDev::Report(const char* dbgTAGptr, MessageType type, const char *format,...)`,
`msg` being the expansion of `format` with its arguments. -/
def Report (env : Env) (s : MkWifiDev) (tag : Option (List Char)) (type : Nat)
    (msg : List Char) : Except Fault MkWifiDev :=
  if IsMessageMuted s type then .ok s
  else if s.bReportBusy then .error .blocked
  else do
    let b ← Report.build env s.dispMode tag type msg
    let s1 := { s with serial := s.serial.put .flush }
    pure (println s1 b.text)

/-- A call `Report(tag, type, format)` without variadic arguments. -/
def ReportFormat (env : Env) (s : MkWifiDev) (tag : Option (List Char)) (type : Nat)
    (format : List Char) : Except Fault MkWifiDev :=
  if IsMessageMuted s type then .ok s
  else match printf0 format with
    | some msg => Report env s tag type msg
    | none => if s.bReportBusy then .error .blocked else .error .badFormat

/-! ## Hex dump formatter -/

/-- The literal `" [Null ptr]"` of the format `"%s [Null ptr]"`. -/
def nullPtrText : List Char :=
  [' ', '[', 'N', 'u', 'l', 'l', ' ', 'p', 't', 'r', ']']

/-- The inner loop of `HexDump`, `for(int i=0; i<bwidth && len; i++, len--)`, with
`todo = bwidth - i` iterations to go; `buff` is `char buff[160]`, `mem` the byte
the memory holds at each address. Returns `buff`, `ptr` and `len` at loop exit. -/
def HexDump.bytes (mem : Nat → Nat) (bwidth : Nat) :
    (todo : Nat) → (ptr len : Nat) → (buff : List Char) → Except Fault (List Char × Nat × Nat)
  | 0, ptr, len, buff => pure (buff, ptr, len)
  | todo + 1, ptr, len, buff =>
    if len = 0 then pure (buff, ptr, len)
    else do
      let i := bwidth - (todo + 1)
      let buff1 ← if i &&& 7 = 0 then store 160 (buff ++ [' ']) else pure buff
      let buff2 ← store 160 (buff1 ++ (hex2 (mem ptr) ++ [' ']))
      HexDump.bytes mem bwidth todo (ptr + 1) (len - 1) buff2

/-- The loop `while(len > 0)` of `HexDump`, one row per iteration, at most `fuel`
iterations. A row goes through `Report` (short dump, `buff` as the format) or
straight to `println`. -/
def HexDump.rows (env : Env) (mem : Nat → Nat) (bwidth : Nat) (ShortDump bColor : Bool)
    (type : Nat) : (fuel : Nat) → MkWifiDev → (ptr len : Nat) → (buff : List Char) →
    Except Fault MkWifiDev
  | fuel, s, ptr, len, buff =>
    if len = 0 then pure s
    else match fuel with
      | 0 => throw Fault.fuel
      | fuel + 1 => do
        let buff1 ← store 160 (buff ++ (' ' :: hex8 ptr ++ [' ', ':']))
        let (buff2, ptr2, len2) ← HexDump.bytes mem bwidth bwidth ptr len buff1
        let buff3 ← if bColor && decide (len2 = 0) then store 160 (buff2 ++ colourReset)
          else pure buff2
        let s1 ← if ShortDump then ReportFormat env s none type buff3
          else pure (println s buff3)
        HexDump.rows env mem bwidth ShortDump bColor type fuel s1 ptr2 len2 []

/-- The function
`void MkWifiDev::HexDump(const char* dbgTAG, const char *message, void* addr, int len,
MessageType type)`; the header gives `type` the default `VERBOSE`. `addr = 0` is the null
pointer. Every row consumes a byte at least, so `len` iterations bound the loop. -/
def HexDump (env : Env) (mem : Nat → Nat) (s : MkWifiDev) (dbgTAG : Option (List Char))
    (message : List Char) (addr : Nat) (len : Int) (type : Nat) : Except Fault MkWifiDev :=
  if IsMessageMuted s type then pure s
  else if addr = 0 then do
    let buff ← store 160 (message ++ nullPtrText)
    ReportFormat env s dbgTAG type buff
  else do
    let bwidth : Nat := if s.dispMode &&& WIDE_HEXDUMP ≠ 0 then 32 else 16
    let ShortDump : Bool := decide (len ≤ ((bwidth / 2 : Nat) : Int))
    let (buff, s1) ← if ShortDump
      then (do
        let b ← store 160 message
        pure (b, s))
      else (do
        let s1 ← ReportFormat env s none type message
        pure ([], s1))
    let bColor : Bool :=
      decide (s1.dispMode &&& SHOW_COLOUR ≠ 0 ∧ type ≠ RAW_NO_TS) && !ShortDump
    let buff1 ← if bColor then store 160 (colourEscape (colors.getD (type &&& 7) 0))
      else pure buff
    HexDump.rows env mem bwidth ShortDump bColor type len.toNat s1 addr len.toNat buff1

/-! ## Input arbiter -/

/-- The call `available()` of an external `Stream`: the number of bytes waiting. -/
def Stream.available (st : Stream) : Nat := st.rx.length

/-- The call `peek()` of an external `Stream`: the next byte, which stays in the
stream, or `-1`. -/
def Stream.peek (st : Stream) : Int :=
  match st.rx with
  | [] => -1
  | b :: _ => (b : Int)

/-- The call `read()` of an external `Stream`: the next byte, which leaves the
stream, or `-1`. -/
def Stream.read (st : Stream) : Int × Stream :=
  match st.rx with
  | [] => (-1, st)
  | b :: rest => ((b : Int), { st with rx := rest })

/-- The stream `pCommand` points to. -/
def cmdStream (s : MkWifiDev) : Stream :=
  match s.pCommand with
  | .serial => s.serial
  | .client => s.serverClient

/-- The stream `pCommand` points to, replaced. -/
def setCmdStream (s : MkWifiDev) (st : Stream) : MkWifiDev :=
  match s.pCommand with
  | .serial => { s with serial := st }
  | .client => { s with serverClient := st }

/-- The function `int MkWifiDev::peek()`. -/
def peek (s : MkWifiDev) : Int := (cmdStream s).peek

/-- The function `int MkWifiDev::available()`. -/
def available (s : MkWifiDev) : Int :=
  if s.bCommandMode then 0
  else
    let ret : Int := ((cmdStream s).available : Int)
    if ret ≠ 0 ∧ peek s = 0x01 then 0 else ret

/-- The function `int MkWifiDev::read()`: the value returned and the state left. -/
def read (s : MkWifiDev) : Int × MkWifiDev :=
  if s.bCommandMode then (0, s)
  else ((cmdStream s).read.1, setCmdStream s (cmdStream s).read.2)

/-! ## Registry -/

/-- The function `uint8_t MkWifiDev::toggleTypeEnableFlag(uint8_t flagIndex)`: the
value returned and the state left. -/
def toggleTypeEnableFlag (s : MkWifiDev) (flagIndex : Nat) : Nat × MkWifiDev :=
  ((s.enableFlags ^^^ (1 <<< flagIndex)) % 256,
    { s with enableFlags := (s.enableFlags ^^^ (1 <<< flagIndex)) % 256 })

/-! ## The poll -/

/-- The macro `TERMINAL_WIDTH`. -/
def TERMINAL_WIDTH : Nat := 74

/-- The function `void MkWifiDev::printFullLine(char *line)`: a blank, `+`, dashes
up to position `TERMINAL_WIDTH-3`, `+`. -/
def printFullLine (s : MkWifiDev) : MkWifiDev :=
  println s ([' ', '+'] ++ List.replicate (TERMINAL_WIDTH - 4) '-' ++ ['+'])

/-- The function `void MkWifiDev::printWithEnd(char *line)`: the text is filled
with blanks up to position `TERMINAL_WIDTH-3`, cut there, and closed with `|`. -/
def printWithEnd (s : MkWifiDev) (line : List Char) : MkWifiDev :=
  println s
    ((line ++ List.replicate (TERMINAL_WIDTH - 2 - line.length) ' ').take (TERMINAL_WIDTH - 2) ++
      ['|'])

/-- The C function `tolower` in the C locale. -/
def tolower (c : Int) : Int :=
  if 65 ≤ c ∧ c ≤ 90 then c + 32 else c

/-- The conversion of an `int` to `char`, as a byte value. -/
def toChar (v : Int) : Nat := (v % 256).toNat

/-- The client `pserver->available()` (`accept()` on the ESP8266) hands over: its
stream, what `operator bool` and `connected()` say of it, and the text of its
`remoteIP()`. -/
structure Fresh where
  stream : Stream
  valid : Bool
  connected : Bool
  ip : List Char
  deriving DecidableEq, Repr

/-- What the collaborators outside the console show during one call of `loop`.

* `env`: the clock reading and the byte in front of the line buffer, for the
  `Report` calls of this poll.
* `background`: `connect_loop()`, `ArduinoOTA.handle()` with its callbacks,
  `checkMemUsage()` and the NTP block act on the console through `DBG_` reports
  (type and expanded text, no tag) and through `bOtaBusy` only; these are the
  reports in order, and `otaBusy` is the flag after them.
* `hasClient`: the test `pserver && pserver->hasClient()`.
* `valid`, `connected`: `operator bool` and `connected()` of the client that
  `serverClient` holds when the poll starts.
* `fresh`: the client accepted when one is accepted.
* `millis`: the value of `millis()`.
* `banner`: the build banner copied into `line`; `info`: the texts of the
  platform rows printed into `line` (ESP32 or ESP8266 build). -/
structure Poll where
  env : Env
  background : List (Nat × List Char)
  otaBusy : Bool
  hasClient : Bool
  valid : Bool
  connected : Bool
  fresh : Fresh
  millis : Nat
  banner : List Char
  info : List (List Char)
  deriving DecidableEq, Repr

/-- How a call of `loop` ends: it returns a value, or `esp_restart()` is reached
and control never returns. Both carry the console state at that point. -/
inductive Outcome where
  | returned (s : MkWifiDev) (busy : Bool)
  | restarted (s : MkWifiDev)
  deriving DecidableEq, Repr

/-- The console state an outcome carries. -/
def Outcome.state : Outcome → MkWifiDev
  | .returned s _ => s
  | .restarted s => s

/-- Whether the outcome is the restart. -/
def Outcome.restarts : Outcome → Bool
  | .returned _ _ => false
  | .restarted _ => true

/-- The head of `loop`: `connect_loop()`, `ArduinoOTA.handle()`, `checkMemUsage()`
and the NTP block, as the reports they make and the flag they leave. -/
def loop.background (p : Poll) (s : MkWifiDev) : Except Fault MkWifiDev := do
  let s1 ← p.background.foldlM (fun st r => Report p.env st none r.1 r.2) s
  pure { s1 with bOtaBusy := p.otaBusy }

/-- The four lines of the welcome box sent to the new client. -/
def welcomeLines : List (List Char) :=
  [" +---------------------------------------------+".toList,
   " |     Connected to remote device via WiFi     |".toList,
   " |        Press Ctrl-A for Command Mode        |".toList,
   " +---------------------------------------------+".toList]

/-- Whether this poll takes a new client: one is waiting and `serverClient` is
not a connected client. -/
def loop.accepts (p : Poll) : Bool :=
  p.hasClient && (!p.valid || !p.connected)

/-- What `serverClient.connected()` says after the accept block. -/
def loop.connected (p : Poll) : Bool :=
  if loop.accepts p then p.fresh.connected else p.connected

/-- The accept block of `loop`, `if (pserver && pserver->hasClient()) {...}`: when
`serverClient` is not a connected client the waiting one takes its place, is
reported, and command mode ends. Otherwise the waiting client is turned away. -/
def loop.accept (p : Poll) (s : MkWifiDev) : Except Fault MkWifiDev :=
  if loop.accepts p then
    (if !p.fresh.valid
      then Report p.env { s with serverClient := p.fresh.stream } none ALERT
        "available broken".toList
      else pure { s with serverClient := p.fresh.stream }) >>= fun s0 =>
    Report p.env s0 none ALERT ("Client connected with IP: ".toList ++ p.fresh.ip) >>= fun s1 =>
    pure { s1 with bSendWelcome := true, tconnect := p.millis % 2 ^ 32, bCommandMode := false }
  else pure s

/-- The welcome block of `loop`, `if(bSendWelcome && serverClient.connected()) {...}`:
more than 100 ms after the accept the box is sent to the client and the client
becomes the command source. -/
def loop.welcome (p : Poll) (s : MkWifiDev) : MkWifiDev :=
  if s.bSendWelcome && loop.connected p then
    if (p.millis % 2 ^ 32 + 2 ^ 32 - s.tconnect) % 2 ^ 32 > 100 then
      { s with
        serverClient := welcomeLines.foldl (fun st l => st.put (.println l)) s.serverClient
        bSendWelcome := false
        termConnected := 1
        pCommand := .client }
    else s
  else s

/-- The disconnect block of `loop`, `if(termConnected && !serverClient.connected()) {...}`. -/
def loop.disconnect (p : Poll) (s : MkWifiDev) : Except Fault MkWifiDev :=
  if s.termConnected ≠ 0 ∧ loop.connected p = false then
    Report p.env s none ALERT
      "Remote terminal disconnected, resuming control by serial port".toList >>= fun s1 =>
    pure { s1 with termConnected := 0, pCommand := .serial }
  else pure s

/-- The remote-terminal part of `loop`: accept, welcome, disconnect. -/
def loop.remote (p : Poll) (s : MkWifiDev) : Except Fault MkWifiDev :=
  loop.accept p s >>= fun s1 => loop.disconnect p (loop.welcome p s1)

/-- The end of `loop`: while a remote terminal is attached, bytes on the serial
port are reported and thrown away. -/
def loop.drain (p : Poll) (s : MkWifiDev) : Except Fault MkWifiDev :=
  if s.termConnected ≠ 0 ∧ s.serial.available ≠ 0 then do
    let s1 ← Report p.env s none ALERT
      "Remote terminal is active, ignoring local serial commands".toList
    pure { s1 with serial := { s1.serial with rx := [] } }
  else pure s

/-- The cases of `switch(c)` in `loop` other than `r`: the state left and the
value of `c` after the switch (`default` sets it to `0x01`). -/
def loop.switch (s : MkWifiDev) (c : Nat) : MkWifiDev × Nat :=
  if c = 'v'.toNat then ((toggleTypeEnableFlag s VERBOSE).2, c)
  else if c = 'd'.toNat then ((toggleTypeEnableFlag s DEBUG).2, c)
  else if c = 'i'.toNat then ((toggleTypeEnableFlag s INFO).2, c)
  else if c = 'w'.toNat then ((toggleTypeEnableFlag s WARNING).2, c)
  else if c = 't'.toNat then ({ s with dispMode := (s.dispMode ^^^ SHOW_TIMESTAMPS) % 256 }, c)
  else if c = 'y'.toNat then ({ s with dispMode := (s.dispMode ^^^ SHOW_DATE) % 256 }, c)
  else if c = 'm'.toNat then ({ s with dispMode := (s.dispMode ^^^ SHOW_MILLISECONDS) % 256 }, c)
  else if c = 'c'.toNat then ({ s with dispMode := (s.dispMode ^^^ SHOW_COLOUR) % 256 }, c)
  else if c = 'f'.toNat then ({ s with dispMode := (s.dispMode ^^^ SHOW_TYPE) % 256 }, c)
  else (s, 0x01)

/-- The mark of one severity in the menu: `#` when its bit is set. -/
def menuMark (enableFlags bit : Nat) : Char :=
  if enableFlags &&& bit ≠ 0 then '#' else ' '

/-- The menu row with the four severity marks. -/
def menuRow (enableFlags : Nat) : List Char :=
  " |    v)erbose [".toList ++ [menuMark enableFlags 2] ++ "]      d)ebug [".toList ++
    [menuMark enableFlags 4] ++ "]     i)nfo [".toList ++ [menuMark enableFlags 8] ++
    "]     w)arning [".toList ++ [menuMark enableFlags 16] ++ "]".toList

/-- The first row of the menu. -/
def menuHead : List Char :=
  " |  In Command Mode (Debug Paused) - Press Ctrl-A again to exit".toList

/-- The row of the menu with the display keys. -/
def menuKeys : List Char :=
  " |  t)imestamps   m)illiseconds   y)y/mm/dd   f)lags   c)olor   r)eset".toList

/-- The text of the example message, with the severity letter when the
severity-tag flag is on. -/
def exampleText (dispMode : Nat) : List Char :=
  (if dispMode &&& SHOW_TYPE ≠ 0 then "[V]".toList else []) ++
    "Example message with current settings".toList

/-- The platform rows of the panel, each printed into `line` and closed. -/
def loop.infoRows (rows : List (List Char)) (s : MkWifiDev) : Except Fault MkWifiDev :=
  rows.foldlM (fun st row =>
    store (TERMINAL_WIDTH + 1) row >>= fun line => pure (printWithEnd st line)) s

/-- The block `if(c==0x01) {...}` of `loop`: banner, platform rows, closing line.
The texts go through `char line[TERMINAL_WIDTH+1]`. -/
def loop.full (p : Poll) (s : MkWifiDev) : Except Fault MkWifiDev :=
  store (TERMINAL_WIDTH + 1) p.banner >>= fun line =>
  loop.infoRows p.info (printFullLine (printWithEnd s line)) >>= fun s1 =>
  pure (printFullLine s1)

/-- The end of the command block of `loop`: the three menu rows, the example
message through `Report` with the colour `Cyan`, the closing line. -/
def loop.menu (p : Poll) (s : MkWifiDev) : Except Fault MkWifiDev := do
  let line ← store (TERMINAL_WIDTH + 1) menuHead
  let s1 := printWithEnd s line
  let line ← store (TERMINAL_WIDTH + 1) (menuRow s1.enableFlags)
  let s2 := printWithEnd s1 line
  let line ← store (TERMINAL_WIDTH + 1) menuKeys
  let s3 := print (printFullLine (printWithEnd s2 line)) " | ".toList
  let s4 ← Report p.env s3 none (OVERRIDE ||| Cyan) (exampleText s3.dispMode)
  pure (printFullLine s4)

/-- The output of the command block of `loop` after the switch: the opening
line, the panel in full when `c` is `0x01`, the menu. -/
def loop.panel (p : Poll) (s : MkWifiDev) (c : Nat) : Except Fault MkWifiDev :=
  (if c = 0x01 then loop.full p (printFullLine s) else pure (printFullLine s)) >>= fun s1 =>
  loop.menu p s1

/-- The last statements of `loop`: the drain, and the value returned. -/
def loop.finish (p : Poll) (s : MkWifiDev) : Except Fault Outcome :=
  loop.drain p s >>= fun s1 => pure (.returned s1 s1.bOtaBusy)

/-- The block `if(peek() == 0x01) {...}` of `loop`: command mode is toggled; on
leaving it the byte is read and the return to normal mode reported. -/
def loop.toggle (p : Poll) (s : MkWifiDev) : Except Fault MkWifiDev :=
  if peek s = 0x01 then
    if s.bCommandMode then
      Report p.env
        (setCmdStream { s with bCommandMode := false }
          (cmdStream { s with bCommandMode := false }).read.2)
        none ALERT "Returning to normal mode".toList
    else pure { s with bCommandMode := true }
  else pure s

/-- The block `if(bCommandMode) {...}` of `loop` with what follows it: the key is
read and folded to lower case; `y` after `r` restarts, `r` asks for the
confirmation and returns, every other key goes through the switch, the panel
and the end of `loop`. -/
def loop.dispatch (p : Poll) (s : MkWifiDev) : Except Fault Outcome :=
  if (setCmdStream s (cmdStream s).read.2).waitForConfirm ≠ 0 ∧
      toChar (tolower (cmdStream s).read.1) = 'y'.toNat then
    Report p.env (setCmdStream s (cmdStream s).read.2) none ALERT
      "About to restart, please reconnect if using remote terminal".toList >>= fun s3 =>
    pure (.restarted s3)
  else if toChar (tolower (cmdStream s).read.1) = 'r'.toNat then
    pure (.returned
      { println
          (println { setCmdStream s (cmdStream s).read.2 with waitForConfirm := 0 }
            "Are you sure want to restart?".toList)
          "  Press \x27y\x27 to confirm, any other key to cancel:".toList
        with waitForConfirm := 1 }
      s.bOtaBusy)
  else
    loop.panel p
      (loop.switch { setCmdStream s (cmdStream s).read.2 with waitForConfirm := 0 }
        (toChar (tolower (cmdStream s).read.1))).1
      (loop.switch { setCmdStream s (cmdStream s).read.2 with waitForConfirm := 0 }
        (toChar (tolower (cmdStream s).read.1))).2 >>= fun s5 =>
    loop.finish p s5

/-- The command part of `loop`, from `char line[TERMINAL_WIDTH+1]` to the end of
the function: with input waiting, the reserved byte toggles command mode and,
while command mode is active, a key is dispatched. -/
def loop.command (p : Poll) (s : MkWifiDev) : Except Fault Outcome :=
  if (cmdStream s).available ≠ 0 then
    loop.toggle p s >>= fun s1 =>
    if s1.bCommandMode then loop.dispatch p s1 else loop.finish p s1
  else loop.finish p s

/-- The function `bool MkWifiDev::loop()`, built for the ESP32 or ESP8266 with WiFi. -/
def loop (p : Poll) (s : MkWifiDev) : Except Fault Outcome := do
  let s1 ← loop.background p s
  let s2 ← loop.remote p s1
  loop.command p s2

/-- Calls of `loop` one after the other, one poll record each, as long as the
device does not restart. -/
def loops : List Poll → MkWifiDev → Except Fault Outcome
  | [], s => pure (.returned s s.bOtaBusy)
  | p :: ps, s => do
    let o ← loop p s
    match o with
    | .returned s1 _ => loops ps s1
    | .restarted s1 => pure (.restarted s1)

/-! ## The output line as the specification words it -/

/-- The timestamp text: the date and time or the time alone, then the optional
milliseconds. -/
def timestampText (c : Clock) (dispMode : Nat) : List Char :=
  (if dispMode &&& SHOW_DATE ≠ 0 then c.ymdhms else c.hms) ++
    (if dispMode &&& SHOW_MILLISECONDS ≠ 0 then '.' :: dec3 (c.usec / 1000 % 1000) else [])

/-- The tag followed by `" : "`, when a tag was supplied. -/
def tagPart (tag : Option (List Char)) : List Char :=
  match tag with
  | some t => t ++ sep
  | none => []

/-- Everything the line format puts in front of the message:
`[ESC color] [timestamp " : "] [tag " : "] ["[" sevletter "]"]`. -/
def lineHead (c : Clock) (dispMode : Nat) (tag : Option (List Char)) (type : Nat) : List Char :=
  (if dispMode &&& SHOW_COLOUR ≠ 0 then colourEscape (Report.colour type) else []) ++
  (if dispMode &&& SHOW_TIMESTAMPS ≠ 0 then timestampText c dispMode ++ sep else []) ++
  tagPart tag ++
  (if dispMode &&& SHOW_TYPE ≠ 0 ∧ type ≠ NORMAL ∧ type &&& OVERRIDE = 0
    then ['[', msg_types.getD (type &&& 7) ' ', ']'] else [])

/-- The message with one trailing newline removed. -/
def stripNewline (msg : List Char) : List Char :=
  if msg.getLast? = some '\n' then msg.dropLast else msg

/-- The whole line of the format: head, stripped message, `[ESC reset]`. -/
def lineSpec (c : Clock) (dispMode : Nat) (tag : Option (List Char)) (type : Nat)
    (msg : List Char) : List Char :=
  lineHead c dispMode tag type ++ stripNewline msg ++
    (if dispMode &&& SHOW_COLOUR ≠ 0 then colourReset else [])

/-! ## The hex dump rows as the specification words them -/

/-- One byte group: two upper-case hexadecimal digits and a space, with an extra
space in front of every eighth byte of the row. -/
def byteGroup (mem : Nat → Nat) (addr i : Nat) : List Char :=
  (if i % 8 = 0 then [' '] else []) ++ (hex2 (mem (addr + i)) ++ [' '])

/-- The `n` byte groups of the row that starts at `addr`, in order. -/
def byteGroups (mem : Nat → Nat) (addr n : Nat) : List Char :=
  ((List.range n).map (byteGroup mem addr)).flatten

/-- One row: the 32-bit address as eight hexadecimal digits, then the groups. -/
def rowText (mem : Nat → Nat) (addr n : Nat) : List Char :=
  ' ' :: hex8 addr ++ [' ', ':'] ++ byteGroups mem addr n

/-- Row `k` of a long dump of `len` bytes from `addr`, `bwidth` bytes a row: the
colour escape opens the first row, the reset closes the last. -/
def dumpRow (mem : Nat → Nat) (bwidth : Nat) (colour : Bool) (type addr len k : Nat) :
    List Char :=
  (if colour ∧ k = 0 then colourEscape (colors.getD (type &&& 7) 0) else []) ++
    rowText mem (addr + k * bwidth) (min bwidth (len - k * bwidth)) ++
    (if colour ∧ len ≤ (k + 1) * bwidth then colourReset else [])

/-- The rows of a long dump: `ceil(len / bwidth)` of them. -/
def dumpRows (mem : Nat → Nat) (bwidth : Nat) (colour : Bool) (type addr len : Nat) :
    List (List Char) :=
  (List.range ((len + bwidth - 1) / bwidth)).map (dumpRow mem bwidth colour type addr len)

/-- Lines written one after the other with `println`. -/
def printlnAll (s : MkWifiDev) (lines : List (List Char)) : MkWifiDev :=
  lines.foldl println s

/-- A character of a dump row: a blank, a colon or a digit. -/
def IsRowChar (c : Char) : Prop :=
  c = ' ' ∨ c = ':' ∨ ∃ d, c = digitChar d

/-- Bytes per row: `bwidth = (dispMode & WIDE_HEXDUMP) ? 32 : 16`. -/
def hexWidth (dispMode : Nat) : Nat :=
  if dispMode &&& WIDE_HEXDUMP ≠ 0 then 32 else 16

/-- Whether the rows of a long dump are coloured: colour on, type not raw. -/
def rowColour (dispMode type : Nat) : Bool :=
  decide (dispMode &&& SHOW_COLOUR ≠ 0 ∧ type ≠ RAW_NO_TS)

/-! ## The command keys as the specification words them -/

/-- Whether the byte is the letter `ch` (given in lower case) or its capital,
which is 32 below. -/
def isKey (ch : Char) (b : Nat) : Bool :=
  b == ch.toNat || b + 32 == ch.toNat

/-- The command-mode keys as the specification words them: the bits a key flips
in `enableFlags` and in `dispMode`. The keys `v/d/i/w` flip the Verbose, Debug,
Info, Warning bit of `enableFlags`; `t/y/m/c/f` flip the timestamp, date,
milliseconds, colour, severity-tag bit of `dispMode`; every other key flips
nothing. -/
def keyMask (k : Nat) : Nat × Nat :=
  if isKey 'v' k then (1 <<< VERBOSE, 0)
  else if isKey 'd' k then (1 <<< DEBUG, 0)
  else if isKey 'i' k then (1 <<< INFO, 0)
  else if isKey 'w' k then (1 <<< WARNING, 0)
  else if isKey 't' k then (0, SHOW_TIMESTAMPS)
  else if isKey 'y' k then (0, SHOW_DATE)
  else if isKey 'm' k then (0, SHOW_MILLISECONDS)
  else if isKey 'c' k then (0, SHOW_COLOUR)
  else if isKey 'f' k then (0, SHOW_TYPE)
  else (0, 0)

/-- The restart rule as the specification words it, over the keystrokes in
order: a restart is performed on a keystroke if that key is `y` and the
keystroke right before it was `r`. The flag says whether the keystroke before
the first of the list was `r`. -/
def restartsOn : Bool → List Nat → Bool
  | _, [] => false
  | armed, k :: ks => (armed && isKey 'y' k) || restartsOn (isKey 'r' k) ks

/-- Whether a confirmation is pending after the keystrokes: the last one was
`r`. The flag says whether one was pending before the first. -/
def armedAfter : Bool → List Nat → Bool
  | armed, [] => armed
  | _, k :: ks => armedAfter (isKey 'r' k) ks

/-! ## Fixtures for the concrete instances -/

/-- A clock reading. -/
def exampleClock : Clock :=
  ⟨"12:34:56".toList, "2024/01/02 12:34:56".toList, 7000⟩

/-- A clock reading, with a letter in front of the line buffer. -/
def exampleEnv : Env := ⟨exampleClock, 'z'⟩

/-- Memory holding the byte `a % 251` at every address `a`. -/
def exampleMem (a : Nat) : Nat := a % 251

/-- A poll record for the concrete instances: nothing happens in the background,
no client is waiting and none is held. -/
def examplePoll : Poll where
  env := exampleEnv
  background := []
  otaBusy := false
  hasClient := false
  valid := false
  connected := false
  fresh := ⟨⟨[], []⟩, true, true, "10.0.0.7".toList⟩
  millis := 5000
  banner := " |  Console : Built Jan  1 2024 12:00:00".toList
  info := [" |  ESP32 Chip ID: 1234, (Revision 1), 2 cores, 240MHz".toList]

/-! ## The poll apart from its output -/

/-- A stream without the record of its output. -/
def Stream.quiet (st : Stream) : Stream := { st with tx := [] }

/-- The console without the record of the output its streams have received: the
members, and the input still waiting. -/
def core (s : MkWifiDev) : MkWifiDev :=
  { s with
    serial := s.serial.quiet
    serverClient := s.serverClient.quiet
    logFile := s.logFile.map Stream.quiet }

/-- An outcome without the record of the output. -/
def Outcome.core : Outcome → Outcome
  | .returned s busy => .returned (MkWifiDev.core s) busy
  | .restarted s => .restarted (MkWifiDev.core s)

/-- The console after the end of `loop`: no byte waits on the serial port while
a remote terminal is attached. -/
def drained (s : MkWifiDev) : MkWifiDev :=
  if s.termConnected ≠ 0 then { s with serial := { s.serial with rx := [] } } else s

/-- What the collaborators deliver fits the console: `strftime` widths, a banner
and platform rows that fit `line`, report texts and an address text of
moderate length. -/
structure Poll.WF (p : Poll) : Prop where
  clock : p.env.clock.WF
  background : ∀ r ∈ p.background, r.2.length ≤ 200
  banner : p.banner.length ≤ TERMINAL_WIDTH
  info : ∀ row ∈ p.info, row.length ≤ TERMINAL_WIDTH
  ip : p.fresh.ip.length ≤ 100

/-- The key the command block of `loop` reads: the next byte of the command
input as `char c = tolower(pCommand->read())` leaves it. -/
def key (s : MkWifiDev) : Nat := toChar (tolower (cmdStream s).read.1)

/-- The console with the next byte of the command input read. -/
def taken (s : MkWifiDev) : MkWifiDev := setCmdStream s (cmdStream s).read.2

/-- What `loop.toggle` does to the members and to the waiting input. -/
def toggled (s : MkWifiDev) : MkWifiDev :=
  if peek s = 0x01 then
    if s.bCommandMode then taken { s with bCommandMode := false }
    else { s with bCommandMode := true }
  else s

/-- What `loop.dispatch` does to the members and to the waiting input, and how
it ends. -/
def dispatched (s : MkWifiDev) : Outcome :=
  if s.waitForConfirm ≠ 0 ∧ key s = 'y'.toNat then .restarted (taken s)
  else if key s = 'r'.toNat then .returned { taken s with waitForConfirm := 1 } s.bOtaBusy
  else .returned (drained (loop.switch { taken s with waitForConfirm := 0 } (key s)).1) s.bOtaBusy

/-- What `loop.command` does to the members and to the waiting input, and how
it ends. -/
def arbiter (s : MkWifiDev) : Outcome :=
  if (cmdStream s).available ≠ 0 then
    if (toggled s).bCommandMode then dispatched (toggled s)
    else .returned (drained (toggled s)) s.bOtaBusy
  else .returned (drained s) s.bOtaBusy

/-- The remote part of a poll has nothing to do: no client is accepted, no
welcome is due, no disconnect is to be detected. -/
def RemoteIdle (p : Poll) (s : MkWifiDev) : Prop :=
  loop.accepts p = false ∧
  (s.bSendWelcome = true → loop.connected p = true →
    (p.millis % 2 ^ 32 + 2 ^ 32 - s.tconnect) % 2 ^ 32 ≤ 100) ∧
  (s.termConnected ≠ 0 → loop.connected p = true)

/-- What `loop.accept` does to the members and to the waiting input. -/
def accepted (p : Poll) (s : MkWifiDev) : MkWifiDev :=
  if loop.accepts p then
    { s with
      serverClient := p.fresh.stream
      bSendWelcome := true
      tconnect := p.millis % 2 ^ 32
      bCommandMode := false }
  else s

/-- What `loop.disconnect` does to the members. -/
def dropped (p : Poll) (s : MkWifiDev) : MkWifiDev :=
  if s.termConnected ≠ 0 ∧ loop.connected p = false then
    { s with termConnected := 0, pCommand := .serial }
  else s

/-- The members and the waiting input as the command part of a poll finds them:
after the background work and the remote part. -/
def settled (p : Poll) (s : MkWifiDev) : MkWifiDev :=
  dropped p (loop.welcome p (accepted p { s with bOtaBusy := p.otaBusy }))

/-- The members of the console other than the streams, and the waiting command
input, are the same in both states. -/
def SameMembers (a b : MkWifiDev) : Prop :=
  a.dispMode = b.dispMode ∧ a.bCommandMode = b.bCommandMode ∧ a.enableFlags = b.enableFlags ∧
  a.pCommand = b.pCommand ∧ a.termConnected = b.termConnected ∧
  a.waitForConfirm = b.waitForConfirm ∧ a.bSendWelcome = b.bSendWelcome ∧
  a.tconnect = b.tconnect ∧ (cmdStream a).rx = (cmdStream b).rx

/-- The state `b` is the state `a` after the command part has taken one byte:
the command-mode flag, the pending confirmation and the two registers are as
given, `rest` is the command input still waiting, and the members of the remote
part are those of `a`. -/
def Stepped (a b : MkWifiDev) (mode : Bool) (confirm flags disp : Nat) (rest : List Nat) :
    Prop :=
  b.bCommandMode = mode ∧ b.waitForConfirm = confirm ∧ b.enableFlags = flags ∧
  b.dispMode = disp ∧ (cmdStream b).rx = rest ∧ b.pCommand = a.pCommand ∧
  b.termConnected = a.termConnected ∧ b.bSendWelcome = a.bSendWelcome ∧
  b.tconnect = a.tconnect

/-! ## Theorems: severity filter -/

theorem land_of_fixed {e m : Nat} (h : e &&& 0xE1 = 0xE1) (hm : 0xE1 &&& m = m) :
    e &&& m = m := by
  calc e &&& m = e &&& (0xE1 &&& m) := by rw [hm]
    _ = (e &&& 0xE1) &&& m := by rw [Nat.land_assoc]
    _ = m := by rw [h, hm]

theorem muted_below_eight (s : MkWifiDev) (t : Nat) (ht : t < 8) :
    IsMessageMuted s t = true ↔
      (s.bCommandMode = true ∨ s.enableFlags &&& (1 <<< t) = 0) := by
  have h16 : t < 16 := by omega
  unfold IsMessageMuted
  by_cases hc : s.bCommandMode = true
  · simp [h16, hc]
  · by_cases hb : s.enableFlags &&& (1 <<< t) = 0
    · simp [h16, hb]
    · simp [h16, hc, hb]

/-- C1 (counterexample): in command mode the colour-override value
`OVERRIDE | Cyan` (the value `loop` itself reports with while command mode is
active) is not muted, although the claim calls every value muted then. -/
theorem C1_counterexample :
    ¬ (IsMessageMuted { init with bCommandMode := true } (OVERRIDE ||| Cyan) = true ↔
        (((OVERRIDE ||| Cyan = VERBOSE ∨ OVERRIDE ||| Cyan = DEBUG ∨ OVERRIDE ||| Cyan = INFO ∨
            OVERRIDE ||| Cyan = WARNING) ∧
          ({ init with bCommandMode := true } : MkWifiDev).enableFlags &&&
            (1 <<< (OVERRIDE ||| Cyan)) = 0) ∨
         ({ init with bCommandMode := true } : MkWifiDev).bCommandMode = true)) := by
  decide

/-- C1 (amended): for every message-type value other than 8..15 and every state
whose never-toggled enable bits 0, 5, 6, 7 are set, `IsMessageMuted` is true iff
the value is one of Verbose/Debug/Info/Warning with its bit cleared in
`enableFlags`, or command mode is active and the value is below 16. -/
theorem C1_IsMessageMuted_iff (s : MkWifiDev) (t : Nat)
    (hfix : FixedBitsSet s) (ht : t < 8 ∨ 16 ≤ t) :
    IsMessageMuted s t = true ↔
      (((t = VERBOSE ∨ t = DEBUG ∨ t = INFO ∨ t = WARNING) ∧
          s.enableFlags &&& (1 <<< t) = 0) ∨
        (s.bCommandMode = true ∧ t < 16)) := by
  rcases ht with ht | ht
  · rw [muted_below_eight s t ht]
    have h16 : t < 16 := by omega
    have hcases : t = 0 ∨ t = 1 ∨ t = 2 ∨ t = 3 ∨ t = 4 ∨ t = 5 ∨ t = 6 ∨ t = 7 := by omega
    have h0 : s.enableFlags &&& (1 <<< 0) ≠ 0 := by
      rw [land_of_fixed hfix (by decide)]; decide
    have h5 : s.enableFlags &&& (1 <<< 5) ≠ 0 := by
      rw [land_of_fixed hfix (by decide)]; decide
    have h6 : s.enableFlags &&& (1 <<< 6) ≠ 0 := by
      rw [land_of_fixed hfix (by decide)]; decide
    have h7 : s.enableFlags &&& (1 <<< 7) ≠ 0 := by
      rw [land_of_fixed hfix (by decide)]; decide
    simp only [VERBOSE, DEBUG, INFO, WARNING]
    rcases hcases with h | h | h | h | h | h | h | h <;> subst h
    · generalize s.enableFlags &&& (1 <<< 0) = x at h0 ⊢
      simp [h0]
    · generalize s.enableFlags &&& (1 <<< 1) = x
      simp; tauto
    · generalize s.enableFlags &&& (1 <<< 2) = x
      simp; tauto
    · generalize s.enableFlags &&& (1 <<< 3) = x
      simp; tauto
    · generalize s.enableFlags &&& (1 <<< 4) = x
      simp; tauto
    · generalize s.enableFlags &&& (1 <<< 5) = x at h5 ⊢
      simp [h5]
    · generalize s.enableFlags &&& (1 <<< 6) = x at h6 ⊢
      simp [h6]
    · generalize s.enableFlags &&& (1 <<< 7) = x at h7 ⊢
      simp [h7]
  · have h16 : ¬ t < 16 := by omega
    have hne : ¬ (t = VERBOSE ∨ t = DEBUG ∨ t = INFO ∨ t = WARNING) := by
      simp only [VERBOSE, DEBUG, INFO, WARNING]; omega
    simp [IsMessageMuted, h16, hne]

/-- C1 (witness): the initial state with the Info bit cleared, at `INFO`. -/
theorem C1_IsMessageMuted_iff_witness :
    FixedBitsSet { init with enableFlags := 0xF7 } ∧ (INFO < 8 ∨ 16 ≤ INFO) ∧
    (IsMessageMuted { init with enableFlags := 0xF7 } INFO = true ↔
      (((INFO = VERBOSE ∨ INFO = DEBUG ∨ INFO = INFO ∨ INFO = WARNING) ∧
          ({ init with enableFlags := 0xF7 } : MkWifiDev).enableFlags &&& (1 <<< INFO) = 0) ∨
        (({ init with enableFlags := 0xF7 } : MkWifiDev).bCommandMode = true ∧ INFO < 16))) :=
  ⟨by decide, by decide,
    C1_IsMessageMuted_iff { init with enableFlags := 0xF7 } INFO (by decide) (by decide)⟩

/-- C2: while command mode is active `IsMessageMuted` is true for every severity
Normal..Critical (values 0..7), whatever `enableFlags` holds. -/
theorem C2_commandMode_mutes_all (s : MkWifiDev) (t : Nat)
    (hcmd : s.bCommandMode = true) (ht : t ≤ 7) :
    IsMessageMuted s t = true := by
  have h16 : t < 16 := by omega
  simp [IsMessageMuted, h16, hcmd]

/-- C2 (witness): command mode with every enable bit set, at `ALERT`. -/
theorem C2_commandMode_mutes_all_witness :
    ({ init with bCommandMode := true } : MkWifiDev).bCommandMode = true ∧ ALERT ≤ 7 ∧
    ({ init with bCommandMode := true } : MkWifiDev).enableFlags &&& (1 <<< ALERT) ≠ 0 ∧
    IsMessageMuted { init with bCommandMode := true } ALERT = true :=
  ⟨rfl, by decide, by decide,
    C2_commandMode_mutes_all { init with bCommandMode := true } ALERT rfl (by decide)⟩

/-! ## Lemmas: message formatter -/

theorem store_ok {cap : Nat} {text : List Char} (h : text.length + 1 ≤ cap) :
    store cap text = .ok text := by
  simp [store, h]

theorem store_bind {α : Type} {cap : Nat} {text : List Char} (f : List Char → Except Fault α)
    (h : text.length + 1 ≤ cap) : (store cap text >>= f) = f text := by
  rw [store_ok h]; rfl

theorem timestamp_ok (c : Clock) (dispMode : Nat) (hc : c.WF) :
    Report.timestamp c dispMode = .ok (timestampText c dispMode ++ sep) := by
  have h1 := hc.hms_len
  have h2 := hc.ymdhms_len
  unfold Report.timestamp timestampText
  by_cases hd : dispMode &&& SHOW_DATE ≠ 0 <;> by_cases hm : dispMode &&& SHOW_MILLISECONDS ≠ 0 <;>
    simp [hd, hm, store, h1, h2, dec3, sep, bind, Except.bind, pure, Except.pure]

theorem timestampText_length_le (c : Clock) (dispMode : Nat) (hc : c.WF) :
    (timestampText c dispMode).length ≤ 23 := by
  have h1 := hc.hms_len
  have h2 := hc.ymdhms_len
  unfold timestampText
  by_cases hd : dispMode &&& SHOW_DATE ≠ 0 <;> by_cases hm : dispMode &&& SHOW_MILLISECONDS ≠ 0 <;>
    simp [hd, hm, h1, h2, dec3]

theorem ok_bind {α β : Type} (a : α) (f : α → Except Fault β) :
    (Except.ok a >>= f) = f a := rfl

theorem pure_bind_except {α β : Type} (a : α) (f : α → Except Fault β) :
    ((pure a : Except Fault α) >>= f) = f a := rfl

theorem map_ok {α β : Type} (a : α) (f : α → β) :
    Except.map f (Except.ok a : Except Fault α) = Except.ok (f a) := rfl

set_option maxHeartbeats 1000000 in
theorem head_ok (env : Env) (dispMode : Nat) (tag : Option (List Char)) (type : Nat)
    (hc : env.clock.WF) (ht : type ≠ RAW_NO_TS)
    (hlen : (lineHead env.clock dispMode tag type).length ≤ 255) :
    Report.head env dispMode tag type = .ok (lineHead env.clock dispMode tag type) := by
  unfold Report.head
  rw [timestamp_ok _ _ hc]
  unfold lineHead at hlen ⊢
  simp only [NORMAL] at hlen ⊢
  by_cases hcol : dispMode &&& SHOW_COLOUR ≠ 0 <;>
  by_cases hts : dispMode &&& SHOW_TIMESTAMPS ≠ 0 <;>
  by_cases hty : dispMode &&& SHOW_TYPE ≠ 0 <;>
  by_cases hov : type &&& OVERRIDE = 0 <;>
  by_cases hn : type ≠ 0 <;>
  cases tag <;>
  simp only [hcol, hts, hty, hov, hn, ht, if_true, if_false, not_true_eq_false,
    not_false_eq_true, and_true, and_false, and_self, ne_eq, decide_True, decide_False,
    map_ok, ok_bind, pure_bind_except, List.append_nil, List.nil_append, List.length_append,
    List.length_nil, List.length_cons, sep, tagPart, Bool.false_eq_true, reduceIte] at hlen ⊢ <;>
  repeat (first
    | rw [store_bind _ (by simp only [List.length_append, List.length_cons, List.length_nil,
        EVENT_MSG_MAX_LEN]; omega)]
    | rw [store_ok (by simp only [List.length_append, List.length_cons, List.length_nil,
        EVENT_MSG_MAX_LEN]; omega)]
    | simp only [ok_bind, pure_bind_except, List.append_assoc, List.nil_append, List.append_nil])
  all_goals rfl

theorem last_append_ok {l₁ l₂ : List Char} (h1 : l₁.getLast? ≠ some '\n')
    (h2 : l₂.getLast? ≠ some '\n') : (l₁ ++ l₂).getLast? ≠ some '\n' := by
  rw [List.getLast?_append]
  cases h : l₂.getLast? with
  | none => simpa using h1
  | some c => rw [h] at h2; simpa using h2

theorem last_sep_ok (l : List Char) : (l ++ sep).getLast? ≠ some '\n' := by
  rw [List.getLast?_append]
  simp [sep]

theorem lineHead_last (c : Clock) (dispMode : Nat) (tag : Option (List Char)) (type : Nat) :
    (lineHead c dispMode tag type).getLast? ≠ some '\n' := by
  unfold lineHead
  refine last_append_ok (last_append_ok (last_append_ok ?_ ?_) ?_) ?_
  · split
    · unfold colourEscape
      rw [List.getLast?_concat]
      simp
    · simp
  · split
    · exact last_sep_ok _
    · simp
  · cases tag with
    | none => simp [tagPart]
    | some t => exact last_sep_ok _
  · split <;> simp

theorem stripNewline_length_le (msg : List Char) : (stripNewline msg).length ≤ msg.length := by
  unfold stripNewline
  split
  · simp
  · exact Nat.le_refl _

theorem take_255_of_le {l : List Char} (h : l.length ≤ 255) :
    l.take (EVENT_MSG_MAX_LEN - 1) = l :=
  List.take_of_length_le (by simp only [EVENT_MSG_MAX_LEN]; omega)

theorem build_ok (env : Env) (dispMode : Nat) (tag : Option (List Char)) (type : Nat)
    (msg : List Char) (hc : env.clock.WF) (ht : type ≠ RAW_NO_TS)
    (hfit : (lineHead env.clock dispMode tag type).length + msg.length +
      (if dispMode &&& SHOW_COLOUR ≠ 0 then 4 else 0) ≤ 255) :
    Report.build env dispMode tag type msg =
      .ok ⟨lineSpec env.clock dispMode tag type msg,
        (((lineHead env.clock dispMode tag type).length + msg.length : Nat) : Int) - 1,
        decide (lineHead env.clock dispMode tag type = [] ∧ msg = [] ∧ env.before = '\n')⟩ := by
  have hlast := lineHead_last env.clock dispMode tag type
  have hstrip := stripNewline_length_le msg
  unfold Report.build lineSpec
  rw [head_ok env dispMode tag type hc ht (by omega)]
  simp only [ok_bind]
  generalize lineHead env.clock dispMode tag type = hd at *
  have htake : msg.take (EVENT_MSG_MAX_LEN - hd.length - 1) = msg :=
    List.take_of_length_le (by simp only [EVENT_MSG_MAX_LEN]; omega)
  rw [htake]
  -- the strip step
  have hstep : (if (if (hd ++ msg).length = 0 then some env.before else (hd ++ msg).getLast?) =
      some '\n' then (hd ++ msg).dropLast else hd ++ msg) = hd ++ stripNewline msg := by
    unfold stripNewline
    cases msg with
    | nil =>
      cases hd with
      | nil => simp
      | cons a l =>
        have h0 : (a :: l ++ ([] : List Char)).length ≠ 0 := by simp
        rw [if_neg h0]
        simp only [List.append_nil]
        rw [if_neg hlast]
        simp
    | cons a l =>
      have hne : (a :: l) ≠ [] := by simp
      have hl : (hd ++ a :: l).getLast? = (a :: l).getLast? := by
        rw [List.getLast?_append]
        cases h : (a :: l).getLast? with
        | none => simp at h
        | some c => simp
      have hlen : (hd ++ a :: l).length ≠ 0 := by simp
      rw [if_neg hlen, hl]
      split
      · rw [List.dropLast_append_of_ne_nil _ hne]
      · rfl
  rw [hstep]
  have hidx : (((hd ++ msg).length : Nat) : Int) - 1 = ((hd.length + msg.length : Nat) : Int) - 1 := by
    rw [List.length_append]
  have hflag : decide ((hd ++ msg).length = 0 ∧
      (if (hd ++ msg).length = 0 then some env.before else (hd ++ msg).getLast?) = some '\n') =
      decide (hd = [] ∧ msg = [] ∧ env.before = '\n') := by
    cases hd <;> cases msg <;> simp
  rw [hflag, hidx]
  by_cases hcol : dispMode &&& SHOW_COLOUR ≠ 0
  · simp only [hcol, ht, if_true, ne_eq, not_false_eq_true, and_self, decide_True,
      reduceIte] at hfit ⊢
    have hl : (hd ++ stripNewline msg ++ colourReset).length ≤ 255 := by
      simp only [List.length_append, colourReset, List.length_cons, List.length_nil]
      omega
    rw [store_bind _ (by simp only [EVENT_MSG_MAX_LEN]; omega), take_255_of_le hl]
    rfl
  · simp only [hcol, if_false, false_and, decide_False, Bool.false_eq_true, reduceIte,
      pure_bind_except, List.append_nil] at hfit ⊢
    have hl : (hd ++ stripNewline msg).length ≤ 255 := by
      simp only [List.length_append]
      omega
    rw [take_255_of_le hl]
    rfl

theorem land_shift_eq_zero {e t : Nat} (he : e < 256) (ht : 8 ≤ t) : e &&& (1 <<< t) = 0 := by
  rw [Nat.one_shiftLeft]
  apply Nat.eq_of_testBit_eq
  intro i
  rw [Nat.testBit_and, Nat.testBit_two_pow, Nat.zero_testBit]
  by_cases h : t = i
  · subst h
    have : e < 2 ^ t := Nat.lt_of_lt_of_le he (by
      calc 256 = 2 ^ 8 := by norm_num
        _ ≤ 2 ^ t := Nat.pow_le_pow_right (by norm_num) ht)
    rw [Nat.testBit_lt_two_pow this]
    rfl
  · simp [h]

theorem unmuted_ne_raw {s : MkWifiDev} {t : Nat} (he : s.enableFlags < 256)
    (hun : IsMessageMuted s t = false) : t ≠ RAW_NO_TS := by
  intro h
  subst h
  have : s.enableFlags &&& (1 <<< RAW_NO_TS) = 0 := land_shift_eq_zero he (by decide)
  simp [IsMessageMuted, RAW_NO_TS] at hun this
  omega

theorem Report_ok (env : Env) (s : MkWifiDev) (tag : Option (List Char)) (type : Nat)
    (msg : List Char) (hs : s.WF) (hc : env.clock.WF) (hun : IsMessageMuted s type = false)
    (hfit : (lineHead env.clock s.dispMode tag type).length + msg.length +
      (if s.dispMode &&& SHOW_COLOUR ≠ 0 then 4 else 0) ≤ 255) :
    Report env s tag type msg =
      .ok (println { s with serial := s.serial.put .flush }
        (lineSpec env.clock s.dispMode tag type msg)) := by
  unfold Report
  rw [hun, hs.lock_free,
    build_ok env s.dispMode tag type msg hc (unmuted_ne_raw hs.enableFlags_lt hun) hfit]
  rfl


/-! ## Theorems: message formatter -/

/-- C3: for every tag, display mode, unmuted type value and formatted message that
fits the buffer, the line `Report` hands to `println` is the colour escape (colour
on), the timestamp text and `" : "` (timestamps on), the tag and `" : "` (tag
supplied), `[` letter `]` with the letter `" VDIWAEC"[type & 7]` (severity-tag
flag on, type neither Normal nor an override), the message without one trailing
newline, and the reset (colour on), in this order. With timestamps, colour and
severity tag off and no tag, `Report(Info, "hi")` gives exactly `hi`; with the
severity tag on (timestamps off, no tag) `Report(Warning, "low battery")` gives
a line that contains `[W]` and does not contain `[I]`. -/
theorem C3_Report_line (env : Env) (s : MkWifiDev) (tag : Option (List Char)) (type : Nat)
    (msg : List Char) (hs : s.WF) (hc : env.clock.WF)
    (hun : IsMessageMuted s type = false)
    (hfit : (lineHead env.clock s.dispMode tag type).length + msg.length +
      (if s.dispMode &&& SHOW_COLOUR ≠ 0 then 4 else 0) ≤ 255) :
    Report env s tag type msg =
      .ok (println { s with serial := s.serial.put .flush }
        (lineSpec env.clock s.dispMode tag type msg)) ∧
    (s.dispMode &&& SHOW_TIMESTAMPS = 0 → s.dispMode &&& SHOW_COLOUR = 0 →
      s.dispMode &&& SHOW_TYPE = 0 → IsMessageMuted s INFO = false →
      Report env s none INFO "hi".toList =
        .ok (println { s with serial := s.serial.put .flush } "hi".toList)) ∧
    (s.dispMode &&& SHOW_TYPE ≠ 0 → s.dispMode &&& SHOW_TIMESTAMPS = 0 →
      IsMessageMuted s WARNING = false →
      ∃ line, Report env s none WARNING "low battery".toList =
          .ok (println { s with serial := s.serial.put .flush } line) ∧
        "[W]".toList <:+: line ∧ ¬ "[I]".toList <:+: line) := by
  refine ⟨Report_ok env s tag type msg hs hc hun hfit, ?_, ?_⟩
  · intro hts hcol hty hinfo
    have hh : lineHead env.clock s.dispMode none INFO = [] := by
      simp [lineHead, tagPart, hts, hcol, hty]
    rw [Report_ok env s none INFO _ hs hc hinfo (by rw [hh]; simp [hcol])]
    simp [lineSpec, hh, hcol, stripNewline]
  · intro hty hts hwarn
    by_cases hcol : s.dispMode &&& SHOW_COLOUR ≠ 0
    · have hh : lineHead env.clock s.dispMode none WARNING = "\x1b[33m[W]".toList := by
        unfold lineHead
        rw [if_pos hcol, if_neg (by simpa using hts), if_pos ⟨hty, by decide, by decide⟩]
        decide
      refine ⟨_, Report_ok env s none WARNING _ hs hc hwarn (by rw [hh, if_pos hcol]; decide), ?_⟩
      unfold lineSpec
      rw [hh, if_pos hcol]
      decide
    · have hh : lineHead env.clock s.dispMode none WARNING = "[W]".toList := by
        unfold lineHead
        rw [if_neg hcol, if_neg (by simpa using hts), if_pos ⟨hty, by decide, by decide⟩]
        decide
      refine ⟨_, Report_ok env s none WARNING _ hs hc hwarn (by rw [hh, if_neg hcol]; decide), ?_⟩
      unfold lineSpec
      rw [hh, if_neg hcol]
      decide

theorem exampleClock_wf : exampleClock.WF := ⟨by decide, by decide⟩

/-- C3 (witness): colour, timestamps, milliseconds and severity tag on, the tag
`NET`, a Warning whose text ends in a newline. -/
theorem C3_Report_line_witness :
    ({ init with dispMode := 27 } : MkWifiDev).WF ∧ exampleEnv.clock.WF ∧
    IsMessageMuted { init with dispMode := 27 } WARNING = false ∧
    Report exampleEnv { init with dispMode := 27 } (some "NET".toList) WARNING
        "low battery\n".toList =
      .ok (println { init with dispMode := 27, serial := ⟨[], [.flush]⟩ }
        "\x1b[33m12:34:56.007 : NET : [W]low battery\x1b[0m".toList) :=
  ⟨⟨by decide, by decide, by decide, rfl, by decide⟩, exampleClock_wf, by decide,
    (C3_Report_line exampleEnv { init with dispMode := 27 } (some "NET".toList) WARNING
      "low battery\n".toList ⟨by decide, by decide, by decide, rfl, by decide⟩ exampleClock_wf
      (by decide) (by decide)).1.trans (by decide)⟩

theorem land_two_pow_eq_zero {e t : Nat} (he : e < 2 ^ t) : e &&& 2 ^ t = 0 := by
  apply Nat.eq_of_testBit_eq
  intro i
  rw [Nat.testBit_and, Nat.testBit_two_pow, Nat.zero_testBit]
  by_cases h : t = i
  · subst h
    rw [Nat.testBit_lt_two_pow he]
    rfl
  · simp [h]

theorem override_ge {t : Nat} (h : t &&& OVERRIDE ≠ 0) : 128 ≤ t := by
  by_contra hlt
  exact h (land_two_pow_eq_zero (t := 7) (by omega))

theorem override_unmuted (s : MkWifiDev) {t : Nat} (h : t &&& OVERRIDE ≠ 0) :
    IsMessageMuted s t = false := by
  have := override_ge h
  have h16 : ¬ t < 16 := by omega
  simp [IsMessageMuted, h16]

/-- C4 (counterexample): in normal mode with timestamps on, `Report` with the
override value `OVERRIDE | Cyan` emits a line that starts with the timestamp
text and `" : "`. -/
theorem C4_counterexample :
    Report exampleEnv { init with dispMode := SHOW_TIMESTAMPS } none (OVERRIDE ||| Cyan)
        "x".toList =
      .ok (println { init with dispMode := SHOW_TIMESTAMPS, serial := ⟨[], [.flush]⟩ }
        (exampleEnv.clock.hms ++ " : ".toList ++ "x".toList)) := by
  decide

/-- C4 (amended): for every display mode, in either mode, a value with the
override bit is never muted and `Report` emits the line whose colour escape (colour
on) carries the explicit code `type & 0x7F`, not a table entry, and which keeps
the timestamp text and `" : "` whenever timestamps are on; no severity letter is
added. -/
theorem C4_override_line (env : Env) (s : MkWifiDev) (tag : Option (List Char)) (type : Nat)
    (msg : List Char) (hs : s.WF) (hc : env.clock.WF) (hov : type &&& OVERRIDE ≠ 0)
    (hfit : (lineHead env.clock s.dispMode tag type).length + msg.length +
      (if s.dispMode &&& SHOW_COLOUR ≠ 0 then 4 else 0) ≤ 255) :
    IsMessageMuted s type = false ∧
    Report env s tag type msg =
      .ok (println { s with serial := s.serial.put .flush }
        ((if s.dispMode &&& SHOW_COLOUR ≠ 0 then colourEscape (type &&& 0x7F) else []) ++
          (if s.dispMode &&& SHOW_TIMESTAMPS ≠ 0
            then timestampText env.clock s.dispMode ++ sep else []) ++
          tagPart tag ++ stripNewline msg ++
          (if s.dispMode &&& SHOW_COLOUR ≠ 0 then colourReset else []))) := by
  have hun := override_unmuted s hov
  refine ⟨hun, ?_⟩
  rw [Report_ok env s tag type msg hs hc hun hfit]
  have hsev : ¬ (s.dispMode &&& SHOW_TYPE ≠ 0 ∧ type ≠ NORMAL ∧ type &&& OVERRIDE = 0) :=
    fun h => hov h.2.2
  simp only [lineSpec, lineHead, Report.colour, if_pos hov, if_neg hsev, List.append_nil]

/-- C4 (witness): colour and timestamps on, the value `OVERRIDE | Cyan`. -/
theorem C4_override_line_witness :
    init.WF ∧ exampleEnv.clock.WF ∧ (OVERRIDE ||| Cyan) &&& OVERRIDE ≠ 0 ∧
    Report exampleEnv init none (OVERRIDE ||| Cyan) "x".toList =
      .ok (println { init with serial := ⟨[], [.flush]⟩ }
        "\x1b[36m12:34:56 : x\x1b[0m".toList) :=
  ⟨⟨by decide, by decide, by decide, rfl, by decide⟩, exampleClock_wf, by decide,
    (C4_override_line exampleEnv init none (OVERRIDE ||| Cyan) "x".toList
      ⟨by decide, by decide, by decide, rfl, by decide⟩ exampleClock_wf
      (by decide) (by decide)).2.trans (by decide)⟩

set_option maxRecDepth 100000 in
/-- C5 (failing input): the display flags of the initial state (timestamps and
colour), no tag, an Info message of 239 characters, which fills the capacity left
behind the sixteen characters of colour escape and timestamp.
`strcat(buff, "\033[0m")` then needs 260 bytes of the 256-byte array: the call
writes four bytes behind `buff` before the last position is set to the
terminator. -/
theorem C5_reset_written_past_buffer :
    Report exampleEnv init none INFO (List.replicate 239 'a') =
      .error (.overflow 256 260) := by
  decide

/-- C6 (failing input): timestamps, colour and severity tag off, no tag, an empty
formatted message. The strip step evaluates `buff[len-1]` at index `-1`: it
compares the byte in front of the array, and overwrites it when it is a
newline. The line handed to `println` is empty all the same. -/
theorem C6_strip_index_before_buffer (env : Env) :
    Report.build env 0 none ALERT [] = .ok ⟨[], -1, decide (env.before = '\n')⟩ ∧
    Report env { init with dispMode := 0 } none ALERT [] =
      .ok (println { init with dispMode := 0, serial := ⟨[], [.flush]⟩ } []) := by
  have hb : Report.build env 0 none ALERT [] = .ok ⟨[], -1, decide (env.before = '\n')⟩ := by
    by_cases h : env.before = '\n' <;>
      simp [Report.build, Report.head, h, bind, Except.bind, pure, Except.pure,
        SHOW_TIMESTAMPS, SHOW_COLOUR, SHOW_TYPE, EVENT_MSG_MAX_LEN]
  refine ⟨hb, ?_⟩
  have hm : IsMessageMuted { init with dispMode := 0 } ALERT = false := by decide
  unfold Report
  rw [hm]
  simp only [Bool.false_eq_true, if_false]
  rw [hb]
  rfl

/-! ## Theorems: hex dump with a null address -/

theorem printf0_of_not_mem : ∀ (l : List Char), '%' ∉ l → printf0 l = some l
  | [], _ => rfl
  | [c], h => by
    have hc : c ≠ '%' := fun e => h (by simp [e])
    rw [printf0, if_neg hc]
  | c :: d :: rest, h => by
    have hc : c ≠ '%' := fun e => h (by simp [e])
    have hr : '%' ∉ d :: rest := fun e => h (List.mem_cons_of_mem _ e)
    rw [printf0, if_neg hc, printf0_of_not_mem (d :: rest) hr]
    rfl

theorem ReportFormat_plain (env : Env) (s : MkWifiDev) (tag : Option (List Char)) (type : Nat)
    (format : List Char) (h : '%' ∉ format) :
    ReportFormat env s tag type format = Report env s tag type format := by
  unfold ReportFormat
  rw [printf0_of_not_mem format h]
  by_cases hm : IsMessageMuted s type = true
  · simp [hm, Report]
  · simp [hm]

set_option maxRecDepth 100000 in
/-- C7: a null address and a message of 149 characters: `sprintf(buff, "%s [Null ptr]",
message)` needs 161 bytes of `char buff[160]`, the text is written behind the
array before `Report` is called. A null address and the message `50%%`: the text
`50%% [Null ptr]` is handed to `Report` as its format, and the line written is
`50% [Null ptr]`, not the message text followed by `" [Null ptr]"`. -/
theorem C7_null_text_past_buffer :
    HexDump exampleEnv exampleMem init none (List.replicate 149 'a') 0 4 ALERT =
      .error (.overflow 160 161) ∧
    HexDump exampleEnv exampleMem { init with dispMode := 0 } none "50%%".toList 0 4 ALERT =
      .ok (println { init with dispMode := 0, serial := ⟨[], [.flush]⟩ }
        "50% [Null ptr]".toList) ∧
    "50% [Null ptr]".toList ≠ "50%%".toList ++ " [Null ptr]".toList := by
  decide

/-- Within `char buff[160]`: for every tag, every length, every unmuted severity
and every message text of at most 148 characters, `HexDump` with a null address
is exactly one `Report` call whose format is the message text followed by
`" [Null ptr]"`, with the tag and the severity handed on; no row is emitted. When
the message holds no `%` and the line fits, that call prints the line of the
message followed by `" [Null ptr]"`. -/
theorem null_address_within_buffer (env : Env) (mem : Nat → Nat) (s : MkWifiDev)
    (tag : Option (List Char)) (message : List Char) (len : Int) (type : Nat)
    (hun : IsMessageMuted s type = false) (hlen : message.length ≤ 148) :
    HexDump env mem s tag message 0 len type =
      ReportFormat env s tag type (message ++ nullPtrText) ∧
    (s.WF → env.clock.WF → '%' ∉ message →
      (lineHead env.clock s.dispMode tag type).length + (message ++ nullPtrText).length +
        (if s.dispMode &&& SHOW_COLOUR ≠ 0 then 4 else 0) ≤ 255 →
      HexDump env mem s tag message 0 len type =
        .ok (println { s with serial := s.serial.put .flush }
          (lineSpec env.clock s.dispMode tag type (message ++ nullPtrText)))) := by
  have hcall : HexDump env mem s tag message 0 len type =
      ReportFormat env s tag type (message ++ nullPtrText) := by
    unfold HexDump
    rw [hun]
    simp only [Bool.false_eq_true, if_false, if_true]
    rw [store_bind _ (by simp [nullPtrText]; omega)]
  refine ⟨hcall, ?_⟩
  intro hs hc hpct hfit
  have hno : '%' ∉ message ++ nullPtrText := by
    simp [nullPtrText, hpct]
  rw [hcall, ReportFormat_plain _ _ _ _ _ hno, Report_ok env s tag type _ hs hc hun hfit]

/-- An instance: the tag `NET`, the message `buf`, an Alert. -/
theorem null_address_within_buffer_example :
    IsMessageMuted init ALERT = false ∧ "buf".toList.length ≤ 148 ∧
    HexDump exampleEnv exampleMem init (some "NET".toList) "buf".toList 0 4 ALERT =
      .ok (println { init with serial := ⟨[], [.flush]⟩ }
        "\x1b[35m12:34:56 : NET : buf [Null ptr]\x1b[0m".toList) :=
  ⟨by decide, by decide,
    ((null_address_within_buffer exampleEnv exampleMem init (some "NET".toList) "buf".toList 4 ALERT
      (by decide) (by decide)).2 ⟨by decide, by decide, by decide, rfl, by decide⟩
      exampleClock_wf (by decide) (by decide)).trans (by decide)⟩

/-! ## Theorems: sink multiplexer -/

/-- C10: for every text, `println` and `print` hand the text to the primary sink
always, to the remote terminal exactly when `termConnected` is set, and to the log
sink exactly when one is attached, followed by a flush of the log sink; they
leave `dispMode`, `enableFlags` and `bCommandMode` as they were. -/
theorem C10_println_print (s : MkWifiDev) (text : List Char)
    (hremote : s.termConnected ≠ 0 → s.pCommand = .client) :
    ((println s text).serial.tx = s.serial.tx ++ [.println text] ∧
      (println s text).serverClient.tx =
        s.serverClient.tx ++ (if s.termConnected ≠ 0 then [.println text] else []) ∧
      (println s text).logFile =
        s.logFile.map (fun f => ⟨f.rx, f.tx ++ [.println text, .flush]⟩) ∧
      (println s text).dispMode = s.dispMode ∧ (println s text).enableFlags = s.enableFlags ∧
      (println s text).bCommandMode = s.bCommandMode) ∧
    ((print s text).serial.tx = s.serial.tx ++ [.print text] ∧
      (print s text).serverClient.tx =
        s.serverClient.tx ++ (if s.termConnected ≠ 0 then [.print text] else []) ∧
      (print s text).logFile =
        s.logFile.map (fun f => ⟨f.rx, f.tx ++ [.print text, .flush]⟩) ∧
      (print s text).dispMode = s.dispMode ∧ (print s text).enableFlags = s.enableFlags ∧
      (print s text).bCommandMode = s.bCommandMode) := by
  by_cases ht : s.termConnected ≠ 0
  · have hp := hremote ht
    cases hl : s.logFile <;>
      simp [println, print, toCommand, toLogFile, Stream.put, ht, hp, hl]
  · cases hl : s.logFile <;>
      simp [println, print, toCommand, toLogFile, Stream.put, ht, hl]

/-- C10 (witness): a remote terminal and a log sink attached. -/
theorem C10_println_print_witness :
    (({ init with termConnected := 1, pCommand := .client, logFile := some ⟨[], []⟩ } :
        MkWifiDev).termConnected ≠ 0 →
      ({ init with termConnected := 1, pCommand := .client, logFile := some ⟨[], []⟩ } :
        MkWifiDev).pCommand = .client) ∧
    (println { init with termConnected := 1, pCommand := .client, logFile := some ⟨[], []⟩ }
      "hi".toList).serverClient.tx = [.println "hi".toList] ∧
    (println { init with termConnected := 1, pCommand := .client, logFile := some ⟨[], []⟩ }
      "hi".toList).logFile = some ⟨[], [.println "hi".toList, .flush]⟩ :=
  ⟨fun _ => rfl,
    (C10_println_print
      { init with termConnected := 1, pCommand := .client, logFile := some ⟨[], []⟩ }
      "hi".toList (fun _ => rfl)).1.2.1,
    (C10_println_print
      { init with termConnected := 1, pCommand := .client, logFile := some ⟨[], []⟩ }
      "hi".toList (fun _ => rfl)).1.2.2.1⟩

/-! ## Lemmas: hex dump rows -/

theorem land_seven (i : Nat) : i &&& 7 = i % 8 :=
  Nat.and_pow_two_sub_one_eq_mod i 3

theorem byteGroup_length (mem : Nat → Nat) (addr i : Nat) :
    (byteGroup mem addr i).length = 3 + (if i % 8 = 0 then 1 else 0) := by
  unfold byteGroup hex2
  split <;> simp

theorem bytes_ok (mem : Nat → Nat) (bwidth rowAddr : Nat) :
    ∀ (todo ptr len n : Nat) (buff : List Char), todo ≤ bwidth →
      ptr = rowAddr + (bwidth - todo) →
      n ≤ todo → n ≤ len → (n = todo ∨ n = len) →
      buff.length +
        (((List.range' (bwidth - todo) n).map (byteGroup mem rowAddr)).flatten).length + 1 ≤ 160 →
      HexDump.bytes mem bwidth todo ptr len buff =
        .ok (buff ++ ((List.range' (bwidth - todo) n).map (byteGroup mem rowAddr)).flatten,
          ptr + n, len - n)
  | 0, ptr, len, n, buff, _, _, hn, _, _, _ => by
    have : n = 0 := by omega
    subst this
    simp [HexDump.bytes, pure, Except.pure]
  | todo + 1, ptr, len, n, buff, htodo, hptr, hn1, hn2, hn3, hfit => by
    unfold HexDump.bytes
    by_cases hlen : len = 0
    · subst hlen
      have : n = 0 := by omega
      subst this
      simp [pure, Except.pure]
    · rw [if_neg hlen]
      obtain ⟨m, rfl⟩ : ∃ m, len = m + 1 := ⟨len - 1, by omega⟩
      obtain ⟨k, rfl⟩ : ∃ k, n = k + 1 := ⟨n - 1, by omega⟩
      have hi : bwidth - todo = bwidth - (todo + 1) + 1 := by omega
      have hgl := byteGroup_length mem rowAddr (bwidth - (todo + 1))
      rw [List.range'_succ, List.map_cons, List.flatten_cons, List.length_append, ← hi] at hfit
      have ih := bytes_ok mem bwidth rowAddr todo (ptr + 1) m k
        (buff ++ byteGroup mem rowAddr (bwidth - (todo + 1))) (by omega) (by omega)
        (by omega) (by omega) (by omega)
        (by rw [List.length_append]; omega)
      rw [List.range'_succ, List.map_cons, List.flatten_cons, ← hi]
      simp only [land_seven]
      have hg : byteGroup mem rowAddr (bwidth - (todo + 1)) =
          (if (bwidth - (todo + 1)) % 8 = 0 then [' '] else []) ++ (hex2 (mem ptr) ++ [' ']) := by
        rw [hptr]; rfl
      have hp : ptr + 1 + k = ptr + (k + 1) := by omega
      have hl : m - k = m + 1 - (k + 1) := by omega
      by_cases h8 : (bwidth - (todo + 1)) % 8 = 0
      · rw [if_pos h8] at hg hgl
        have h1 : (buff ++ [' ']).length + 1 ≤ 160 := by
          simp only [List.length_append, List.length_cons, List.length_nil]
          omega
        have e : buff ++ [' '] ++ (hex2 (mem ptr) ++ [' ']) =
            buff ++ byteGroup mem rowAddr (bwidth - (todo + 1)) := by
          rw [hg, List.append_assoc]
        have h2 : (buff ++ byteGroup mem rowAddr (bwidth - (todo + 1))).length + 1 ≤ 160 := by
          rw [List.length_append, hgl]
          omega
        rw [if_pos h8, store_bind _ h1, e, store_bind _ h2]
        simp only [Nat.add_sub_cancel]
        rw [ih, List.append_assoc, hp, hl]
      · rw [if_neg h8] at hg hgl
        have e : buff ++ (hex2 (mem ptr) ++ [' ']) =
            buff ++ byteGroup mem rowAddr (bwidth - (todo + 1)) := by
          rw [hg]; rfl
        have h2 : (buff ++ byteGroup mem rowAddr (bwidth - (todo + 1))).length + 1 ≤ 160 := by
          rw [List.length_append, hgl]
          omega
        rw [if_neg h8, pure_bind_except, e, store_bind _ h2]
        simp only [Nat.add_sub_cancel]
        rw [ih, List.append_assoc, hp, hl]

theorem byteGroups_length (mem : Nat → Nat) (addr : Nat) :
    ∀ n : Nat, (byteGroups mem addr n).length = 3 * n + (n + 7) / 8
  | 0 => by simp [byteGroups]
  | n + 1 => by
    have ih := byteGroups_length mem addr n
    unfold byteGroups at ih ⊢
    rw [List.range_succ, List.map_append, List.flatten_append, List.length_append, ih]
    simp only [List.map_cons, List.map_nil, List.flatten_cons, List.flatten_nil,
      List.append_nil, byteGroup_length]
    split <;> omega

theorem hex8_length (v : Nat) : (hex8 v).length = 8 := by
  simp [hex8]

theorem rowText_length (mem : Nat → Nat) (addr n : Nat) :
    (rowText mem addr n).length = 11 + 3 * n + (n + 7) / 8 := by
  unfold rowText
  simp only [List.length_append, List.length_cons, List.length_nil, hex8_length,
    byteGroups_length]
  omega

/-- One iteration of the `while` loop up to the end of the `for` loop. -/
theorem row_ok (mem : Nat → Nat) (bwidth ptr len n : Nat) (buff : List Char)
    (hn1 : n ≤ bwidth) (hn2 : n ≤ len) (hn3 : n = bwidth ∨ n = len)
    (hfit : buff.length + (rowText mem ptr n).length + 1 ≤ 160) :
    (store 160 (buff ++ (' ' :: hex8 ptr ++ [' ', ':'])) >>= fun buff1 =>
        HexDump.bytes mem bwidth bwidth ptr len buff1) =
      .ok (buff ++ rowText mem ptr n, ptr + n, len - n) := by
  have hl := rowText_length mem ptr n
  have h1 : (buff ++ (' ' :: hex8 ptr ++ [' ', ':'])).length + 1 ≤ 160 := by
    simp only [List.length_append, List.length_cons, List.length_nil, hex8_length]
    omega
  have hg : (((List.range' (bwidth - bwidth) n).map (byteGroup mem ptr)).flatten) =
      byteGroups mem ptr n := by
    rw [Nat.sub_self, ← List.range_eq_range']
    rfl
  rw [store_bind _ h1, bytes_ok mem bwidth ptr bwidth ptr len n _ (Nat.le_refl _) (by omega)
    hn1 hn2 hn3 (by
      rw [hg, byteGroups_length]
      simp only [List.length_append, List.length_cons, List.length_nil, hex8_length]
      omega), hg]
  simp [rowText]

theorem digitChar_cases (d : Nat) :
    digitChar d ≠ '%' ∧ digitChar d ≠ '\n' := by
  unfold digitChar
  rcases Nat.lt_or_ge d 16 with h | h
  · interval_cases d <;> decide
  · rw [List.getD_eq_default _ _ (by simpa using h)]
    decide

theorem IsRowChar.ne {c : Char} (h : IsRowChar c) : c ≠ '%' ∧ c ≠ '\n' := by
  rcases h with h | h | ⟨d, h⟩
  · subst h; decide
  · subst h; decide
  · subst h; exact digitChar_cases d

theorem hex8_chars (v : Nat) : ∀ c ∈ hex8 v, IsRowChar c := by
  intro c hc
  simp only [hex8, List.mem_map] at hc
  obtain ⟨i, _, rfl⟩ := hc
  exact Or.inr (Or.inr ⟨_, rfl⟩)

theorem byteGroup_chars (mem : Nat → Nat) (addr i : Nat) :
    ∀ c ∈ byteGroup mem addr i, IsRowChar c := by
  intro c hc
  simp only [byteGroup, hex2, List.mem_append, List.mem_cons, List.not_mem_nil,
    or_false] at hc
  rcases hc with hc | (hc | hc) | hc
  · split at hc
    · exact Or.inl (by simpa using hc)
    · simp at hc
  · exact Or.inr (Or.inr ⟨_, hc⟩)
  · exact Or.inr (Or.inr ⟨_, hc⟩)
  · exact Or.inl hc

theorem byteGroups_chars (mem : Nat → Nat) (addr n : Nat) :
    ∀ c ∈ byteGroups mem addr n, IsRowChar c := by
  intro c hc
  simp only [byteGroups, List.mem_flatten, List.mem_map] at hc
  obtain ⟨l, ⟨i, _, rfl⟩, hcl⟩ := hc
  exact byteGroup_chars mem addr i c hcl

theorem rowText_chars (mem : Nat → Nat) (addr n : Nat) :
    ∀ c ∈ rowText mem addr n, IsRowChar c := by
  intro c hc
  simp only [rowText, List.mem_append, List.mem_cons, List.not_mem_nil, or_false] at hc
  rcases hc with ((hc | hc) | (hc | hc)) | hc
  · exact Or.inl hc
  · exact hex8_chars addr c hc
  · exact Or.inl hc
  · exact Or.inr (Or.inl hc)
  · exact byteGroups_chars mem addr n c hc

theorem rowText_ne_nil (mem : Nat → Nat) (addr n : Nat) : rowText mem addr n ≠ [] := by
  simp [rowText]

theorem stripNewline_row (mem : Nat → Nat) (addr n : Nat) (l : List Char) :
    stripNewline (l ++ rowText mem addr n) = l ++ rowText mem addr n := by
  unfold stripNewline
  rw [if_neg]
  intro h
  have hm : '\n' ∈ rowText mem addr n := by
    rw [List.getLast?_append] at h
    cases hr : (rowText mem addr n).getLast? with
    | none => exact absurd (List.getLast?_eq_none_iff.mp hr) (rowText_ne_nil mem addr n)
    | some x =>
      rw [hr] at h
      simp only [Option.or_some, Option.some.injEq] at h
      subst h
      exact List.mem_of_getLast?_eq_some hr
  exact (rowText_chars mem addr n _ hm).ne.2 rfl

theorem rowText_no_percent (mem : Nat → Nat) (addr n : Nat) (l : List Char)
    (h : '%' ∉ l) : '%' ∉ l ++ rowText mem addr n := by
  intro hm
  rcases List.mem_append.mp hm with hm | hm
  · exact h hm
  · exact (rowText_chars mem addr n _ hm).ne.1 rfl

theorem toDigits_length_le : ∀ n : Fin 128, (Nat.toDigits 10 n.val).length ≤ 3 := by
  decide

theorem colour_lt (type : Nat) : Report.colour type < 128 := by
  unfold Report.colour
  split
  · exact Nat.lt_of_le_of_lt Nat.and_le_right (by decide)
  · have h : type &&& 7 ≤ 7 := Nat.and_le_right
    generalize type &&& 7 = i at h
    interval_cases i <;> decide

theorem colourEscape_length_le {code : Nat} (h : code < 128) :
    (colourEscape code).length ≤ 6 := by
  have : (Nat.toDigits 10 code).length ≤ 3 := toDigits_length_le ⟨code, h⟩
  simp only [colourEscape, List.length_append, List.length_cons, List.length_nil]
  omega

theorem lineHead_length_le (c : Clock) (dispMode type : Nat) (hc : c.WF) :
    (lineHead c dispMode none type).length ≤ 35 := by
  have h1 := colourEscape_length_le (colour_lt type)
  have h2 := timestampText_length_le c dispMode hc
  unfold lineHead
  simp only [List.length_append, tagPart, List.length_nil]
  have e1 : (if dispMode &&& SHOW_COLOUR ≠ 0 then colourEscape (Report.colour type)
      else []).length ≤ 6 := by
    split
    · exact h1
    · simp
  have e2 : (if dispMode &&& SHOW_TIMESTAMPS ≠ 0 then timestampText c dispMode ++ sep
      else []).length ≤ 26 := by
    split
    · simp only [List.length_append, sep, List.length_cons, List.length_nil]
      omega
    · simp
  have e3 : (if dispMode &&& SHOW_TYPE ≠ 0 ∧ type ≠ NORMAL ∧ type &&& OVERRIDE = 0
      then ['[', msg_types.getD (type &&& 7) ' ', ']'] else []).length ≤ 3 := by
    split <;> simp
  omega

theorem rows_zero (env : Env) (mem : Nat → Nat) (bwidth : Nat) (sd bc : Bool) (type : Nat)
    (fuel : Nat) (s : MkWifiDev) (ptr : Nat) (buff : List Char) :
    HexDump.rows env mem bwidth sd bc type fuel s ptr 0 buff = .ok s := by
  cases fuel <;> simp [HexDump.rows, pure, Except.pure]

theorem bind_pure_except {α : Type} (x : Except Fault α) :
    (x >>= fun a => (pure a : Except Fault α)) = x := by
  cases x <;> rfl

theorem row_bind {α : Type} (mem : Nat → Nat) (bwidth ptr len n : Nat) (buff : List Char)
    (f : List Char × Nat × Nat → Except Fault α)
    (hn1 : n ≤ bwidth) (hn2 : n ≤ len) (hn3 : n = bwidth ∨ n = len)
    (hfit : buff.length + (rowText mem ptr n).length + 1 ≤ 160) :
    (store 160 (buff ++ (' ' :: hex8 ptr ++ [' ', ':'])) >>= fun buff1 =>
        HexDump.bytes mem bwidth bwidth ptr len buff1 >>= f) =
      f (buff ++ rowText mem ptr n, ptr + n, len - n) := by
  rw [← bind_assoc, row_ok mem bwidth ptr len n buff hn1 hn2 hn3 hfit]
  rfl

/-- The short dump, as one call of `Report` with the row as its format. -/
theorem short_dump_call (env : Env) (mem : Nat → Nat) (s : MkWifiDev)
    (tag : Option (List Char)) (message : List Char) (addr n type : Nat)
    (haddr : addr ≠ 0) (hun : IsMessageMuted s type = false) (h1 : 1 ≤ n)
    (h2 : n ≤ (if s.dispMode &&& WIDE_HEXDUMP ≠ 0 then 32 else 16) / 2)
    (hfit : message.length + (11 + 3 * n + (n + 7) / 8) + 1 ≤ 160) :
    HexDump env mem s tag message addr (n : Int) type =
      ReportFormat env s none type (message ++ rowText mem addr n) := by
  unfold HexDump
  rw [hun]
  simp only [Bool.false_eq_true, if_false, if_neg haddr, Int.toNat_ofNat]
  generalize hw : (if s.dispMode &&& WIDE_HEXDUMP ≠ 0 then 32 else 16) = w at h2 ⊢
  have hw2 : w = 16 ∨ w = 32 := by
    rw [← hw]; split <;> simp
  have hsd : decide ((n : Int) ≤ ((w / 2 : Nat) : Int)) = true := by
    simp only [decide_eq_true_eq]
    exact_mod_cast h2
  rw [hsd]
  simp only [if_true, Bool.not_true, Bool.and_false, Bool.false_eq_true, if_false]
  rw [store_bind _ (by omega)]
  simp only [pure_bind_except]
  obtain ⟨k, rfl⟩ : ∃ k, n = k + 1 := ⟨n - 1, by omega⟩
  unfold HexDump.rows
  rw [if_neg (by omega)]
  simp only []
  rw [row_bind mem w addr (k + 1) (k + 1) message _ (by omega) (Nat.le_refl _)
    (Or.inr rfl) (by rw [rowText_length]; omega)]
  simp only [Bool.false_and, Bool.false_eq_true, if_false, if_true, pure_bind_except,
    Nat.sub_self, rows_zero]
  exact bind_pure_except _

theorem palette_lt (type : Nat) : colors.getD (type &&& 7) 0 < 128 := by
  have h : type &&& 7 ≤ 7 := Nat.and_le_right
  generalize type &&& 7 = i at h
  interval_cases i <;> decide

theorem printlnAll_cons (s : MkWifiDev) (a : List Char) (l : List (List Char)) :
    printlnAll s (a :: l) = printlnAll (println s a) l := rfl

theorem rows_long (env : Env) (mem : Nat → Nat) (w : Nat) (colour : Bool) (type addr L : Nat)
    (hw : w = 16 ∨ w = 32) :
    ∀ (fuel : Nat) (s : MkWifiDev) (k rem : Nat) (buff : List Char), rem ≤ fuel →
      rem = L - k * w →
      buff = (if colour = true ∧ k = 0 then colourEscape (colors.getD (type &&& 7) 0) else []) →
      HexDump.rows env mem w false colour type fuel s (addr + k * w) rem buff =
        .ok (printlnAll s
          ((List.range' k ((rem + w - 1) / w)).map (dumpRow mem w colour type addr L))) := by
  intro fuel
  induction fuel with
  | zero =>
    intro s k rem buff hf _ _
    have : rem = 0 := by omega
    subst this
    rw [rows_zero]
    have : (0 + w - 1) / w = 0 := by rcases hw with rfl | rfl <;> rfl
    rw [this]
    rfl
  | succ fuel ih =>
    intro s k rem buff hf hrem hbuff
    by_cases h0 : rem = 0
    · subst h0
      rw [rows_zero]
      have : (0 + w - 1) / w = 0 := by rcases hw with rfl | rfl <;> rfl
      rw [this]
      rfl
    · have hesc := colourEscape_length_le (palette_lt type)
      have hbl : buff.length ≤ 6 := by
        rw [hbuff]
        split
        · exact hesc
        · simp
      unfold HexDump.rows
      rw [if_neg h0]
      simp only []
      by_cases hle : rem ≤ w
      · -- the last row
        rw [row_bind mem w (addr + k * w) rem rem buff _ hle (Nat.le_refl _) (Or.inr rfl)
          (by rw [rowText_length]; rcases hw with rfl | rfl <;> omega)]
        have hcnt : (rem + w - 1) / w = 1 := by rcases hw with rfl | rfl <;> omega
        have hmin : min w (L - k * w) = rem := by
          rw [← hrem]; exact Nat.min_eq_right hle
        have hlast : L ≤ (k + 1) * w := by rcases hw with rfl | rfl <;> omega
        rw [hcnt]
        simp only [Nat.sub_self, decide_True, Bool.and_true, Bool.false_eq_true, if_false,
          pure_bind_except, rows_zero, List.range'_one, List.map_cons, List.map_nil,
          printlnAll_cons, dumpRow, hmin, hlast, and_true, ← hbuff]
        cases colour
        · simp [printlnAll, pure_bind_except]
        · have hfit : (buff ++ rowText mem (addr + k * w) rem ++ colourReset).length + 1 ≤
              160 := by
            simp only [List.length_append, rowText_length, colourReset, List.length_cons,
              List.length_nil]
            rcases hw with rfl | rfl <;> omega
          simp only [if_true, store_bind _ hfit, pure_bind_except, rows_zero]
          rfl
      · -- a full row, more to come
        rw [row_bind mem w (addr + k * w) rem w buff _ (Nat.le_refl _) (by omega) (Or.inl rfl)
          (by rw [rowText_length]; rcases hw with rfl | rfl <;> omega)]
        have hne : ¬ rem - w = 0 := by omega
        have hcnt : (rem + w - 1) / w = (rem - w + w - 1) / w + 1 := by
          rcases hw with rfl | rfl <;> omega
        have hmin : min w (L - k * w) = w := by
          rw [← hrem]; exact Nat.min_eq_left (by omega)
        have hlast : ¬ L ≤ (k + 1) * w := by rcases hw with rfl | rfl <;> omega
        have hptr : addr + k * w + w = addr + (k + 1) * w := by
          rcases hw with rfl | rfl <;> omega
        have hnext := ih (println s (buff ++ rowText mem (addr + k * w) w)) (k + 1) (rem - w) []
          (by omega) (by rcases hw with rfl | rfl <;> omega) (by simp)
        rw [hcnt, List.range'_succ, List.map_cons, printlnAll_cons]
        simp only [hne, decide_False, Bool.and_false, Bool.false_eq_true, if_false,
          pure_bind_except, hptr, hnext, dumpRow, hmin, hlast, and_false, List.append_nil,
          ← hbuff]

theorem println_dispMode (s : MkWifiDev) (t : List Char) :
    (println s t).dispMode = s.dispMode := by
  by_cases ht : s.termConnected ≠ 0 <;> cases hp : s.pCommand <;> cases hl : s.logFile <;>
    simp [println, toLogFile, toCommand, ht, hp, hl]

theorem Report_dispMode {env : Env} {s s1 : MkWifiDev} {tag : Option (List Char)} {type : Nat}
    {msg : List Char} (h : Report env s tag type msg = .ok s1) : s1.dispMode = s.dispMode := by
  unfold Report at h
  split at h
  · cases h; rfl
  · split at h
    · cases h
    · cases hb : Report.build env s.dispMode tag type msg with
      | error e => rw [hb] at h; cases h
      | ok b =>
        rw [hb] at h
        cases h
        exact println_dispMode _ _

theorem ReportFormat_dispMode {env : Env} {s s1 : MkWifiDev} {tag : Option (List Char)}
    {type : Nat} {format : List Char} (h : ReportFormat env s tag type format = .ok s1) :
    s1.dispMode = s.dispMode := by
  unfold ReportFormat at h
  split at h
  · cases h; rfl
  · split at h
    · exact Report_dispMode h
    · split at h <;> cases h

/-- The long dump: one call of `Report` with the message as its format, then the
rows through `println`. -/
theorem long_dump_call (env : Env) (mem : Nat → Nat) (s : MkWifiDev)
    (tag : Option (List Char)) (message : List Char) (addr n type : Nat)
    (haddr : addr ≠ 0) (hun : IsMessageMuted s type = false)
    (hlong : (if s.dispMode &&& WIDE_HEXDUMP ≠ 0 then 32 else 16) / 2 < n) :
    HexDump env mem s tag message addr (n : Int) type =
      (ReportFormat env s none type message >>= fun s1 =>
        pure (printlnAll s1 (dumpRows mem (if s.dispMode &&& WIDE_HEXDUMP ≠ 0 then 32 else 16)
          (decide (s.dispMode &&& SHOW_COLOUR ≠ 0 ∧ type ≠ RAW_NO_TS)) type addr n))) := by
  unfold HexDump
  rw [hun]
  simp only [Bool.false_eq_true, if_false, if_neg haddr, Int.toNat_ofNat]
  generalize hw : (if s.dispMode &&& WIDE_HEXDUMP ≠ 0 then 32 else 16) = w at hlong ⊢
  have hw2 : w = 16 ∨ w = 32 := by
    rw [← hw]; split <;> simp
  have hsd : decide ((n : Int) ≤ ((w / 2 : Nat) : Int)) = false := by
    simp only [decide_eq_false_iff_not, not_le]
    exact_mod_cast hlong
  rw [hsd]
  simp only [Bool.false_eq_true, if_false, Bool.not_false, Bool.and_true]
  cases hr : ReportFormat env s none type message with
  | error e => rfl
  | ok s1 =>
    have hd := ReportFormat_dispMode hr
    simp only [ok_bind, pure_bind_except, hd]
    have hrows := rows_long env mem w
      (decide (s.dispMode &&& SHOW_COLOUR ≠ 0 ∧ type ≠ RAW_NO_TS)) type addr n hw2 n s1 0 n
    simp only [Nat.zero_mul, Nat.add_zero, Nat.sub_zero, and_true, ← List.range_eq_range']
      at hrows
    have hesc := colourEscape_length_le (palette_lt type)
    by_cases hc : decide (s.dispMode &&& SHOW_COLOUR ≠ 0 ∧ type ≠ RAW_NO_TS) = true
    · rw [hc] at hrows ⊢
      simp only [if_true]
      rw [store_bind _ (by omega), hrows _ (Nat.le_refl _) trivial (by simp)]
      rfl
    · rw [Bool.not_eq_true] at hc
      rw [hc] at hrows ⊢
      simp only [Bool.false_eq_true, if_false, pure_bind_except]
      rw [hrows _ (Nat.le_refl _) trivial (by simp)]
      rfl

/-! ## Theorems: hex dump -/

theorem sum_rows (w : Nat) (hw : w = 16 ∨ w = 32) :
    ∀ (m k0 L : Nat), m = (L - k0 * w + w - 1) / w →
      ((List.range' k0 m).map (fun k => min w (L - k * w))).sum = L - k0 * w
  | 0, k0, L, hm => by
    simp only [List.range'_zero, List.map_nil, List.sum_nil]
    rcases hw with rfl | rfl <;> omega
  | m + 1, k0, L, hm => by
    rw [List.range'_succ, List.map_cons, List.sum_cons,
      sum_rows w hw m (k0 + 1) L (by rcases hw with rfl | rfl <;> omega)]
    rw [Nat.min_def]
    split <;> rcases hw with rfl | rfl <;> omega

set_option maxRecDepth 100000 in
/-- C8: four bytes at a non-null address, wide hex dump off. With the message
`50%%` the row is handed to `Report` as its format and the one line written
shows `50%`: it does not contain the message text. With a message of 136
characters `strcpy` and `strcat` need 161 bytes of `char buff[160]`: the row is
written behind the array and no line is emitted within its bounds. -/
theorem C8_row_handed_as_format :
    HexDump exampleEnv exampleMem { init with dispMode := 0 } none "50%%".toList 0x1000 4 ALERT =
      .ok (println { init with dispMode := 0, serial := ⟨[], [.flush]⟩ }
        "50% 00001000 : 50 51 52 53 ".toList) ∧
    ¬ "50%%".toList <:+: "50% 00001000 : 50 51 52 53 ".toList ∧
    HexDump exampleEnv exampleMem init none (List.replicate 136 'a') 0x1000 4 ALERT =
      .error (.overflow 160 161) := by
  decide

/-- Within `char buff[160]` and without `%`: for every non-null address, every
length `1 ≤ n ≤ width / 2`, every unmuted severity and every message text without
`%` that fits the array together with the row
(`message.length + 12 + 3 n + ceil(n / 8) ≤ 160`), `HexDump` emits exactly one
line, through `Report` without tag: the head of the line format, the message
text, the eight-digit address with `" :"`, exactly `n` byte groups of two
upper-case hexadecimal digits each, in address order, and the reset when colour
is on. -/
theorem short_dump_within_buffer (env : Env) (mem : Nat → Nat) (s : MkWifiDev)
    (tag : Option (List Char)) (message : List Char) (addr n type : Nat)
    (hs : s.WF) (hc : env.clock.WF) (haddr : addr ≠ 0)
    (hun : IsMessageMuted s type = false) (h1 : 1 ≤ n) (h2 : n ≤ hexWidth s.dispMode / 2)
    (hpct : '%' ∉ message) (hfit : message.length + (11 + 3 * n + (n + 7) / 8) + 1 ≤ 160) :
    HexDump env mem s tag message addr (n : Int) type =
      .ok (println { s with serial := s.serial.put .flush }
        (lineHead env.clock s.dispMode none type ++
          (message ++ (' ' :: hex8 addr ++ [' ', ':'] ++
            ((List.range n).map (byteGroup mem addr)).flatten)) ++
          (if s.dispMode &&& SHOW_COLOUR ≠ 0 then colourReset else []))) := by
  have hh := lineHead_length_le env.clock s.dispMode type hc
  have hr := rowText_length mem addr n
  rw [short_dump_call env mem s tag message addr n type haddr hun h1 h2 hfit,
    ReportFormat_plain _ _ _ _ _ (rowText_no_percent mem addr n message hpct),
    Report_ok env s none type _ hs hc hun (by
      rw [List.length_append, hr]
      split <;> omega)]
  unfold lineSpec
  rw [stripNewline_row]
  rfl

/-- An instance: four bytes, wide hex dump off, the message `buf`. -/
theorem short_dump_within_buffer_example :
    init.WF ∧ exampleEnv.clock.WF ∧ (0x1000 : Nat) ≠ 0 ∧ IsMessageMuted init ALERT = false ∧
    1 ≤ 4 ∧ 4 ≤ hexWidth init.dispMode / 2 ∧ '%' ∉ "buf".toList ∧
    HexDump exampleEnv exampleMem init (some "NET".toList) "buf".toList 0x1000 4 ALERT =
      .ok (println { init with serial := ⟨[], [.flush]⟩ }
        "\x1b[35m12:34:56 : buf 00001000 : 50 51 52 53 \x1b[0m".toList) :=
  ⟨⟨by decide, by decide, by decide, rfl, by decide⟩, exampleClock_wf, by decide, by decide,
    by decide, by decide, by decide,
    (short_dump_within_buffer exampleEnv exampleMem init (some "NET".toList) "buf".toList 0x1000 4 ALERT
      ⟨by decide, by decide, by decide, rfl, by decide⟩ exampleClock_wf (by decide) (by decide)
      (by decide) (by decide) (by decide) (by decide)).trans (by decide)⟩

theorem hexWidth_cases (dispMode : Nat) : hexWidth dispMode = 16 ∨ hexWidth dispMode = 32 := by
  unfold hexWidth
  split <;> simp

/-- The rows of the long dump: for every non-null address and every length
`n > width / 2`, `HexDump` with an unmuted severity hands the message to `Report`
as its format (no tag) first and then writes `ceil(n / width)` rows with
`println`; row `k` holds the eight hexadecimal digits of `addr + k * width` and
`min width (n - k * width)` byte groups, the rows render `n` bytes in all, and
the loop ends within its `n` iterations. When the message holds no `%` and fits,
the message line is the first line written. -/
theorem long_dump_rows (env : Env) (mem : Nat → Nat) (s : MkWifiDev)
    (tag : Option (List Char)) (message : List Char) (addr n type : Nat)
    (haddr : addr ≠ 0) (hun : IsMessageMuted s type = false)
    (hlong : hexWidth s.dispMode / 2 < n) :
    HexDump env mem s tag message addr (n : Int) type =
      (ReportFormat env s none type message >>= fun s1 =>
        pure (printlnAll s1
          (dumpRows mem (hexWidth s.dispMode) (rowColour s.dispMode type) type addr n))) ∧
    (dumpRows mem (hexWidth s.dispMode) (rowColour s.dispMode type) type addr n).length =
      (n + hexWidth s.dispMode - 1) / hexWidth s.dispMode ∧
    (∀ k, k < (n + hexWidth s.dispMode - 1) / hexWidth s.dispMode →
      (dumpRows mem (hexWidth s.dispMode) (rowColour s.dispMode type) type addr n)[k]? =
        some ((if rowColour s.dispMode type = true ∧ k = 0
            then colourEscape (colors.getD (type &&& 7) 0) else []) ++
          (' ' :: hex8 (addr + k * hexWidth s.dispMode) ++ [' ', ':'] ++
            ((List.range (min (hexWidth s.dispMode) (n - k * hexWidth s.dispMode))).map
              (byteGroup mem (addr + k * hexWidth s.dispMode))).flatten) ++
          (if rowColour s.dispMode type = true ∧ n ≤ (k + 1) * hexWidth s.dispMode
            then colourReset else []))) ∧
    ((List.range ((n + hexWidth s.dispMode - 1) / hexWidth s.dispMode)).map
      (fun k => min (hexWidth s.dispMode) (n - k * hexWidth s.dispMode))).sum = n ∧
    (s.WF → env.clock.WF → '%' ∉ message →
      (lineHead env.clock s.dispMode none type).length + message.length +
        (if s.dispMode &&& SHOW_COLOUR ≠ 0 then 4 else 0) ≤ 255 →
      HexDump env mem s tag message addr (n : Int) type =
        .ok (printlnAll
          (println { s with serial := s.serial.put .flush }
            (lineSpec env.clock s.dispMode none type message))
          (dumpRows mem (hexWidth s.dispMode) (rowColour s.dispMode type) type addr n))) := by
  have hcall := long_dump_call env mem s tag message addr n type haddr hun hlong
  refine ⟨hcall, ?_, ?_, ?_, ?_⟩
  · simp [dumpRows]
  · intro k hk
    simp only [dumpRows, List.getElem?_map, List.getElem?_range hk, Option.map_some']
    rfl
  · have h := sum_rows (hexWidth s.dispMode) (hexWidth_cases s.dispMode)
      ((n + hexWidth s.dispMode - 1) / hexWidth s.dispMode) 0 n (by simp)
    simpa [List.range_eq_range'] using h
  · intro hs hc hpct hfit
    rw [hcall, ReportFormat_plain _ _ _ _ _ hpct, Report_ok env s none type _ hs hc hun hfit]
    rfl

set_option maxRecDepth 100000 in
/-- An instance: twenty bytes, sixteen a row: the message line, a row of sixteen
bytes and a row of four. -/
theorem long_dump_rows_example :
    (0x1000 : Nat) ≠ 0 ∧ IsMessageMuted { init with dispMode := 0 } ALERT = false ∧
    hexWidth ({ init with dispMode := 0 } : MkWifiDev).dispMode / 2 < 20 ∧
    HexDump exampleEnv exampleMem { init with dispMode := 0 } none "buf".toList 0x1000
        (20 : Nat) ALERT =
      .ok (printlnAll { init with dispMode := 0, serial := ⟨[], [.flush]⟩ }
        ["buf".toList,
          " 00001000 : 50 51 52 53 54 55 56 57  58 59 5A 5B 5C 5D 5E 5F ".toList,
          " 00001010 : 60 61 62 63 ".toList]) :=
  ⟨by decide, by decide, by decide,
    (long_dump_rows exampleEnv exampleMem { init with dispMode := 0 } none "buf".toList 0x1000 20
      ALERT (by decide) (by decide) (by decide)).1.trans (by decide)⟩

set_option maxRecDepth 100000 in
/-- C9: twenty bytes at a non-null address, sixteen a row, the message `50%%`.
The message is handed to `Report` as its format, so the line written first is
`50%` and not the message; the two rows follow. -/
theorem C9_message_handed_as_format :
    HexDump exampleEnv exampleMem { init with dispMode := 0 } none "50%%".toList 0x1000
        (20 : Nat) ALERT =
      .ok (printlnAll { init with dispMode := 0, serial := ⟨[], [.flush]⟩ }
        ["50%".toList,
          " 00001000 : 50 51 52 53 54 55 56 57  58 59 5A 5B 5C 5D 5E 5F ".toList,
          " 00001010 : 60 61 62 63 ".toList]) ∧
    "50%".toList ≠ "50%%".toList := by
  decide

/-! ## Theorems: registry -/

theorem xor_mod_eq {e i : Nat} (he : e < 256) (hi : i ≤ 7) :
    (e ^^^ (1 <<< i)) % 256 = e ^^^ (1 <<< i) := by
  apply Nat.mod_eq_of_lt
  have hm : 1 <<< i < 2 ^ 8 := by
    rw [Nat.one_shiftLeft]
    exact Nat.pow_lt_pow_right (by norm_num) (by omega)
  exact Nat.xor_lt_two_pow (n := 8) he hm

theorem xor_xor_cancel (e m : Nat) : (e ^^^ m) ^^^ m = e := by
  rw [Nat.xor_assoc, Nat.xor_self, Nat.xor_zero]

/-- C16: for every severity of the filterable set (Verbose, Debug, Info, Warning)
and every registry state, two calls of `toggleTypeEnableFlag` with its index give
the state back, hence `IsMessageMuted` for every type value; one call returns the
new mask, in which exactly the bit of that index is flipped. -/
theorem C16_toggle_round_trip (s : MkWifiDev) (i : Nat) (he : s.enableFlags < 256)
    (hi : i = VERBOSE ∨ i = DEBUG ∨ i = INFO ∨ i = WARNING) :
    (toggleTypeEnableFlag (toggleTypeEnableFlag s i).2 i).2 = s ∧
    (∀ t, IsMessageMuted (toggleTypeEnableFlag (toggleTypeEnableFlag s i).2 i).2 t =
      IsMessageMuted s t) ∧
    (toggleTypeEnableFlag s i).1 = (toggleTypeEnableFlag s i).2.enableFlags ∧
    (∀ j, (toggleTypeEnableFlag s i).1.testBit j =
      if j = i then !s.enableFlags.testBit j else s.enableFlags.testBit j) := by
  have hi7 : i ≤ 7 := by
    simp only [VERBOSE, DEBUG, INFO, WARNING] at hi
    omega
  have h1 := xor_mod_eq he hi7
  have h1lt : s.enableFlags ^^^ (1 <<< i) < 256 := by
    rw [← h1]; exact Nat.mod_lt _ (by norm_num)
  have h2 := xor_mod_eq h1lt hi7
  have hback : (toggleTypeEnableFlag (toggleTypeEnableFlag s i).2 i).2 = s := by
    simp only [toggleTypeEnableFlag]
    rw [h1, h2, xor_xor_cancel]
  refine ⟨hback, ?_, rfl, ?_⟩
  · intro t
    rw [hback]
  · intro j
    show ((s.enableFlags ^^^ (1 <<< i)) % 256).testBit j = _
    rw [h1, Nat.testBit_xor, Nat.one_shiftLeft, Nat.testBit_two_pow]
    by_cases hj : j = i
    · subst hj
      simp
    · have hj2 : ¬ i = j := fun h => hj h.symm
      simp [hj, hj2]

/-- C16 (witness): the initial state, the Info bit. -/
theorem C16_toggle_round_trip_witness :
    init.enableFlags < 256 ∧ (toggleTypeEnableFlag init INFO).1 = 0xF7 ∧
    (toggleTypeEnableFlag (toggleTypeEnableFlag init INFO).2 INFO).2 = init :=
  ⟨by decide, by decide,
    (C16_toggle_round_trip init INFO (by decide) (Or.inr (Or.inr (Or.inl rfl)))).1⟩

/-! ## Theorems: input arbiter -/

set_option maxRecDepth 100000 in
/-- C11 (counterexample): Normal state. With the reserved byte alone in the serial
input, `read()` hands the byte `0x01` to the caller and removes it. With the
letter `a` and the reserved byte in the serial input, `available()` returns 2,
counting the reserved byte, and the second of the two reads it announces returns
`0x01`. -/
theorem C11_counterexample :
    ({ init with serial := ⟨[1], []⟩ } : MkWifiDev).bCommandMode = false ∧
    (MkWifiDev.read { init with serial := ⟨[1], []⟩ }).1 = 0x01 ∧
    (cmdStream (MkWifiDev.read { init with serial := ⟨[1], []⟩ }).2).rx = [] ∧
    MkWifiDev.available { init with serial := ⟨[97, 1], []⟩ } = 2 ∧
    (MkWifiDev.read (MkWifiDev.read { init with serial := ⟨[97, 1], []⟩ }).2).1 = 0x01 := by
  decide

/-- C11 (amended): in Normal state, for every content of the authoritative input:
`available()` returns 0 while `0x01` is the next pending byte (and when nothing
is pending), and otherwise the number of all pending bytes, whatever follows the
first; `read()` returns the next pending byte, whatever it is, and removes it;
so the `read()` that directly follows a `available()` other than 0 returns a
byte that is not `0x01`. -/
theorem C11_reserved_byte_hidden (s : MkWifiDev) (hn : s.bCommandMode = false) :
    (∀ rest, (cmdStream s).rx = 1 :: rest → MkWifiDev.available s = 0) ∧
    ((cmdStream s).rx = [] → MkWifiDev.available s = 0) ∧
    (∀ b rest, (cmdStream s).rx = b :: rest → b ≠ 1 →
      MkWifiDev.available s = ((b :: rest).length : Int)) ∧
    (∀ b rest, (cmdStream s).rx = b :: rest →
      (MkWifiDev.read s).1 = (b : Int) ∧ (cmdStream (MkWifiDev.read s).2).rx = rest) ∧
    (MkWifiDev.available s ≠ 0 →
      ∃ b rest, (cmdStream s).rx = b :: rest ∧ b ≠ 1 ∧
        MkWifiDev.available s = ((b :: rest).length : Int) ∧
        (MkWifiDev.read s).1 = (b : Int) ∧ (MkWifiDev.read s).1 ≠ 0x01 ∧
        (cmdStream (MkWifiDev.read s).2).rx = rest) := by
  have hread : ∀ b rest, (cmdStream s).rx = b :: rest →
      (MkWifiDev.read s).1 = (b : Int) ∧ (cmdStream (MkWifiDev.read s).2).rx = rest := by
    intro b rest hrx
    constructor
    · simp [MkWifiDev.read, hn, Stream.read, hrx]
    · cases hp : s.pCommand <;>
        simp [MkWifiDev.read, hn, Stream.read, cmdStream, setCmdStream, hp] at hrx ⊢ <;>
        simp [hrx]
  have hav : ∀ b rest, (cmdStream s).rx = b :: rest → b ≠ 1 →
      MkWifiDev.available s = ((b :: rest).length : Int) := by
    intro b rest hrx hb
    have hbi : (b : Int) ≠ 1 := by exact_mod_cast hb
    simp [MkWifiDev.available, hn, MkWifiDev.peek, Stream.peek, Stream.available, hrx, hbi]
  refine ⟨?_, ?_, hav, hread, ?_⟩
  · intro rest hrx
    simp [MkWifiDev.available, hn, MkWifiDev.peek, Stream.peek, Stream.available, hrx]
  · intro hrx
    simp [MkWifiDev.available, hn, Stream.available, hrx]
  · intro h0
    cases hrx : (cmdStream s).rx with
    | nil =>
      exfalso
      apply h0
      simp [MkWifiDev.available, hn, Stream.available, hrx]
    | cons b rest =>
      have hb : b ≠ 1 := by
        intro h1
        apply h0
        simp [MkWifiDev.available, hn, MkWifiDev.peek, Stream.peek, Stream.available, hrx, h1]
      have hbi : (b : Int) ≠ 1 := by exact_mod_cast hb
      obtain ⟨r1, r2⟩ := hread b rest hrx
      exact ⟨b, rest, rfl, hb, hav b rest hrx hb, r1, by rw [r1]; exact hbi, r2⟩

/-- C11 (witness): Normal state with the bytes `a`, `0x01` waiting, and with the
bytes `0x01`, `a`. -/
theorem C11_reserved_byte_hidden_witness :
    ({ init with serial := ⟨[97, 1], []⟩ } : MkWifiDev).bCommandMode = false ∧
    MkWifiDev.available { init with serial := ⟨[1, 97], []⟩ } = 0 ∧
    MkWifiDev.available { init with serial := ⟨[97, 1], []⟩ } = 2 ∧
    (MkWifiDev.read { init with serial := ⟨[97, 1], []⟩ }).1 = 97 :=
  ⟨rfl,
    (C11_reserved_byte_hidden { init with serial := ⟨[1, 97], []⟩ } rfl).1 [97] rfl,
    (C11_reserved_byte_hidden { init with serial := ⟨[97, 1], []⟩ } rfl).2.2.1 97 [1] rfl
      (by decide),
    ((C11_reserved_byte_hidden { init with serial := ⟨[97, 1], []⟩ } rfl).2.2.2.1 97 [1]
      rfl).1⟩

/-! ## Theorems: the poll apart from its output -/

theorem core_println (s : MkWifiDev) (t : List Char) : core (println s t) = core s := by
  by_cases ht : s.termConnected ≠ 0 <;> cases hp : s.pCommand <;> cases hl : s.logFile <;>
    simp [println, toLogFile, toCommand, core, Stream.put, Stream.quiet, ht, hp, hl]

theorem core_print (s : MkWifiDev) (t : List Char) : core (print s t) = core s := by
  by_cases ht : s.termConnected ≠ 0 <;> cases hp : s.pCommand <;> cases hl : s.logFile <;>
    simp [print, toLogFile, toCommand, core, Stream.put, Stream.quiet, ht, hp, hl]

theorem core_printFullLine (s : MkWifiDev) : core (printFullLine s) = core s :=
  core_println _ _

theorem core_printWithEnd (s : MkWifiDev) (l : List Char) : core (printWithEnd s l) = core s :=
  core_println _ _

theorem core_flush (s : MkWifiDev) :
    core { s with serial := s.serial.put .flush } = core s := by
  simp [core, Stream.put, Stream.quiet]

theorem WF_of_core {s s1 : MkWifiDev} (h : core s1 = core s) (hs : s.WF) : s1.WF := by
  have h1 : s1.dispMode = s.dispMode :=
    (congrArg MkWifiDev.dispMode h : (core s1).dispMode = (core s).dispMode)
  have h2 : s1.enableFlags = s.enableFlags :=
    (congrArg MkWifiDev.enableFlags h : (core s1).enableFlags = (core s).enableFlags)
  have h3 : s1.termConnected = s.termConnected :=
    (congrArg MkWifiDev.termConnected h : (core s1).termConnected = (core s).termConnected)
  have h4 : s1.bReportBusy = s.bReportBusy :=
    (congrArg MkWifiDev.bReportBusy h : (core s1).bReportBusy = (core s).bReportBusy)
  have h5 : s1.pCommand = s.pCommand :=
    (congrArg MkWifiDev.pCommand h : (core s1).pCommand = (core s).pCommand)
  exact ⟨h1 ▸ hs.dispMode_lt, h2 ▸ hs.enableFlags_lt, h3 ▸ hs.termConnected_lt,
    h4 ▸ hs.lock_free, by rw [h3, h5]; exact hs.remote_cmd⟩

/-- A report without tag and of moderate length goes through, and changes the
record of the output only. -/
theorem Report_frame (env : Env) (s : MkWifiDev) (type : Nat) (msg : List Char)
    (hs : s.WF) (hc : env.clock.WF) (hm : msg.length ≤ 200) :
    ∃ s1, Report env s none type msg = .ok s1 ∧ core s1 = core s := by
  by_cases hmute : IsMessageMuted s type = true
  · exact ⟨s, by simp [Report, hmute], rfl⟩
  · rw [Bool.not_eq_true] at hmute
    have hh := lineHead_length_le env.clock s.dispMode type hc
    refine ⟨_, Report_ok env s none type msg hs hc hmute ?_, ?_⟩
    · split <;> omega
    · rw [core_println, core_flush]

theorem reports_frame (env : Env) (hc : env.clock.WF) :
    ∀ (rs : List (Nat × List Char)) (s : MkWifiDev), s.WF → (∀ r ∈ rs, r.2.length ≤ 200) →
      ∃ s1, rs.foldlM (fun st r => Report env st none r.1 r.2) s = .ok s1 ∧ core s1 = core s
  | [], s, _, _ => ⟨s, rfl, rfl⟩
  | r :: rs, s, hs, hr => by
    obtain ⟨s1, h1, c1⟩ := Report_frame env s r.1 r.2 hs hc (hr r (List.mem_cons_self _ _))
    obtain ⟨s2, h2, c2⟩ := reports_frame env hc rs s1 (WF_of_core c1 hs)
      (fun x hx => hr x (List.mem_cons_of_mem _ hx))
    refine ⟨s2, ?_, c2.trans c1⟩
    rw [List.foldlM_cons, h1]
    exact h2

theorem background_frame (p : Poll) (s : MkWifiDev) (hs : s.WF) (hp : p.WF) :
    ∃ s1, loop.background p s = .ok s1 ∧ core s1 = { core s with bOtaBusy := p.otaBusy } := by
  obtain ⟨s1, h1, c1⟩ := reports_frame p.env hp.clock p.background s hs hp.background
  refine ⟨{ s1 with bOtaBusy := p.otaBusy }, ?_, ?_⟩
  · unfold loop.background
    rw [h1]
    rfl
  · show { core s1 with bOtaBusy := p.otaBusy } = _
    rw [c1]

theorem rows_frame :
    ∀ (rows : List (List Char)) (s : MkWifiDev), (∀ row ∈ rows, row.length ≤ TERMINAL_WIDTH) →
      ∃ s1, loop.infoRows rows s = .ok s1 ∧ core s1 = core s
  | [], s, _ => ⟨s, rfl, rfl⟩
  | row :: rows, s, hr => by
    have h0 := hr row (List.mem_cons_self _ _)
    obtain ⟨s2, h2, c2⟩ := rows_frame rows (printWithEnd s row)
      (fun x hx => hr x (List.mem_cons_of_mem _ hx))
    refine ⟨s2, ?_, c2.trans (core_printWithEnd _ _)⟩
    unfold loop.infoRows at h2 ⊢
    rw [List.foldlM_cons, store_bind _ (by omega)]
    exact h2

theorem menuRow_length (e : Nat) : (menuRow e).length = 65 := by
  simp [menuRow]

theorem exampleText_length (d : Nat) : (exampleText d).length ≤ 200 := by
  unfold exampleText
  split <;> decide

theorem full_frame (p : Poll) (s : MkWifiDev) (hp : p.WF) :
    ∃ s1, loop.full p s = .ok s1 ∧ core s1 = core s := by
  obtain ⟨s1, h1, c1⟩ := rows_frame p.info (printFullLine (printWithEnd s p.banner)) hp.info
  refine ⟨printFullLine s1, ?_, ?_⟩
  · unfold loop.full
    have hb := hp.banner
    rw [store_bind _ (by omega), h1]
    rfl
  · rw [core_printFullLine, c1, core_printFullLine, core_printWithEnd]

theorem menu_frame (p : Poll) (s : MkWifiDev) (hs : s.WF) (hp : p.WF) :
    ∃ s1, loop.menu p s = .ok s1 ∧ core s1 = core s := by
  have c0 : core (print (printFullLine (printWithEnd (printWithEnd (printWithEnd s menuHead)
      (menuRow (printWithEnd s menuHead).enableFlags)) menuKeys)) " | ".toList) = core s := by
    rw [core_print, core_printFullLine, core_printWithEnd, core_printWithEnd, core_printWithEnd]
  obtain ⟨s1, h1, c1⟩ := Report_frame p.env _ (OVERRIDE ||| Cyan)
    (exampleText (print (printFullLine (printWithEnd (printWithEnd (printWithEnd s menuHead)
      (menuRow (printWithEnd s menuHead).enableFlags)) menuKeys)) " | ".toList).dispMode)
    (WF_of_core c0 hs) hp.clock (exampleText_length _)
  refine ⟨printFullLine s1, ?_, ?_⟩
  · unfold loop.menu
    have hh : menuHead.length + 1 ≤ TERMINAL_WIDTH + 1 := by decide
    have hk : menuKeys.length + 1 ≤ TERMINAL_WIDTH + 1 := by decide
    have hm : (menuRow (printWithEnd s menuHead).enableFlags).length + 1 ≤ TERMINAL_WIDTH + 1 := by
      rw [menuRow_length]; decide
    rw [store_bind _ hh, store_bind _ hm, store_bind _ hk]
    dsimp only
    rw [h1]
    rfl
  · rw [core_printFullLine, c1, c0]

theorem panel_frame (p : Poll) (s : MkWifiDev) (c : Nat) (hs : s.WF) (hp : p.WF) :
    ∃ s1, loop.panel p s c = .ok s1 ∧ core s1 = core s := by
  unfold loop.panel
  by_cases hc : c = 0x01
  · obtain ⟨s1, h1, c1⟩ := full_frame p (printFullLine s) hp
    have c1b : core s1 = core s := c1.trans (core_printFullLine s)
    obtain ⟨s2, h2, c2⟩ := menu_frame p s1 (WF_of_core c1b hs) hp
    refine ⟨s2, ?_, c2.trans c1b⟩
    rw [if_pos hc, h1, ok_bind]
    exact h2
  · obtain ⟨s2, h2, c2⟩ := menu_frame p (printFullLine s) (WF_of_core (core_printFullLine s) hs) hp
    refine ⟨s2, ?_, c2.trans (core_printFullLine s)⟩
    rw [if_neg hc, pure_bind_except]
    exact h2

theorem drain_frame (p : Poll) (s : MkWifiDev) (hs : s.WF) (hp : p.WF) :
    ∃ s1, loop.drain p s = .ok s1 ∧ core s1 = core (drained s) := by
  unfold loop.drain
  by_cases h : s.termConnected ≠ 0 ∧ s.serial.available ≠ 0
  · obtain ⟨s1, h1, c1⟩ := Report_frame p.env s ALERT
      "Remote terminal is active, ignoring local serial commands".toList hs hp.clock (by decide)
    refine ⟨{ s1 with serial := { s1.serial with rx := [] } }, ?_, ?_⟩
    · rw [if_pos h]
      show (Report p.env s none ALERT _ >>= _) = _
      rw [h1]
      rfl
    · have e : drained s = { s with serial := { s.serial with rx := [] } } := by
        unfold drained
        rw [if_pos h.1]
      rw [e]
      show { core s1 with serial := { (core s1).serial with rx := [] } } =
        { core s with serial := { (core s).serial with rx := [] } }
      rw [c1]
  · refine ⟨s, by rw [if_neg h]; rfl, ?_⟩
    unfold drained
    by_cases ht : s.termConnected ≠ 0
    · have hz : s.serial.rx = [] := by
        by_contra hne
        exact h ⟨ht, by simpa [Stream.available] using hne⟩
      rw [if_pos ht]
      show core s = { core s with serial := { (core s).serial with rx := [] } }
      have : (core s).serial.rx = [] := hz
      cases hc : core s with
      | mk a b c d e f g h i j k l m =>
        cases e with
        | mk rx tx =>
          rw [hc] at this
          simp only at this
          subst this
          rfl
    · rw [if_neg ht]

theorem WF_of_fields {s s1 : MkWifiDev} (hs : s.WF) (h1 : s1.dispMode = s.dispMode)
    (h2 : s1.enableFlags = s.enableFlags) (h3 : s1.termConnected = s.termConnected)
    (h4 : s1.bReportBusy = s.bReportBusy) (h5 : s1.pCommand = s.pCommand) : s1.WF :=
  ⟨h1 ▸ hs.dispMode_lt, h2 ▸ hs.enableFlags_lt, h3 ▸ hs.termConnected_lt,
    h4 ▸ hs.lock_free, by rw [h3, h5]; exact hs.remote_cmd⟩

theorem WF_taken {s : MkWifiDev} (hs : s.WF) : (taken s).WF := by
  unfold taken setCmdStream
  cases hp : s.pCommand <;> exact WF_of_fields hs rfl rfl rfl rfl (by simp [hp])

theorem finish_frame (p : Poll) (s : MkWifiDev) (hs : s.WF) (hp : p.WF) :
    ∃ o, loop.finish p s = .ok o ∧ o.core = Outcome.core (.returned (drained s) s.bOtaBusy) := by
  obtain ⟨s1, h1, c1⟩ := drain_frame p s hs hp
  refine ⟨.returned s1 s1.bOtaBusy, ?_, ?_⟩
  · unfold loop.finish
    rw [h1]
    rfl
  · have hb : s1.bOtaBusy = (drained s).bOtaBusy :=
      (congrArg MkWifiDev.bOtaBusy c1 : (core s1).bOtaBusy = (core (drained s)).bOtaBusy)
    have hd : (drained s).bOtaBusy = s.bOtaBusy := by
      unfold drained
      split <;> rfl
    show Outcome.returned (core s1) s1.bOtaBusy = Outcome.returned (core (drained s)) s.bOtaBusy
    rw [c1, hb, hd]

theorem toggle_frame (p : Poll) (s : MkWifiDev) (hs : s.WF) (hp : p.WF) :
    ∃ s1, loop.toggle p s = .ok s1 ∧ core s1 = core (toggled s) := by
  unfold loop.toggle toggled
  by_cases h1 : peek s = 0x01
  · rw [if_pos h1, if_pos h1]
    by_cases hm : s.bCommandMode = true
    · rw [if_pos hm, if_pos hm]
      exact Report_frame p.env _ ALERT _
        (WF_taken (s := { s with bCommandMode := false })
          (WF_of_fields hs rfl rfl rfl rfl rfl)) hp.clock (by decide)
    · rw [if_neg hm, if_neg hm]
      exact ⟨_, rfl, rfl⟩
  · rw [if_neg h1, if_neg h1]
    exact ⟨_, rfl, rfl⟩

theorem core_drained (s : MkWifiDev) : core (drained s) = drained (core s) := by
  unfold drained
  by_cases h : s.termConnected ≠ 0
  · have h2 : (core s).termConnected ≠ 0 := h
    rw [if_pos h, if_pos h2]
    rfl
  · have h2 : ¬ (core s).termConnected ≠ 0 := h
    rw [if_neg h, if_neg h2]

theorem drained_congr {a b : MkWifiDev} (h : core a = core b) :
    core (drained a) = core (drained b) := by
  rw [core_drained, core_drained, h]

theorem cmdStream_core (s : MkWifiDev) : cmdStream (core s) = (cmdStream s).quiet := by
  unfold cmdStream
  cases hp : s.pCommand <;> simp [core, hp]

theorem read_quiet (st : Stream) : st.quiet.read = (st.read.1, st.read.2.quiet) := by
  cases st with
  | mk rx tx => cases rx <;> rfl

theorem peek_quiet (st : Stream) : st.quiet.peek = st.peek := by
  cases st with
  | mk rx tx => cases rx <;> rfl

theorem core_setCmdStream (s : MkWifiDev) (st : Stream) :
    core (setCmdStream s st) = setCmdStream (core s) st.quiet := by
  unfold setCmdStream
  cases hp : s.pCommand <;> simp [core, hp]

theorem key_core (s : MkWifiDev) : key (core s) = key s := by
  unfold key
  rw [cmdStream_core, read_quiet]

theorem core_taken (s : MkWifiDev) : core (taken s) = taken (core s) := by
  unfold taken
  rw [core_setCmdStream, cmdStream_core, read_quiet]

theorem peek_core (s : MkWifiDev) : peek (core s) = peek s := by
  unfold peek
  rw [cmdStream_core, peek_quiet]

/-- The switch of the command block changes the two registers only, each by a
function of its own value that stays within 8 bits. -/
theorem switch_shape (c : Nat) :
    ∃ fe fd : Nat → Nat, (∀ x, fe x = x ∨ fe x < 256) ∧ (∀ x, fd x = x ∨ fd x < 256) ∧
      ∀ s : MkWifiDev, (loop.switch s c).1 =
        { s with enableFlags := fe s.enableFlags, dispMode := fd s.dispMode } := by
  by_cases h0 : c = 'v'.toNat
  · subst h0
    exact ⟨fun x => (x ^^^ (1 <<< VERBOSE)) % 256, fun x => x,
      fun x => Or.inr (Nat.mod_lt _ (by decide)), fun x => Or.inl rfl, fun s => rfl⟩
  by_cases h1 : c = 'd'.toNat
  · subst h1
    exact ⟨fun x => (x ^^^ (1 <<< DEBUG)) % 256, fun x => x,
      fun x => Or.inr (Nat.mod_lt _ (by decide)), fun x => Or.inl rfl, fun s => rfl⟩
  by_cases h2 : c = 'i'.toNat
  · subst h2
    exact ⟨fun x => (x ^^^ (1 <<< INFO)) % 256, fun x => x,
      fun x => Or.inr (Nat.mod_lt _ (by decide)), fun x => Or.inl rfl, fun s => rfl⟩
  by_cases h3 : c = 'w'.toNat
  · subst h3
    exact ⟨fun x => (x ^^^ (1 <<< WARNING)) % 256, fun x => x,
      fun x => Or.inr (Nat.mod_lt _ (by decide)), fun x => Or.inl rfl, fun s => rfl⟩
  by_cases h4 : c = 't'.toNat
  · subst h4
    exact ⟨fun x => x, fun x => (x ^^^ SHOW_TIMESTAMPS) % 256,
      fun x => Or.inl rfl, fun x => Or.inr (Nat.mod_lt _ (by decide)), fun s => rfl⟩
  by_cases h5 : c = 'y'.toNat
  · subst h5
    exact ⟨fun x => x, fun x => (x ^^^ SHOW_DATE) % 256,
      fun x => Or.inl rfl, fun x => Or.inr (Nat.mod_lt _ (by decide)), fun s => rfl⟩
  by_cases h6 : c = 'm'.toNat
  · subst h6
    exact ⟨fun x => x, fun x => (x ^^^ SHOW_MILLISECONDS) % 256,
      fun x => Or.inl rfl, fun x => Or.inr (Nat.mod_lt _ (by decide)), fun s => rfl⟩
  by_cases h7 : c = 'c'.toNat
  · subst h7
    exact ⟨fun x => x, fun x => (x ^^^ SHOW_COLOUR) % 256,
      fun x => Or.inl rfl, fun x => Or.inr (Nat.mod_lt _ (by decide)), fun s => rfl⟩
  by_cases h8 : c = 'f'.toNat
  · subst h8
    exact ⟨fun x => x, fun x => (x ^^^ SHOW_TYPE) % 256,
      fun x => Or.inl rfl, fun x => Or.inr (Nat.mod_lt _ (by decide)), fun s => rfl⟩
  · refine ⟨fun x => x, fun x => x, fun x => Or.inl rfl, fun x => Or.inl rfl, fun s => ?_⟩
    unfold loop.switch
    rw [if_neg h0, if_neg h1, if_neg h2, if_neg h3, if_neg h4, if_neg h5, if_neg h6, if_neg h7, if_neg h8]

theorem core_switch (s : MkWifiDev) (c : Nat) :
    core (loop.switch s c).1 = (loop.switch (core s) c).1 := by
  obtain ⟨fe, fd, _, _, h⟩ := switch_shape c
  rw [h, h]
  rfl

theorem switch_bOtaBusy (s : MkWifiDev) (c : Nat) :
    (loop.switch s c).1.bOtaBusy = s.bOtaBusy := by
  obtain ⟨fe, fd, _, _, h⟩ := switch_shape c
  rw [h]

theorem taken_bOtaBusy (s : MkWifiDev) : (taken s).bOtaBusy = s.bOtaBusy := by
  unfold taken setCmdStream
  cases s.pCommand <;> rfl

theorem WF_switch {s : MkWifiDev} (c : Nat) (hs : s.WF) : (loop.switch s c).1.WF := by
  obtain ⟨fe, fd, he, hd, h⟩ := switch_shape c
  rw [h]
  refine ⟨?_, ?_, hs.termConnected_lt, hs.lock_free, hs.remote_cmd⟩
  · show fd s.dispMode < 256
    rcases hd s.dispMode with e | e
    · rw [e]; exact hs.dispMode_lt
    · exact e
  · show fe s.enableFlags < 256
    rcases he s.enableFlags with e | e
    · rw [e]; exact hs.enableFlags_lt
    · exact e

theorem dispatch_frame (p : Poll) (s : MkWifiDev) (hs : s.WF) (hp : p.WF) :
    ∃ o, loop.dispatch p s = .ok o ∧ o.core = (dispatched s).core := by
  unfold loop.dispatch dispatched
  by_cases h1 : s.waitForConfirm ≠ 0 ∧ key s = 'y'.toNat
  · have h1b : (setCmdStream s (cmdStream s).read.2).waitForConfirm ≠ 0 ∧
        toChar (tolower (cmdStream s).read.1) = 'y'.toNat := by
      refine ⟨?_, h1.2⟩
      unfold setCmdStream
      cases s.pCommand <;> exact h1.1
    obtain ⟨s3, h3, c3⟩ := Report_frame p.env (taken s) ALERT
      "About to restart, please reconnect if using remote terminal".toList
      (WF_taken hs) hp.clock (by decide)
    refine ⟨.restarted s3, ?_, ?_⟩
    · rw [if_pos h1b]
      show (Report p.env (taken s) none ALERT _ >>= _) = _
      rw [h3]
      rfl
    · rw [if_pos h1]
      show Outcome.restarted (core s3) = Outcome.restarted (core (taken s))
      rw [c3]
  · have h1b : ¬ ((setCmdStream s (cmdStream s).read.2).waitForConfirm ≠ 0 ∧
        toChar (tolower (cmdStream s).read.1) = 'y'.toNat) := by
      intro h
      refine h1 ⟨?_, h.2⟩
      have h0 := h.1
      unfold setCmdStream at h0
      cases hpc : s.pCommand <;> rw [hpc] at h0 <;> exact h0
    rw [if_neg h1b, if_neg h1]
    by_cases h2 : key s = 'r'.toNat
    · have h2b : toChar (tolower (cmdStream s).read.1) = 'r'.toNat := h2
      rw [if_pos h2b, if_pos h2]
      refine ⟨_, rfl, ?_⟩
      show Outcome.returned (core _) _ = Outcome.returned (core _) _
      congr 1
      show { core (println (println _ _) _) with waitForConfirm := 1 } =
        { core (taken s) with waitForConfirm := 1 }
      rw [core_println, core_println]
      rfl
    · have h2b : ¬ toChar (tolower (cmdStream s).read.1) = 'r'.toNat := h2
      rw [if_neg h2b, if_neg h2]
      have hw : (loop.switch { taken s with waitForConfirm := 0 } (key s)).1.WF :=
        WF_switch _ (WF_of_fields (WF_taken hs) rfl rfl rfl rfl rfl)
      obtain ⟨s5, h5, c5⟩ := panel_frame p _
        (loop.switch { taken s with waitForConfirm := 0 } (key s)).2 hw hp
      obtain ⟨o, h6, c6⟩ := finish_frame p s5 (WF_of_core c5 hw) hp
      refine ⟨o, ?_, ?_⟩
      · show (loop.panel p (loop.switch { taken s with waitForConfirm := 0 } (key s)).1
          (loop.switch { taken s with waitForConfirm := 0 } (key s)).2 >>= _) = _
        rw [h5, ok_bind]
        exact h6
      · rw [c6]
        have hb : s5.bOtaBusy = s.bOtaBusy := by
          have e : s5.bOtaBusy = (loop.switch { taken s with waitForConfirm := 0 } (key s)).1.bOtaBusy :=
            (congrArg MkWifiDev.bOtaBusy c5 : (core s5).bOtaBusy = (core _).bOtaBusy)
          rw [e, switch_bOtaBusy]
          exact taken_bOtaBusy s
        show Outcome.returned (core (drained s5)) s5.bOtaBusy = Outcome.returned (core (drained _)) _
        rw [drained_congr c5, hb]

theorem core_core (s : MkWifiDev) : core (core s) = core s := by
  cases s with
  | mk a b c d e f g h i j k l m => cases d <;> rfl

theorem toggled_core (s : MkWifiDev) : core (toggled s) = toggled (core s) := by
  unfold toggled
  rw [peek_core]
  by_cases h1 : peek s = 0x01
  · rw [if_pos h1, if_pos h1]
    by_cases hm : s.bCommandMode = true
    · have hm2 : (core s).bCommandMode = true := hm
      rw [if_pos hm, if_pos hm2, core_taken]
      rfl
    · have hm2 : ¬ (core s).bCommandMode = true := hm
      rw [if_neg hm, if_neg hm2]
      rfl
  · rw [if_neg h1, if_neg h1]

theorem dispatched_core (s : MkWifiDev) : (dispatched s).core = dispatched (core s) := by
  unfold dispatched
  rw [key_core]
  by_cases h1 : s.waitForConfirm ≠ 0 ∧ key s = 'y'.toNat
  · have h1b : (core s).waitForConfirm ≠ 0 ∧ key s = 'y'.toNat := h1
    rw [if_pos h1, if_pos h1b]
    show Outcome.restarted (core (taken s)) = _
    rw [core_taken]
  · have h1b : ¬ ((core s).waitForConfirm ≠ 0 ∧ key s = 'y'.toNat) := h1
    rw [if_neg h1, if_neg h1b]
    by_cases h2 : key s = 'r'.toNat
    · rw [if_pos h2, if_pos h2]
      show Outcome.returned { core (taken s) with waitForConfirm := 1 } _ = _
      rw [core_taken]
      rfl
    · rw [if_neg h2, if_neg h2]
      show Outcome.returned (core (drained _)) _ = _
      rw [core_drained, core_switch]
      show Outcome.returned (drained (loop.switch { core (taken s) with waitForConfirm := 0 } _).1) _
        = _
      rw [core_taken]
      rfl

theorem arbiter_core (s : MkWifiDev) : (arbiter s).core = arbiter (core s) := by
  unfold arbiter
  have ha : (cmdStream (core s)).available = (cmdStream s).available := by
    rw [cmdStream_core]; rfl
  rw [ha, ← toggled_core]
  by_cases h1 : (cmdStream s).available ≠ 0
  · rw [if_pos h1, if_pos h1]
    by_cases hm : (toggled s).bCommandMode = true
    · have hm2 : (core (toggled s)).bCommandMode = true := hm
      rw [if_pos hm, if_pos hm2, dispatched_core]
    · have hm2 : ¬ (core (toggled s)).bCommandMode = true := hm
      rw [if_neg hm, if_neg hm2]
      show Outcome.returned (core (drained _)) _ = _
      rw [core_drained]
      rfl
  · rw [if_neg h1, if_neg h1]
    show Outcome.returned (core (drained _)) _ = _
    rw [core_drained]
    rfl

theorem toggled_WF {s : MkWifiDev} (hs : s.WF) : (toggled s).WF := by
  unfold toggled
  split
  · split
    · exact WF_taken (s := { s with bCommandMode := false }) (WF_of_fields hs rfl rfl rfl rfl rfl)
    · exact WF_of_fields hs rfl rfl rfl rfl rfl
  · exact hs

theorem toggled_bOtaBusy (s : MkWifiDev) : (toggled s).bOtaBusy = s.bOtaBusy := by
  unfold toggled
  split
  · split
    · exact taken_bOtaBusy _
    · rfl
  · rfl

theorem dispatched_congr {a b : MkWifiDev} (h : core a = core b) :
    (dispatched a).core = (dispatched b).core := by
  rw [dispatched_core, dispatched_core, h]

/-- The command part of a poll goes through on every reachable state, and acts on
the members and the waiting input as `arbiter` says. -/
theorem command_core (p : Poll) (s : MkWifiDev) (hs : s.WF) (hp : p.WF) :
    ∃ o, loop.command p s = .ok o ∧ o.core = (arbiter s).core := by
  unfold loop.command arbiter
  by_cases h1 : (cmdStream s).available ≠ 0
  · rw [if_pos h1, if_pos h1]
    obtain ⟨s1, ht, c1⟩ := toggle_frame p s hs hp
    have hw : s1.WF := WF_of_core c1 (toggled_WF hs)
    have hm : s1.bCommandMode = (toggled s).bCommandMode :=
      (congrArg MkWifiDev.bCommandMode c1 : (core s1).bCommandMode = (core _).bCommandMode)
    rw [ht, ok_bind, hm]
    by_cases hc : (toggled s).bCommandMode = true
    · rw [if_pos hc, if_pos hc]
      obtain ⟨o, hd, cd⟩ := dispatch_frame p s1 hw hp
      exact ⟨o, hd, cd.trans (dispatched_congr c1)⟩
    · rw [if_neg hc, if_neg hc]
      obtain ⟨o, hf, cf⟩ := finish_frame p s1 hw hp
      refine ⟨o, hf, cf.trans ?_⟩
      have hb : s1.bOtaBusy = s.bOtaBusy := by
        have e : s1.bOtaBusy = (toggled s).bOtaBusy :=
          (congrArg MkWifiDev.bOtaBusy c1 : (core s1).bOtaBusy = (core _).bOtaBusy)
        rw [e, toggled_bOtaBusy]
      show Outcome.returned (core (drained s1)) s1.bOtaBusy = Outcome.returned (core (drained _)) _
      rw [drained_congr c1, hb]
  · rw [if_neg h1, if_neg h1]
    exact finish_frame p s hs hp

theorem arbiter_congr {a b : MkWifiDev} (h : core a = core b) :
    (arbiter a).core = (arbiter b).core := by
  rw [arbiter_core, arbiter_core, h]

theorem accepted_WF {p : Poll} {s : MkWifiDev} (hs : s.WF) : (accepted p s).WF := by
  unfold accepted
  split
  · exact WF_of_fields hs rfl rfl rfl rfl rfl
  · exact hs

theorem accept_frame (p : Poll) (s : MkWifiDev) (hs : s.WF) (hp : p.WF) :
    ∃ s1, loop.accept p s = .ok s1 ∧ core s1 = core (accepted p s) := by
  unfold loop.accept accepted
  by_cases ha : loop.accepts p = true
  · rw [if_pos ha, if_pos ha]
    have hw0 : ({ s with serverClient := p.fresh.stream } : MkWifiDev).WF :=
      WF_of_fields hs rfl rfl rfl rfl rfl
    have h0 : ∃ s0, (if (!p.fresh.valid) = true
          then Report p.env { s with serverClient := p.fresh.stream } none ALERT
            "available broken".toList
          else pure { s with serverClient := p.fresh.stream }) = .ok s0 ∧
        core s0 = core { s with serverClient := p.fresh.stream } := by
      by_cases hv : (!p.fresh.valid) = true
      · rw [if_pos hv]
        exact Report_frame p.env _ ALERT _ hw0 hp.clock (by decide)
      · rw [if_neg hv]
        exact ⟨_, rfl, rfl⟩
    obtain ⟨s0, e0, c0⟩ := h0
    have hip := hp.ip
    obtain ⟨s1, e1, c1⟩ := Report_frame p.env s0 ALERT
      ("Client connected with IP: ".toList ++ p.fresh.ip) (WF_of_core c0 hw0) hp.clock
      (by rw [List.length_append]
          have : "Client connected with IP: ".toList.length = 26 := by decide
          omega)
    refine ⟨_, by rw [e0, ok_bind, e1]; rfl, ?_⟩
    show { core s1 with
      bSendWelcome := true
      tconnect := p.millis % 2 ^ 32
      bCommandMode := false } = _
    rw [c1, c0]
    rfl
  · rw [if_neg ha, if_neg ha]
    exact ⟨_, rfl, rfl⟩

theorem quiet_put (st : Stream) (e : SinkEvent) : (st.put e).quiet = st.quiet := rfl

theorem quiet_foldl_put (ls : List (List Char)) (st : Stream) :
    (ls.foldl (fun (st : Stream) l => st.put (.println l)) st).quiet = st.quiet := by
  induction ls generalizing st with
  | nil => rfl
  | cons l ls ih => rw [List.foldl_cons, ih, quiet_put]

theorem welcome_core (p : Poll) (s : MkWifiDev) :
    core (loop.welcome p s) = core (loop.welcome p (core s)) := by
  unfold loop.welcome
  by_cases h1 : (s.bSendWelcome && loop.connected p) = true
  · have h1b : ((core s).bSendWelcome && loop.connected p) = true := h1
    rw [if_pos h1, if_pos h1b]
    by_cases h2 : (p.millis % 2 ^ 32 + 2 ^ 32 - s.tconnect) % 2 ^ 32 > 100
    · have h2b : (p.millis % 2 ^ 32 + 2 ^ 32 - (core s).tconnect) % 2 ^ 32 > 100 := h2
      rw [if_pos h2, if_pos h2b]
      have e1 := quiet_foldl_put welcomeLines s.serverClient
      have e2 := quiet_foldl_put welcomeLines (core s).serverClient
      cases s with
      | mk a b c d e f g h i j k l m =>
        cases d <;> simp only [core, Option.map, Stream.quiet] at e1 e2 ⊢ <;>
          simp only [Stream.quiet, e1, e2]
    · have h2b : ¬ (p.millis % 2 ^ 32 + 2 ^ 32 - (core s).tconnect) % 2 ^ 32 > 100 := h2
      rw [if_neg h2, if_neg h2b, core_core]
  · have h1b : ¬ ((core s).bSendWelcome && loop.connected p) = true := h1
    rw [if_neg h1, if_neg h1b, core_core]

theorem welcome_congr (p : Poll) {a b : MkWifiDev} (h : core a = core b) :
    core (loop.welcome p a) = core (loop.welcome p b) := by
  rw [welcome_core p a, welcome_core p b, h]

theorem welcome_WF {p : Poll} {s : MkWifiDev} (hs : s.WF) : (loop.welcome p s).WF := by
  unfold loop.welcome
  split
  · split
    · exact ⟨hs.dispMode_lt, hs.enableFlags_lt, (by decide : (1 : Nat) < 256), hs.lock_free,
        fun _ => rfl⟩
    · exact hs
  · exact hs

theorem dropped_WF {p : Poll} {s : MkWifiDev} (hs : s.WF) : (dropped p s).WF := by
  unfold dropped
  split
  · exact ⟨hs.dispMode_lt, hs.enableFlags_lt, (by decide : (0 : Nat) < 256), hs.lock_free,
      fun h => absurd rfl h⟩
  · exact hs

theorem dropped_core (p : Poll) (s : MkWifiDev) : core (dropped p s) = dropped p (core s) := by
  unfold dropped
  by_cases h : s.termConnected ≠ 0 ∧ loop.connected p = false
  · have hb : (core s).termConnected ≠ 0 ∧ loop.connected p = false := h
    rw [if_pos h, if_pos hb]
    rfl
  · have hb : ¬ ((core s).termConnected ≠ 0 ∧ loop.connected p = false) := h
    rw [if_neg h, if_neg hb]

theorem dropped_congr (p : Poll) {a b : MkWifiDev} (h : core a = core b) :
    core (dropped p a) = core (dropped p b) := by
  rw [dropped_core, dropped_core, h]

theorem disconnect_frame (p : Poll) (s : MkWifiDev) (hs : s.WF) (hp : p.WF) :
    ∃ s1, loop.disconnect p s = .ok s1 ∧ core s1 = core (dropped p s) := by
  unfold loop.disconnect dropped
  by_cases h : s.termConnected ≠ 0 ∧ loop.connected p = false
  · rw [if_pos h, if_pos h]
    obtain ⟨s1, e1, c1⟩ := Report_frame p.env s ALERT
      "Remote terminal disconnected, resuming control by serial port".toList hs hp.clock
      (by decide)
    refine ⟨{ s1 with termConnected := 0, pCommand := .serial }, ?_, ?_⟩
    · rw [e1]
      rfl
    · show { core s1 with termConnected := 0, pCommand := .serial } = _
      rw [c1]
      rfl
  · rw [if_neg h, if_neg h]
    exact ⟨_, rfl, rfl⟩

theorem remote_frame (p : Poll) (s : MkWifiDev) (hs : s.WF) (hp : p.WF) :
    ∃ s1, loop.remote p s = .ok s1 ∧
      core s1 = core (dropped p (loop.welcome p (accepted p s))) := by
  obtain ⟨s1, e1, c1⟩ := accept_frame p s hs hp
  have hw1 : s1.WF := WF_of_core c1 (accepted_WF hs)
  obtain ⟨s2, e2, c2⟩ := disconnect_frame p (loop.welcome p s1) (welcome_WF hw1) hp
  refine ⟨s2, ?_, c2.trans (dropped_congr p (welcome_congr p c1))⟩
  unfold loop.remote
  rw [e1, ok_bind]
  exact e2

theorem accepted_core (p : Poll) (s : MkWifiDev) :
    core (accepted p s) = core (accepted p (core s)) := by
  unfold accepted
  split
  · cases s with
    | mk a b c d e f g h i j k l m => cases d <;> rfl
  · rw [core_core]

theorem accepted_congr (p : Poll) {a b : MkWifiDev} (h : core a = core b) :
    core (accepted p a) = core (accepted p b) := by
  rw [accepted_core p a, accepted_core p b, h]

theorem settled_WF {p : Poll} {s : MkWifiDev} (hs : s.WF) : (settled p s).WF :=
  dropped_WF (welcome_WF (accepted_WF (WF_of_fields hs rfl rfl rfl rfl rfl)))

/-- A poll goes through on every reachable state, and acts on the members and
the waiting input as `arbiter` says of the state the command part finds. -/
theorem loop_core (p : Poll) (s : MkWifiDev) (hs : s.WF) (hp : p.WF) :
    ∃ o, loop p s = .ok o ∧ o.core = (arbiter (settled p s)).core := by
  obtain ⟨s1, e1, c1⟩ := background_frame p s hs hp
  have c1b : core s1 = core { s with bOtaBusy := p.otaBusy } := c1
  have hw1 : s1.WF := WF_of_core c1b (WF_of_fields hs rfl rfl rfl rfl rfl)
  obtain ⟨s2, e2, c2⟩ := remote_frame p s1 hw1 hp
  have c2b : core s2 = core (settled p s) :=
    c2.trans (dropped_congr p (welcome_congr p (accepted_congr p c1b)))
  obtain ⟨o, e3, c3⟩ := command_core p s2 (WF_of_core c2b (settled_WF hs)) hp
  refine ⟨o, ?_, c3.trans (arbiter_congr c2b)⟩
  unfold loop
  rw [e1, ok_bind, e2, ok_bind]
  exact e3

theorem settled_idle {p : Poll} {s : MkWifiDev} (h : RemoteIdle p s) :
    settled p s = { s with bOtaBusy := p.otaBusy } := by
  obtain ⟨h1, h2, h3⟩ := h
  unfold settled accepted
  rw [h1, if_neg (by decide)]
  have hw : loop.welcome p { s with bOtaBusy := p.otaBusy } = { s with bOtaBusy := p.otaBusy } := by
    unfold loop.welcome
    by_cases hb : (s.bSendWelcome && loop.connected p) = true
    · have hb2 := hb
      rw [Bool.and_eq_true] at hb2
      have h4 := h2 hb2.1 hb2.2
      have h5 : ¬ ((p.millis % 2 ^ 32 + 2 ^ 32 -
          ({ s with bOtaBusy := p.otaBusy } : MkWifiDev).tconnect) % 2 ^ 32 > 100) :=
        Nat.not_lt.mpr h4
      rw [if_pos hb, if_neg h5]
    · rw [if_neg hb]
  rw [hw]
  unfold dropped
  rw [if_neg]
  rintro ⟨ht, hc⟩
  rw [h3 ht] at hc
  exact Bool.noConfusion hc

/-! ## Lemmas: the command part of the poll -/

theorem key_iff (k l : Nat) (hk : k < 256) (h1 : 97 ≤ l) (h2 : l ≤ 122) :
    toChar (tolower k) = l ↔ (k = l ∨ k + 32 = l) := by
  unfold toChar tolower
  split <;> omega

theorem isKey_iff (ch : Char) (k : Nat) : isKey ch k = true ↔ (k = ch.toNat ∨ k + 32 = ch.toNat) := by
  simp [isKey]

theorem key_isKey (ch : Char) (k : Nat) (hk : k < 256) (h1 : 97 ≤ ch.toNat) (h2 : ch.toNat ≤ 122) :
    toChar (tolower k) = ch.toNat ↔ isKey ch k = true := by
  rw [isKey_iff, key_iff k _ hk h1 h2]

theorem key_one : toChar (tolower 1) = 1 := by decide

theorem same_of_core {a b : MkWifiDev} (h : core a = core b) : SameMembers a b := by
  have h1 : a.dispMode = b.dispMode :=
    (congrArg MkWifiDev.dispMode h : (core a).dispMode = (core b).dispMode)
  have h2 : a.bCommandMode = b.bCommandMode :=
    (congrArg MkWifiDev.bCommandMode h : (core a).bCommandMode = (core b).bCommandMode)
  have h3 : a.enableFlags = b.enableFlags :=
    (congrArg MkWifiDev.enableFlags h : (core a).enableFlags = (core b).enableFlags)
  have h4 : a.pCommand = b.pCommand :=
    (congrArg MkWifiDev.pCommand h : (core a).pCommand = (core b).pCommand)
  have h5 : a.termConnected = b.termConnected :=
    (congrArg MkWifiDev.termConnected h : (core a).termConnected = (core b).termConnected)
  have h6 : a.waitForConfirm = b.waitForConfirm :=
    (congrArg MkWifiDev.waitForConfirm h : (core a).waitForConfirm = (core b).waitForConfirm)
  have h7 : a.bSendWelcome = b.bSendWelcome :=
    (congrArg MkWifiDev.bSendWelcome h : (core a).bSendWelcome = (core b).bSendWelcome)
  have h8 : a.tconnect = b.tconnect :=
    (congrArg MkWifiDev.tconnect h : (core a).tconnect = (core b).tconnect)
  have h9 : (cmdStream a).rx = (cmdStream b).rx := by
    have e := congrArg (fun s => (cmdStream s).rx) h
    simp only [cmdStream_core] at e
    exact e
  exact ⟨h1, h2, h3, h4, h5, h6, h7, h8, h9⟩

theorem outcome_of_core {o a : Outcome} (h : o.core = a.core) :
    o.restarts = a.restarts ∧ SameMembers o.state a.state := by
  cases o <;> cases a <;> simp only [Outcome.core, Outcome.returned.injEq,
    Outcome.restarted.injEq] at h <;> first
    | exact ⟨rfl, same_of_core h.1⟩
    | exact ⟨rfl, same_of_core h⟩
    | exact absurd h (by simp)

theorem taken_same (s : MkWifiDev) :
    (taken s).dispMode = s.dispMode ∧ (taken s).bCommandMode = s.bCommandMode ∧
    (taken s).enableFlags = s.enableFlags ∧ (taken s).pCommand = s.pCommand ∧
    (taken s).termConnected = s.termConnected ∧ (taken s).waitForConfirm = s.waitForConfirm ∧
    (taken s).bSendWelcome = s.bSendWelcome ∧ (taken s).tconnect = s.tconnect := by
  unfold taken setCmdStream
  cases s.pCommand <;> exact ⟨rfl, rfl, rfl, rfl, rfl, rfl, rfl, rfl⟩

theorem taken_rx {s : MkWifiDev} {k : Nat} {rest : List Nat}
    (hrx : (cmdStream s).rx = k :: rest) : (cmdStream (taken s)).rx = rest := by
  unfold taken setCmdStream cmdStream at *
  cases hp : s.pCommand <;> rw [hp] at hrx <;> simp only [Stream.read] <;> rw [hrx]

theorem key_eq {s : MkWifiDev} {k : Nat} {rest : List Nat}
    (hrx : (cmdStream s).rx = k :: rest) : key s = toChar (tolower k) := by
  unfold key Stream.read
  rw [hrx]

theorem peek_eq {s : MkWifiDev} {k : Nat} {rest : List Nat}
    (hrx : (cmdStream s).rx = k :: rest) : peek s = (k : Int) := by
  unfold peek Stream.peek
  rw [hrx]

theorem available_ne {s : MkWifiDev} {k : Nat} {rest : List Nat}
    (hrx : (cmdStream s).rx = k :: rest) : (cmdStream s).available ≠ 0 := by
  unfold Stream.available
  rw [hrx]
  exact Nat.succ_ne_zero _

theorem drained_same {s : MkWifiDev} (hs : s.WF) : SameMembers (drained s) s := by
  unfold drained
  by_cases h : s.termConnected ≠ 0
  · rw [if_pos h]
    refine ⟨rfl, rfl, rfl, rfl, rfl, rfl, rfl, rfl, ?_⟩
    have hp := hs.remote_cmd h
    unfold cmdStream
    simp only [hp]
  · rw [if_neg h]
    exact ⟨rfl, rfl, rfl, rfl, rfl, rfl, rfl, rfl, rfl⟩

theorem switch_keyMask (s : MkWifiDev) (k : Nat) (hk : k < 256) (he : s.enableFlags < 256)
    (hd : s.dispMode < 256) :
    (loop.switch s (toChar (tolower k))).1 =
      { s with enableFlags := s.enableFlags ^^^ (keyMask k).1,
               dispMode := s.dispMode ^^^ (keyMask k).2 } := by
  unfold loop.switch keyMask
  by_cases h0 : isKey 'v' k = true
  · rw [if_pos ((key_isKey 'v' k hk (by decide) (by decide)).mpr h0), if_pos h0]
    simp only [toggleTypeEnableFlag]
    rw [xor_mod_eq he (by decide), Nat.xor_zero]
  rw [if_neg (fun h => h0 ((key_isKey 'v' k hk (by decide) (by decide)).mp h)), if_neg h0]
  by_cases h1 : isKey 'd' k = true
  · rw [if_pos ((key_isKey 'd' k hk (by decide) (by decide)).mpr h1), if_pos h1]
    simp only [toggleTypeEnableFlag]
    rw [xor_mod_eq he (by decide), Nat.xor_zero]
  rw [if_neg (fun h => h1 ((key_isKey 'd' k hk (by decide) (by decide)).mp h)), if_neg h1]
  by_cases h2 : isKey 'i' k = true
  · rw [if_pos ((key_isKey 'i' k hk (by decide) (by decide)).mpr h2), if_pos h2]
    simp only [toggleTypeEnableFlag]
    rw [xor_mod_eq he (by decide), Nat.xor_zero]
  rw [if_neg (fun h => h2 ((key_isKey 'i' k hk (by decide) (by decide)).mp h)), if_neg h2]
  by_cases h3 : isKey 'w' k = true
  · rw [if_pos ((key_isKey 'w' k hk (by decide) (by decide)).mpr h3), if_pos h3]
    simp only [toggleTypeEnableFlag]
    rw [xor_mod_eq he (by decide), Nat.xor_zero]
  rw [if_neg (fun h => h3 ((key_isKey 'w' k hk (by decide) (by decide)).mp h)), if_neg h3]
  by_cases h4 : isKey 't' k = true
  · rw [if_pos ((key_isKey 't' k hk (by decide) (by decide)).mpr h4), if_pos h4]
    show { s with dispMode := (s.dispMode ^^^ SHOW_TIMESTAMPS) % 256 } = _
    rw [Nat.mod_eq_of_lt (Nat.xor_lt_two_pow (n := 8) hd (by decide)), Nat.xor_zero]
  rw [if_neg (fun h => h4 ((key_isKey 't' k hk (by decide) (by decide)).mp h)), if_neg h4]
  by_cases h5 : isKey 'y' k = true
  · rw [if_pos ((key_isKey 'y' k hk (by decide) (by decide)).mpr h5), if_pos h5]
    show { s with dispMode := (s.dispMode ^^^ SHOW_DATE) % 256 } = _
    rw [Nat.mod_eq_of_lt (Nat.xor_lt_two_pow (n := 8) hd (by decide)), Nat.xor_zero]
  rw [if_neg (fun h => h5 ((key_isKey 'y' k hk (by decide) (by decide)).mp h)), if_neg h5]
  by_cases h6 : isKey 'm' k = true
  · rw [if_pos ((key_isKey 'm' k hk (by decide) (by decide)).mpr h6), if_pos h6]
    show { s with dispMode := (s.dispMode ^^^ SHOW_MILLISECONDS) % 256 } = _
    rw [Nat.mod_eq_of_lt (Nat.xor_lt_two_pow (n := 8) hd (by decide)), Nat.xor_zero]
  rw [if_neg (fun h => h6 ((key_isKey 'm' k hk (by decide) (by decide)).mp h)), if_neg h6]
  by_cases h7 : isKey 'c' k = true
  · rw [if_pos ((key_isKey 'c' k hk (by decide) (by decide)).mpr h7), if_pos h7]
    show { s with dispMode := (s.dispMode ^^^ SHOW_COLOUR) % 256 } = _
    rw [Nat.mod_eq_of_lt (Nat.xor_lt_two_pow (n := 8) hd (by decide)), Nat.xor_zero]
  rw [if_neg (fun h => h7 ((key_isKey 'c' k hk (by decide) (by decide)).mp h)), if_neg h7]
  by_cases h8 : isKey 'f' k = true
  · rw [if_pos ((key_isKey 'f' k hk (by decide) (by decide)).mpr h8), if_pos h8]
    show { s with dispMode := (s.dispMode ^^^ SHOW_TYPE) % 256 } = _
    rw [Nat.mod_eq_of_lt (Nat.xor_lt_two_pow (n := 8) hd (by decide)), Nat.xor_zero]
  rw [if_neg (fun h => h8 ((key_isKey 'f' k hk (by decide) (by decide)).mp h)), if_neg h8]
  show s = _
  rw [Nat.xor_zero, Nat.xor_zero]

theorem switch_one (s : MkWifiDev) : (loop.switch s 1).1 = s := rfl

theorem Stepped.of_same {a b c : MkWifiDev} {mode : Bool} {confirm flags disp : Nat}
    {rest : List Nat} (h : Stepped a b mode confirm flags disp rest) (hc : SameMembers c b) :
    Stepped a c mode confirm flags disp rest := by
  obtain ⟨h1, h2, h3, h4, h5, h6, h7, h8, h9⟩ := h
  obtain ⟨c1, c2, c3, c4, c5, c6, c7, c8, c9⟩ := hc
  exact ⟨c2.trans h1, c6.trans h2, c3.trans h3, c1.trans h4, c9.trans h5, c4.trans h6,
    c5.trans h7, c7.trans h8, c8.trans h9⟩

/-- The command part on the reserved byte: the command-mode flag is flipped,
the byte is gone, nothing else of the members changes but the pending
confirmation, which entering command mode clears. -/
theorem arbiter_ctrl {s : MkWifiDev} {rest : List Nat} (hs : s.WF)
    (hrx : (cmdStream s).rx = 1 :: rest) :
    (arbiter s).restarts = false ∧
    Stepped s (arbiter s).state (!s.bCommandMode)
      (if s.bCommandMode then s.waitForConfirm else 0) s.enableFlags s.dispMode rest := by
  have hp : peek s = 0x01 := peek_eq hrx
  have ht : toggled s = if s.bCommandMode then taken { s with bCommandMode := false }
      else { s with bCommandMode := true } := by
    unfold toggled
    rw [if_pos hp]
  unfold arbiter
  rw [if_pos (available_ne hrx), ht]
  cases hm : s.bCommandMode
  · have hrx2 : (cmdStream { s with bCommandMode := true }).rx = 1 :: rest := hrx
    have hk : key { s with bCommandMode := true } = 1 := by
      rw [key_eq hrx2]
      exact key_one
    have hd : dispatched { s with bCommandMode := true } =
        .returned (drained { taken { s with bCommandMode := true } with waitForConfirm := 0 })
          s.bOtaBusy := by
      unfold dispatched
      rw [hk, if_neg (fun h => absurd h.2 (by decide)), if_neg (by decide), switch_one]
    simp only [Bool.false_eq_true, if_false, if_true, Bool.not_false]
    rw [hd]
    have hw : (taken { s with bCommandMode := true }).WF :=
      WF_taken (WF_of_fields hs rfl rfl rfl rfl rfl)
    have hw2 : ({ taken { s with bCommandMode := true } with waitForConfirm := 0 } :
        MkWifiDev).WF := WF_of_fields hw rfl rfl rfl rfl rfl
    obtain ⟨t1, t2, t3, t4, t5, t6, t7, t8⟩ := taken_same { s with bCommandMode := true }
    refine ⟨rfl, Stepped.of_same ?_ (drained_same hw2)⟩
    exact ⟨t2, rfl, t3, t1, taken_rx hrx2, t4, t5, t7, t8⟩
  · simp only [if_true, Bool.not_true]
    have hrx2 : (cmdStream { s with bCommandMode := false }).rx = 1 :: rest := hrx
    obtain ⟨t1, t2, t3, t4, t5, t6, t7, t8⟩ := taken_same { s with bCommandMode := false }
    rw [t2]
    simp only [Bool.false_eq_true, if_false]
    have hw : (taken { s with bCommandMode := false }).WF :=
      WF_taken (WF_of_fields hs rfl rfl rfl rfl rfl)
    refine ⟨rfl, Stepped.of_same ?_ (drained_same hw)⟩
    exact ⟨t2, t6, t3, t1, taken_rx hrx2, t4, t5, t7, t8⟩

theorem keyMask_r {k : Nat} (h : isKey 'r' k = true) : keyMask k = (0, 0) := by
  rw [isKey_iff] at h
  rcases h with h | h
  · subst h; rfl
  · have : k = 82 := by
      have e : 'r'.toNat = 114 := rfl
      omega
    subst this; rfl

/-- The command part on a key in command mode: `y` while a confirmation is
pending restarts; otherwise the byte is gone, the registers are flipped as the
key says, `r` leaves the confirmation pending and every other key clears it. -/
theorem arbiter_key {s : MkWifiDev} {k : Nat} {rest : List Nat} (hs : s.WF)
    (hm : s.bCommandMode = true) (hrx : (cmdStream s).rx = k :: rest) (hk : k < 256)
    (hk1 : k ≠ 1) :
    (arbiter s).restarts = (decide (s.waitForConfirm ≠ 0) && isKey 'y' k) ∧
    ((arbiter s).restarts = true →
      Stepped s (arbiter s).state true s.waitForConfirm s.enableFlags s.dispMode rest) ∧
    ((arbiter s).restarts = false →
      Stepped s (arbiter s).state true (if isKey 'r' k then 1 else 0)
        (s.enableFlags ^^^ (keyMask k).1) (s.dispMode ^^^ (keyMask k).2) rest) := by
  have hp : ¬ peek s = 0x01 := by
    rw [peek_eq hrx]
    exact_mod_cast hk1
  have ht : toggled s = s := by
    unfold toggled
    rw [if_neg hp]
  obtain ⟨t1, t2, t3, t4, t5, t6, t7, t8⟩ := taken_same s
  have hy := key_isKey 'y' k hk (by decide) (by decide)
  have hr := key_isKey 'r' k hk (by decide) (by decide)
  unfold arbiter
  rw [if_pos (available_ne hrx), ht, if_pos hm]
  unfold dispatched
  rw [key_eq hrx]
  by_cases h1 : s.waitForConfirm ≠ 0 ∧ toChar (tolower k) = 'y'.toNat
  · rw [if_pos h1]
    have e : (decide (s.waitForConfirm ≠ 0) && isKey 'y' k) = true := by
      rw [Bool.and_eq_true, decide_eq_true_eq]
      exact ⟨h1.1, hy.mp h1.2⟩
    rw [e]
    refine ⟨rfl, fun _ => ?_, fun h => Bool.noConfusion h⟩
    exact ⟨t2.trans hm, t6, t3, t1, taken_rx hrx, t4, t5, t7, t8⟩
  · rw [if_neg h1]
    have e : (decide (s.waitForConfirm ≠ 0) && isKey 'y' k) = false := by
      rw [Bool.and_eq_false_iff, decide_eq_false_iff_not]
      by_cases hw : s.waitForConfirm ≠ 0
      · right
        rw [Bool.eq_false_iff]
        exact fun h => h1 ⟨hw, hy.mpr h⟩
      · exact Or.inl hw
    rw [e]
    by_cases h2 : toChar (tolower k) = 'r'.toNat
    · rw [if_pos h2]
      refine ⟨rfl, fun h => Bool.noConfusion h, fun _ => ?_⟩
      rw [if_pos (hr.mp h2), keyMask_r (hr.mp h2), Nat.xor_zero, Nat.xor_zero]
      exact ⟨t2.trans hm, rfl, t3, t1, taken_rx hrx, t4, t5, t7, t8⟩
    · rw [if_neg h2]
      refine ⟨rfl, fun h => Bool.noConfusion h, fun _ => ?_⟩
      have hnr : ¬ isKey 'r' k = true := fun h => h2 (hr.mpr h)
      rw [if_neg hnr]
      have hw : (taken s).WF := WF_taken hs
      have hw2 : ({ taken s with waitForConfirm := 0 } : MkWifiDev).WF :=
        WF_of_fields hw rfl rfl rfl rfl rfl
      have hsw := switch_keyMask { taken s with waitForConfirm := 0 } k hk hw2.enableFlags_lt
        hw2.dispMode_lt
      have hw3 : (loop.switch { taken s with waitForConfirm := 0 } (toChar (tolower k))).1.WF :=
        WF_switch _ hw2
      refine Stepped.of_same ?_ (drained_same hw3)
      rw [hsw]
      refine ⟨t2.trans hm, rfl, ?_, ?_, taken_rx hrx, t4, t5, t7, t8⟩
      · show (taken s).enableFlags ^^^ _ = _
        rw [t3]
      · show (taken s).dispMode ^^^ _ = _
        rw [t1]

theorem arbiter_WF {s : MkWifiDev} (hs : s.WF) : (arbiter s).state.WF := by
  have hd : ∀ x : MkWifiDev, x.WF → (drained x).WF := by
    intro x hx
    unfold drained
    split
    · exact WF_of_fields hx rfl rfl rfl rfl rfl
    · exact hx
  unfold arbiter
  split
  · split
    · unfold dispatched
      have ht := toggled_WF hs
      split
      · exact WF_taken ht
      · split
        · exact WF_of_fields (WF_taken ht) rfl rfl rfl rfl rfl
        · exact hd _ (WF_switch _ (WF_of_fields (WF_taken ht) rfl rfl rfl rfl rfl))
    · exact hd _ (toggled_WF hs)
  · exact hd _ hs

/-- A poll whose remote part is idle goes through, and acts on the members and
the waiting input as `arbiter` says. -/
theorem loop_step (p : Poll) (s : MkWifiDev) (hs : s.WF) (hp : p.WF) (hi : RemoteIdle p s) :
    ∃ o, loop p s = .ok o ∧ o.state.WF ∧
      o.restarts = (arbiter { s with bOtaBusy := p.otaBusy }).restarts ∧
      SameMembers o.state (arbiter { s with bOtaBusy := p.otaBusy }).state := by
  obtain ⟨o, e, c⟩ := loop_core p s hs hp
  rw [settled_idle hi] at c
  have hw : (arbiter { s with bOtaBusy := p.otaBusy }).state.WF :=
    arbiter_WF (WF_of_fields hs rfl rfl rfl rfl rfl)
  have hc : core o.state = core (arbiter { s with bOtaBusy := p.otaBusy }).state := by
    have := congrArg Outcome.state c
    cases o <;> cases ha : arbiter { s with bOtaBusy := p.otaBusy } <;> rw [ha] at this <;>
      exact this
  exact ⟨o, e, WF_of_core hc hw, (outcome_of_core c).1, (outcome_of_core c).2⟩

theorem RemoteIdle.of_stepped {q : Poll} {a b : MkWifiDev} {mode : Bool}
    {confirm flags disp : Nat} {rest : List Nat} (h : Stepped a b mode confirm flags disp rest)
    (hi : RemoteIdle q a) : RemoteIdle q b := by
  obtain ⟨_, _, _, _, _, _, h7, h8, h9⟩ := h
  unfold RemoteIdle at *
  rw [h7, h8, h9]
  exact hi

theorem loops_returned {p : Poll} {ps : List Poll} {s s1 : MkWifiDev} {b : Bool}
    (h : loop p s = .ok (.returned s1 b)) : loops (p :: ps) s = loops ps s1 := by
  rw [loops, h]
  rfl

theorem loops_restarted {p : Poll} {ps : List Poll} {s s1 : MkWifiDev}
    (h : loop p s = .ok (.restarted s1)) : loops (p :: ps) s = .ok (.restarted s1) := by
  rw [loops, h]
  rfl

/-- One poll on the reserved byte. -/
theorem loop_ctrl (p : Poll) (s : MkWifiDev) (rest : List Nat) (hs : s.WF) (hp : p.WF)
    (hi : RemoteIdle p s) (hrx : (cmdStream s).rx = 1 :: rest) :
    ∃ s1 b, loop p s = .ok (.returned s1 b) ∧ s1.WF ∧
      Stepped s s1 (!s.bCommandMode) (if s.bCommandMode then s.waitForConfirm else 0)
        s.enableFlags s.dispMode rest := by
  obtain ⟨o, e, hw, hr, hm⟩ := loop_step p s hs hp hi
  have hs0 : ({ s with bOtaBusy := p.otaBusy } : MkWifiDev).WF :=
    WF_of_fields hs rfl rfl rfl rfl rfl
  have hrx0 : (cmdStream { s with bOtaBusy := p.otaBusy }).rx = 1 :: rest := hrx
  obtain ⟨a1, a2⟩ := arbiter_ctrl hs0 hrx0
  rw [a1] at hr
  have a3 : Stepped s (arbiter { s with bOtaBusy := p.otaBusy }).state (!s.bCommandMode)
      (if s.bCommandMode then s.waitForConfirm else 0) s.enableFlags s.dispMode rest := a2
  cases o with
  | returned s1 b => exact ⟨s1, b, e, hw, a3.of_same hm⟩
  | restarted s1 => exact Bool.noConfusion hr

/-- One poll on a key in command mode. -/
theorem loop_key (p : Poll) (s : MkWifiDev) (k : Nat) (rest : List Nat) (hs : s.WF)
    (hp : p.WF) (hi : RemoteIdle p s) (hm : s.bCommandMode = true)
    (hrx : (cmdStream s).rx = k :: rest) (hk : k < 256) (hk1 : k ≠ 1) :
    ∃ o, loop p s = .ok o ∧ o.state.WF ∧
      o.restarts = (decide (s.waitForConfirm ≠ 0) && isKey 'y' k) ∧
      (o.restarts = true →
        Stepped s o.state true s.waitForConfirm s.enableFlags s.dispMode rest) ∧
      (o.restarts = false →
        Stepped s o.state true (if isKey 'r' k then 1 else 0)
          (s.enableFlags ^^^ (keyMask k).1) (s.dispMode ^^^ (keyMask k).2) rest) := by
  obtain ⟨o, e, hw, hr, hsm⟩ := loop_step p s hs hp hi
  have hs0 : ({ s with bOtaBusy := p.otaBusy } : MkWifiDev).WF :=
    WF_of_fields hs rfl rfl rfl rfl rfl
  have hrx0 : (cmdStream { s with bOtaBusy := p.otaBusy }).rx = k :: rest := hrx
  have hm0 : ({ s with bOtaBusy := p.otaBusy } : MkWifiDev).bCommandMode = true := hm
  obtain ⟨a1, a2, a3⟩ := arbiter_key hs0 hm0 hrx0 hk hk1
  refine ⟨o, e, hw, hr.trans a1, fun h => ?_, fun h => ?_⟩
  · have a4 : Stepped s (arbiter { s with bOtaBusy := p.otaBusy }).state true s.waitForConfirm
        s.enableFlags s.dispMode rest := a2 (hr.symm.trans h)
    exact a4.of_same hsm
  · have a4 : Stepped s (arbiter { s with bOtaBusy := p.otaBusy }).state true
        (if isKey 'r' k then 1 else 0) (s.enableFlags ^^^ (keyMask k).1)
        (s.dispMode ^^^ (keyMask k).2) rest := a3 (hr.symm.trans h)
    exact a4.of_same hsm

/-! ## Theorems: the poll -/

theorem examplePoll_wf : examplePoll.WF :=
  ⟨exampleClock_wf, by decide, by decide, by decide, by decide⟩

theorem loops_ctrl : ∀ (ps : List Poll) (s : MkWifiDev) (rest : List Nat), s.WF →
    (∀ q ∈ ps, q.WF ∧ RemoteIdle q s) →
    (cmdStream s).rx = List.replicate ps.length 1 ++ rest →
    ∃ o, loops ps s = .ok o ∧ o.restarts = false ∧
      o.state.bCommandMode = (fun b => !b)^[ps.length] s.bCommandMode ∧
      (cmdStream o.state).rx = rest ∧ o.state.pCommand = s.pCommand
  | [], s, rest, _, _, hrx => ⟨.returned s s.bOtaBusy, rfl, rfl, rfl, hrx, rfl⟩
  | p :: ps, s, rest, hs, hp, hrx => by
    have hp0 := hp p (List.mem_cons_self _ _)
    have hrx1 : (cmdStream s).rx = 1 :: (List.replicate ps.length 1 ++ rest) := hrx
    obtain ⟨s1, b, e, hw, st⟩ := loop_ctrl p s _ hs hp0.1 hp0.2 hrx1
    obtain ⟨o, e2, r2, m2, x2, c2⟩ := loops_ctrl ps s1 rest hw
      (fun q hq => ⟨(hp q (List.mem_cons_of_mem _ hq)).1,
        RemoteIdle.of_stepped st (hp q (List.mem_cons_of_mem _ hq)).2⟩) st.2.2.2.2.1
    refine ⟨o, (loops_returned e).trans e2, r2, ?_, x2, c2.trans st.2.2.2.2.2.1⟩
    rw [m2, st.1, List.length_cons, Function.iterate_succ_apply]

theorem outcome_core_state {o a : Outcome} (h : o.core = a.core) :
    core o.state = core a.state := by
  have e := congrArg Outcome.state h
  cases o <;> cases a <;> exact e

/-- C12 (counterexample): two polls that do not flip the flag. First: command
mode is active, the reserved byte is the next byte of the serial input (the
command source), a client is waiting and none is held; the poll accepts the
client, which ends command mode, then toggles on the byte: command mode is
active after the poll as it was before. Second: Normal state, the serial input
(the command source) holds the reserved byte and the letter `a`, and a client
accepted before is due its welcome; the poll makes the client the command
source and throws both serial bytes away: command mode is not entered. -/
theorem C12_counterexample :
    (({ init with bCommandMode := true, serial := ⟨[1], []⟩ } : MkWifiDev).WF ∧
      (cmdStream { init with bCommandMode := true, serial := ⟨[1], []⟩ }).rx = [1] ∧
      ∃ o, loop { examplePoll with hasClient := true }
          { init with bCommandMode := true, serial := ⟨[1], []⟩ } = .ok o ∧
        o.restarts = false ∧ o.state.bCommandMode = true ∧ o.state.serial.rx = []) ∧
    (({ init with bSendWelcome := true, serial := ⟨[1, 97], []⟩ } : MkWifiDev).WF ∧
      (cmdStream { init with bSendWelcome := true, serial := ⟨[1, 97], []⟩ }).rx = [1, 97] ∧
      ∃ o, loop { examplePoll with valid := true, connected := true }
          { init with bSendWelcome := true, serial := ⟨[1, 97], []⟩ } = .ok o ∧
        o.restarts = false ∧ o.state.bCommandMode = false ∧ o.state.serial.rx = []) := by
  constructor
  · refine ⟨⟨by decide, by decide, by decide, rfl, by decide⟩, rfl, ?_⟩
    obtain ⟨o, e, c⟩ := loop_core { examplePoll with hasClient := true }
      { init with bCommandMode := true, serial := ⟨[1], []⟩ }
      ⟨by decide, by decide, by decide, rfl, by decide⟩
      ⟨exampleClock_wf, by decide, by decide, by decide, by decide⟩
    obtain ⟨c1, c2⟩ := outcome_of_core c
    have c3 := congrArg (fun x : MkWifiDev => x.serial.rx) (outcome_core_state c)
    exact ⟨o, e, c1.trans (by decide), c2.2.1.trans (by decide), c3.trans (by decide)⟩
  · refine ⟨⟨by decide, by decide, by decide, rfl, by decide⟩, rfl, ?_⟩
    obtain ⟨o, e, c⟩ := loop_core { examplePoll with valid := true, connected := true }
      { init with bSendWelcome := true, serial := ⟨[1, 97], []⟩ }
      ⟨by decide, by decide, by decide, rfl, by decide⟩
      ⟨exampleClock_wf, by decide, by decide, by decide, by decide⟩
    obtain ⟨c1, c2⟩ := outcome_of_core c
    have c3 := congrArg (fun x : MkWifiDev => x.serial.rx) (outcome_core_state c)
    exact ⟨o, e, c1.trans (by decide), c2.2.1.trans (by decide), c3.trans (by decide)⟩

/-- C12 (amended): for every reachable console state, Normal or CommandMode, in
which the next pending byte of the authoritative input is `0x01`, one poll whose
remote part is idle (no client accepted, welcomed or dropped in it) returns, has
flipped the command-mode flag and has removed exactly that byte from the input;
`n` such bytes processed by `n` such polls leave the flag toggled `n` times and
the input after them untouched. -/
theorem C12_reserved_byte_toggles (p : Poll) (ps : List Poll) (s : MkWifiDev)
    (rest : List Nat) (hs : s.WF) (hp : ∀ q ∈ p :: ps, q.WF ∧ RemoteIdle q s)
    (hrx : (cmdStream s).rx = 1 :: (List.replicate ps.length 1 ++ rest)) :
    (∃ o, loop p s = .ok o ∧ o.restarts = false ∧
      o.state.bCommandMode = (!s.bCommandMode) ∧
      (cmdStream o.state).rx = List.replicate ps.length 1 ++ rest ∧
      o.state.pCommand = s.pCommand) ∧
    (∃ o, loops (p :: ps) s = .ok o ∧ o.restarts = false ∧
      o.state.bCommandMode = (fun b => !b)^[ps.length + 1] s.bCommandMode ∧
      (cmdStream o.state).rx = rest ∧ o.state.pCommand = s.pCommand) := by
  have hp0 := hp p (List.mem_cons_self _ _)
  obtain ⟨s1, b, e, _, st⟩ := loop_ctrl p s _ hs hp0.1 hp0.2 hrx
  exact ⟨⟨_, e, rfl, st.1, st.2.2.2.2.1, st.2.2.2.2.2.1⟩, loops_ctrl (p :: ps) s rest hs hp hrx⟩

/-- C12 (witness): Normal state, three reserved bytes and the letter `a` in the
serial input, three polls. -/
theorem C12_reserved_byte_toggles_witness :
    ({ init with serial := ⟨[1, 1, 1, 97], []⟩ } : MkWifiDev).WF ∧
    ∃ o, loops [examplePoll, examplePoll, examplePoll]
        { init with serial := ⟨[1, 1, 1, 97], []⟩ } = .ok o ∧
      o.restarts = false ∧ o.state.bCommandMode = true ∧ (cmdStream o.state).rx = [97] := by
  refine ⟨⟨by decide, by decide, by decide, rfl, by decide⟩, ?_⟩
  obtain ⟨o, e, r, m, x, _⟩ := (C12_reserved_byte_toggles examplePoll [examplePoll, examplePoll]
    { init with serial := ⟨[1, 1, 1, 97], []⟩ } [97]
    ⟨by decide, by decide, by decide, rfl, by decide⟩
    (by
      intro q hq
      have hq2 : q = examplePoll := by
        simp only [List.mem_cons, List.mem_singleton, List.not_mem_nil, or_false, or_self] at hq
        exact hq
      subst hq2
      exact ⟨examplePoll_wf, by decide, fun h => Bool.noConfusion h, fun h => absurd rfl h⟩)
    rfl).2
  exact ⟨o, e, r, m, x⟩

/-- C14 (counterexample): command mode is active, the key before was `r` (a
restart confirmation is pending) and the key `y` is waiting. The poll restarts
the device; the date bit of `dispMode` is not flipped. -/
theorem C14_counterexample :
    ({ init with bCommandMode := true, waitForConfirm := 1, serial := ⟨[121], []⟩ } :
      MkWifiDev).WF ∧
    ∃ o, loop examplePoll
        { init with bCommandMode := true, waitForConfirm := 1, serial := ⟨[121], []⟩ } = .ok o ∧
      o.restarts = true ∧ o.state.dispMode = init.dispMode ∧
      init.dispMode ≠ init.dispMode ^^^ SHOW_DATE := by
  refine ⟨⟨by decide, by decide, by decide, rfl, by decide⟩, ?_⟩
  obtain ⟨o, e, c⟩ := loop_core examplePoll
    { init with bCommandMode := true, waitForConfirm := 1, serial := ⟨[121], []⟩ }
    ⟨by decide, by decide, by decide, rfl, by decide⟩ examplePoll_wf
  obtain ⟨c1, c2⟩ := outcome_of_core c
  exact ⟨o, e, c1.trans (by decide), c2.1.trans (by decide), by decide⟩

/-- C14 (amended): while command mode is active, for every key other than the
reserved byte, in either letter case, of a poll whose remote part is idle, and
unless the key is `y` while a restart confirmation is pending: the poll returns,
`v/d/i/w` have flipped exactly the Verbose, Debug, Info, Warning bit of
`enableFlags` and `t/y/m/c/f` exactly the timestamp, date, milliseconds, colour,
severity-tag bit of `dispMode` (the masks of `keyMask`), every other bit of both
registers and, for every other key, both registers are unchanged, and command
mode is still active. -/
theorem C14_key_flips_one_bit (p : Poll) (s : MkWifiDev) (k : Nat) (rest : List Nat)
    (hs : s.WF) (hp : p.WF) (hi : RemoteIdle p s) (hm : s.bCommandMode = true)
    (hrx : (cmdStream s).rx = k :: rest) (hk : k < 256) (hk1 : k ≠ 1)
    (hc : s.waitForConfirm = 0 ∨ isKey 'y' k = false) :
    ∃ o, loop p s = .ok o ∧ o.restarts = false ∧
      o.state.enableFlags = s.enableFlags ^^^ (keyMask k).1 ∧
      o.state.dispMode = s.dispMode ^^^ (keyMask k).2 ∧
      o.state.bCommandMode = true ∧ (cmdStream o.state).rx = rest := by
  obtain ⟨o, e, _, r, _, h⟩ := loop_key p s k rest hs hp hi hm hrx hk hk1
  have hr : o.restarts = false := by
    rw [r, Bool.and_eq_false_iff, decide_eq_false_iff_not]
    rcases hc with hc | hc
    · exact Or.inl (fun h => h hc)
    · exact Or.inr hc
  obtain ⟨h1, _, h3, h4, h5, _⟩ := h hr
  exact ⟨o, e, hr, h3, h4, h1, h5⟩

/-- C14 (witness): command mode, the keys `W` and `y` and `x`, no confirmation
pending. -/
theorem C14_key_flips_one_bit_witness :
    ({ init with bCommandMode := true, serial := ⟨[87, 121], []⟩ } : MkWifiDev).WF ∧
    RemoteIdle examplePoll { init with bCommandMode := true, serial := ⟨[87, 121], []⟩ } ∧
    keyMask 87 = (16, 0) ∧ keyMask 121 = (0, 4) ∧ keyMask 120 = (0, 0) ∧
    ∃ o, loop examplePoll { init with bCommandMode := true, serial := ⟨[87, 121], []⟩ } = .ok o ∧
      o.restarts = false ∧ o.state.enableFlags = 0xEF ∧ o.state.dispMode = 9 ∧
      o.state.bCommandMode = true ∧ (cmdStream o.state).rx = [121] := by
  refine ⟨⟨by decide, by decide, by decide, rfl, by decide⟩,
    ⟨by decide, fun h => Bool.noConfusion h, fun h => absurd rfl h⟩, by decide, by decide,
    by decide, ?_⟩
  obtain ⟨o, e, r, h1, h2, h3, h4⟩ := C14_key_flips_one_bit examplePoll
    { init with bCommandMode := true, serial := ⟨[87, 121], []⟩ } 87 [121]
    ⟨by decide, by decide, by decide, rfl, by decide⟩ examplePoll_wf
    ⟨by decide, fun h => Bool.noConfusion h, fun h => absurd rfl h⟩ rfl rfl (by decide)
    (by decide) (Or.inl rfl)
  exact ⟨o, e, r, h1.trans (by decide), h2.trans (by decide), h3, h4⟩

theorem armed_of_confirm {w : Nat} {b : Bool} (h : w = if b then 1 else 0) :
    decide (w ≠ 0) = b := by
  cases b <;> simp [h]

theorem loops_keys (rest : List Nat) : ∀ (keys : List Nat) (ps : List Poll) (s : MkWifiDev),
    s.WF → s.bCommandMode = true → (∀ q ∈ ps, q.WF ∧ RemoteIdle q s) →
    ps.length = keys.length → (∀ k ∈ keys, k < 256 ∧ k ≠ 1) →
    (cmdStream s).rx = keys ++ rest →
    ∃ o, loops ps s = .ok o ∧
      o.restarts = restartsOn (decide (s.waitForConfirm ≠ 0)) keys ∧
      (o.restarts = true → ∃ pre k post, keys = pre ++ k :: post ∧ isKey 'y' k = true ∧
        armedAfter (decide (s.waitForConfirm ≠ 0)) pre = true ∧
        restartsOn (decide (s.waitForConfirm ≠ 0)) pre = false ∧
        (cmdStream o.state).rx = post ++ rest) ∧
      (o.restarts = false → o.state.bCommandMode = true ∧
        decide (o.state.waitForConfirm ≠ 0) =
          armedAfter (decide (s.waitForConfirm ≠ 0)) keys ∧
        o.state.enableFlags = keys.foldl (fun e k => e ^^^ (keyMask k).1) s.enableFlags ∧
        o.state.dispMode = keys.foldl (fun d k => d ^^^ (keyMask k).2) s.dispMode ∧
        (cmdStream o.state).rx = rest)
  | [], [], s, _, hm, _, _, _, hrx =>
    ⟨.returned s s.bOtaBusy, rfl, rfl, fun h => Bool.noConfusion h,
      fun _ => ⟨hm, rfl, rfl, rfl, hrx⟩⟩
  | [], _ :: _, _, _, _, _, hl, _, _ => absurd hl (by simp)
  | _ :: _, [], _, _, _, _, hl, _, _ => absurd hl (by simp)
  | k :: ks, p :: ps, s, hs, hm, hp, hl, hk, hrx => by
    have hp0 := hp p (List.mem_cons_self _ _)
    have hk0 := hk k (List.mem_cons_self _ _)
    have hrx1 : (cmdStream s).rx = k :: (ks ++ rest) := hrx
    obtain ⟨o1, e1, hw1, r1, y1, n1⟩ := loop_key p s k (ks ++ rest) hs hp0.1 hp0.2 hm hrx1
      hk0.1 hk0.2
    cases o1 with
    | restarted s1 =>
      have ha : (decide (s.waitForConfirm ≠ 0) && isKey 'y' k) = true := r1.symm
      have ha2 := ha
      rw [Bool.and_eq_true] at ha2
      refine ⟨.restarted s1, loops_restarted e1, ?_, fun _ => ?_, fun h => Bool.noConfusion h⟩
      · show true = restartsOn _ (k :: ks)
        rw [restartsOn, ha, Bool.true_or]
      · exact ⟨[], k, ks, rfl, ha2.2, ha2.1, rfl, (y1 rfl).2.2.2.2.1⟩
    | returned s1 b =>
      have ha : (decide (s.waitForConfirm ≠ 0) && isKey 'y' k) = false := r1.symm
      have st := n1 rfl
      have hs1 : s1.WF := hw1
      have harm : decide (s1.waitForConfirm ≠ 0) = isKey 'r' k := armed_of_confirm st.2.1
      obtain ⟨o, e2, r2, y2, n2⟩ := loops_keys rest ks ps s1 hs1 st.1
        (fun q hq => ⟨(hp q (List.mem_cons_of_mem _ hq)).1,
          RemoteIdle.of_stepped st (hp q (List.mem_cons_of_mem _ hq)).2⟩)
        (Nat.succ_injective hl) (fun x hx => hk x (List.mem_cons_of_mem _ hx)) st.2.2.2.2.1
      rw [harm] at r2 y2 n2
      refine ⟨o, (loops_returned e1).trans e2, ?_, fun h => ?_, fun h => ?_⟩
      · rw [restartsOn, ha, Bool.false_or]
        exact r2
      · obtain ⟨pre, k2, post, q1, q2, q3, q4, q5⟩ := y2 h
        refine ⟨k :: pre, k2, post, by rw [q1]; rfl, q2, q3, ?_, q5⟩
        rw [restartsOn, ha, Bool.false_or]
        exact q4
      · obtain ⟨m1, m2, m3, m4, m5⟩ := n2 h
        refine ⟨m1, m2, ?_, ?_, m5⟩
        · have e3 : s1.enableFlags = s.enableFlags ^^^ (keyMask k).1 := st.2.2.1
          rw [m3, e3]
          rfl
        · have e4 : s1.dispMode = s.dispMode ^^^ (keyMask k).2 := st.2.2.2.1
          rw [m4, e4]
          rfl

theorem examplePoll_idle (s : MkWifiDev) (h : s.termConnected = 0) :
    ∀ q ∈ List.replicate 4 examplePoll, q.WF ∧ RemoteIdle q s := by
  intro q hq
  rw [List.eq_of_mem_replicate hq]
  exact ⟨examplePoll_wf, by decide, fun _ h2 => Bool.noConfusion h2, fun h2 => absurd h h2⟩

/-- C15: for every reachable Normal state and every sequence of command-mode
keystrokes that follows the reserved byte (bytes other than `0x01`, one per poll,
the remote part idle), the run of polls ends in a restart if and only if some
keystroke `y`/`Y` comes right after a keystroke `r`/`R`; the restart is performed
on the first such `y`, the input after it untouched. Without such a pair every
poll returns, a confirmation is pending at the end exactly when the last
keystroke was `r`/`R`, and the registers are those the keys have flipped: a `y`
that does not follow an `r` flips the date bit. -/
theorem C15_restart_needs_confirmation (p : Poll) (ps : List Poll) (s : MkWifiDev)
    (keys rest : List Nat) (hs : s.WF) (hn : s.bCommandMode = false)
    (hp : ∀ q ∈ p :: ps, q.WF ∧ RemoteIdle q s) (hl : ps.length = keys.length)
    (hk : ∀ k ∈ keys, k < 256 ∧ k ≠ 1) (hrx : (cmdStream s).rx = 1 :: (keys ++ rest)) :
    ∃ o, loops (p :: ps) s = .ok o ∧ o.restarts = restartsOn false keys ∧
      (o.restarts = true → ∃ pre k post, keys = pre ++ k :: post ∧ isKey 'y' k = true ∧
        armedAfter false pre = true ∧ restartsOn false pre = false ∧
        (cmdStream o.state).rx = post ++ rest) ∧
      (o.restarts = false → o.state.bCommandMode = true ∧
        decide (o.state.waitForConfirm ≠ 0) = armedAfter false keys ∧
        o.state.enableFlags = keys.foldl (fun e k => e ^^^ (keyMask k).1) s.enableFlags ∧
        o.state.dispMode = keys.foldl (fun d k => d ^^^ (keyMask k).2) s.dispMode ∧
        (cmdStream o.state).rx = rest) := by
  have hp0 := hp p (List.mem_cons_self _ _)
  obtain ⟨s1, b, e1, hw1, st⟩ := loop_ctrl p s _ hs hp0.1 hp0.2 hrx
  rw [hn] at st
  have hm1 : s1.bCommandMode = true := st.1
  have hc1 : s1.waitForConfirm = 0 := st.2.1
  have he1 : s1.enableFlags = s.enableFlags := st.2.2.1
  have hd1 : s1.dispMode = s.dispMode := st.2.2.2.1
  obtain ⟨o, e2, h2⟩ := loops_keys rest keys ps s1 hw1 hm1
    (fun q hq => ⟨(hp q (List.mem_cons_of_mem _ hq)).1,
      RemoteIdle.of_stepped st (hp q (List.mem_cons_of_mem _ hq)).2⟩) hl hk st.2.2.2.2.1
  have ha : decide (s1.waitForConfirm ≠ 0) = false := by
    rw [hc1]
    rfl
  rw [ha, he1, hd1] at h2
  exact ⟨o, (loops_returned e1).trans e2, h2⟩

/-- C15 (witness): the reserved byte, then `r`, `x`, `y`: no restart, no
confirmation pending, the date bit flipped. The reserved byte, then `r`, `Y`:
restart. -/
theorem C15_restart_needs_confirmation_witness :
    ({ init with serial := ⟨[1, 114, 120, 121], []⟩ } : MkWifiDev).WF ∧
    (∃ o, loops [examplePoll, examplePoll, examplePoll, examplePoll]
        { init with serial := ⟨[1, 114, 120, 121], []⟩ } = .ok o ∧
      o.restarts = false ∧ o.state.waitForConfirm = 0 ∧
      o.state.dispMode = init.dispMode ^^^ SHOW_DATE ∧ (cmdStream o.state).rx = []) ∧
    (∃ o, loops [examplePoll, examplePoll, examplePoll]
        { init with serial := ⟨[1, 114, 89], []⟩ } = .ok o ∧ o.restarts = true) := by
  refine ⟨⟨by decide, by decide, by decide, rfl, by decide⟩, ?_, ?_⟩
  · obtain ⟨o, e, r, _, h⟩ := C15_restart_needs_confirmation examplePoll
      [examplePoll, examplePoll, examplePoll] { init with serial := ⟨[1, 114, 120, 121], []⟩ }
      [114, 120, 121] [] ⟨by decide, by decide, by decide, rfl, by decide⟩ rfl
      (examplePoll_idle _ rfl) rfl (by decide) rfl
    have r2 : o.restarts = false := r.trans (by decide)
    obtain ⟨_, h2, _, h4, h5⟩ := h r2
    refine ⟨o, e, r2, ?_, h4.trans (by decide), h5⟩
    have h6 : decide (o.state.waitForConfirm ≠ 0) = false := h2.trans (by decide)
    simpa using h6
  · obtain ⟨o, e, r, _, _⟩ := C15_restart_needs_confirmation examplePoll
      [examplePoll, examplePoll] { init with serial := ⟨[1, 114, 89], []⟩ }
      [114, 89] [] ⟨by decide, by decide, by decide, rfl, by decide⟩ rfl
      (fun q hq => examplePoll_idle _ rfl q (List.mem_cons_of_mem _ hq)) rfl (by decide) rfl
    exact ⟨o, e, r.trans (by decide)⟩

end MkWifiDev
